import Mathlib

/-!
# go-lbchain: light-client retrieval core, full-node constructor and mobile node set-up

The development has five parts.

* `Les`: the peer registry, request distributor and retrieve manager that
  `les.New` wires together (`newPeerSet`, `newRequestDistributor`,
  `newRetrieveManager`, `newServerPool` in `les/backend.go`).  Their bodies are
  not part of the available sources, so they are modelled from the written
  specification (sections 3, 4.1, 4.2, 4.3 and 7).
* `Eth`: the guards at the head of the full-node constructor `New`,
  `CreateConsensusEngine` and `Start` (`tst/backend.go`), `HeaderByNumber`
  (`tst/api_backend.go`) and the metered message stream (`tst/metrics.go`).
* `Mobile`: `NodeConfig`, `defaultNodeConfig`, `NewNodeConfig` and `NewNode`
  (`mobile/geth.go`).
* `P2P` and the second `Les` part: message streams and the metered message
  stream of the light node (`les/metrics.go`).
* `Whisperv6`: whisper topics, modelled after the tests of
  `whisper/whisperv6/topic_test.go`, which are translated from the source.
-/

set_option autoImplicit false

namespace Les

/-! ## Data model (specification section 3) -/

/-- Modelled from the spec: the request kinds tracked per peer (headers, bodies,
receipts, state proofs, CHT proofs, bloom-trie proofs); the Go declaration is not
in the available sources. -/
inductive Kind where
  | headers
  | bodies
  | receipts
  | stateProof
  | chtProof
  | bloomTrieProof
deriving DecidableEq, Repr

/-- Modelled from the spec: the error taxonomy of section 7. -/
inductive OdrError where
  | ErrNoPeers
  | ErrTimeout
  | AlreadyBusy
  | VerificationFailed
deriving DecidableEq, Repr

/-- Modelled from the spec: a connected peer (identity, protocol version,
advertised chain head as hash and cumulative difficulty, per-kind busy flag).
`busy` lists the kinds that have a request outstanding on the peer; every other
kind is idle.  The send handle carries no state and is left out. -/
structure Peer where
  id : Nat
  version : Nat
  headHash : Nat
  headTd : Nat
  busy : List Kind
deriving DecidableEq, Repr

/-- Modelled from the spec: the PeerRegistry of section 4.1 (`newPeerSet` in
`les/backend.go`, body unavailable): the connected peers in registration order. -/
abbrev PeerRegistry := List Peer

/-- Modelled from the spec: `register(peer)`.  A peer is created idle for every
kind on handshake completion; identities are stable, so a second registration
of an identity that is still connected leaves the registry as it is. -/
def register (reg : PeerRegistry) (p : Peer) : PeerRegistry :=
  if reg.any (fun q => q.id == p.id) then reg else reg ++ [{ p with busy := [] }]

/-- Modelled from the spec: `unregister(id)`, the peer is destroyed on disconnect. -/
def unregister (reg : PeerRegistry) (id : Nat) : PeerRegistry :=
  reg.filter (fun q => q.id != id)

/-- Modelled from the spec: the per-kind busy flag of peer `id` (false when `id` is
not registered). -/
def isBusy (reg : PeerRegistry) (id : Nat) (k : Kind) : Bool :=
  reg.any (fun q => q.id == id && q.busy.contains k)

/-- Modelled from the spec: whether a peer of identity `id` is connected. -/
def isRegistered (reg : PeerRegistry) (id : Nat) : Bool :=
  reg.any (fun q => q.id == id)

/-- Modelled from the spec: `peersServing(kind)`, the peers idle for `kind`. -/
def peersServing (reg : PeerRegistry) (k : Kind) : List Peer :=
  reg.filter (fun q => !q.busy.contains k)

/-- Modelled from the spec: `markBusy(id, kind)`.  It fails with `AlreadyBusy`
when the peer is already serving that kind and otherwise sets the flag.  The
result is the error, if any, and the table after the call. -/
def markBusy (reg : PeerRegistry) (id : Nat) (k : Kind) : Option OdrError × PeerRegistry :=
  if isBusy reg id k then (some OdrError.AlreadyBusy, reg)
  else (none, reg.map (fun q => if q.id = id then { q with busy := k :: q.busy } else q))

/-- Modelled from the spec: `markIdle(id, kind)` clears the flag. -/
def markIdle (reg : PeerRegistry) (id : Nat) (k : Kind) : PeerRegistry :=
  reg.map (fun q => if q.id = id then { q with busy := q.busy.filter (fun j => j != k) } else q)

/-! ## Request distributor (specification section 4.2) -/

/-- Modelled from the spec: a distributable request, "a capability predicate,
a cost function and a send action", with the peers already excluded for it.
The send action is recorded in the distributor's `sends` log. -/
structure DistRequest where
  id : Nat
  kind : Kind
  canServe : Peer → Bool
  cost : Peer → Nat
  excluded : List Nat

/-- Modelled from the spec: the updates the distributor makes to ServerRanking
(`recordSuccess(addr, latency)`, `recordFailure(addr)`). -/
inductive RankEvent where
  | success (peer : Nat) (latency : Nat)
  | failure (peer : Nat)
deriving DecidableEq, Repr

/-- Modelled from the spec: the state of the RequestDistributor
(`newRequestDistributor(peers, quitSync)` in `les/backend.go`, body unavailable).
`pending` is ordered by submission time, `assigned` holds the requests in flight
with the peer serving each, `results` the terminated requests, `sends` every
send action invoked, `rankLog` the ranking updates, `cancelled` the in-flight
requests whose result is to be discarded. -/
structure Distributor where
  registry : PeerRegistry
  pending : List DistRequest
  assigned : List (DistRequest × Nat)
  results : List (Nat × Except OdrError Nat)
  sends : List (Nat × Nat)
  rankLog : List RankEvent
  cancelled : List Nat
  nextId : Nat

/-- Modelled from the spec: the distributor `newRequestDistributor` returns, with
no peer and no request. -/
def Distributor.init : Distributor :=
  { registry := [], pending := [], assigned := [], results := [], sends := [],
    rankLog := [], cancelled := [], nextId := 0 }

/-- Modelled from the spec: the candidate pool of a request, the registered
peers that pass its capability predicate and are not excluded for it. -/
def candidatePool (reg : PeerRegistry) (r : DistRequest) : List Peer :=
  reg.filter (fun p => r.canServe p && !r.excluded.contains p.id)

/-- Modelled from the spec: the strict preference of step 2, lower cost first,
ties broken by higher score. -/
def better (score : Nat → ℚ) (cost : Peer → Nat) (p q : Peer) : Bool :=
  decide (cost p < cost q) || (cost p == cost q && decide (score q.id < score p.id))

/-- Modelled from the spec: step 2, "among eligible peers pick the one minimizing
the cost function (ties broken by highest peer score, then earliest-registered
peer)".  The candidates come in registration order. -/
def pickPeer (score : Nat → ℚ) (cost : Peer → Nat) : List Peer → Option Peer
  | [] => none
  | p :: ps =>
    match pickPeer score cost ps with
    | none => some p
    | some q => if better score cost q p then some q else some p

/-- Modelled from the spec: steps 2, 3 and 6 for one pending request.  With an
empty candidate pool the request fails with `ErrNoPeers`; with an idle candidate
the best one is marked busy and the send action is invoked; otherwise the
request stays pending. -/
def trySchedule (score : List RankEvent → Nat → ℚ) (s : Distributor) (r : DistRequest) :
    Distributor :=
  if (candidatePool s.registry r).isEmpty then
    { s with results := s.results ++ [(r.id, Except.error OdrError.ErrNoPeers)] }
  else
    match pickPeer (score s.rankLog) r.cost
        (candidatePool (peersServing s.registry r.kind) r) with
    | none => { s with pending := s.pending ++ [r] }
    | some p =>
      match markBusy s.registry p.id r.kind with
      | (some _, _) => { s with pending := s.pending ++ [r] }
      | (none, reg) =>
        { s with registry := reg, assigned := s.assigned ++ [(r, p.id)],
                 sends := s.sends ++ [(r.id, p.id)] }

/-- Modelled from the spec: one pass of the scheduling loop, pending requests are
offered the idle peers in submission order. -/
def schedule (score : List RankEvent → Nat → ℚ) (s : Distributor) : Distributor :=
  s.pending.foldl (trySchedule score) { s with pending := [] }

/-- Modelled from the spec: `queue(req)`, the request is appended to the pending
list under a fresh identifier. -/
def queue (s : Distributor) (k : Kind) (canServe : Peer → Bool) (cost : Peer → Nat) :
    Distributor :=
  { s with pending := s.pending ++ [{ id := s.nextId, kind := k, canServe := canServe,
                                       cost := cost, excluded := [] }],
           nextId := s.nextId + 1 }

/-- Modelled from the spec: the assignment of request `req`, if it is in flight. -/
def findAssigned (s : Distributor) (req : Nat) : Option (DistRequest × Nat) :=
  s.assigned.find? (fun a => a.1.id == req)

/-- Modelled from the spec: re-insertion into the pending list, which stays
"ordered by submission time" (identifiers grow with submission). -/
def requeue (r : DistRequest) : List DistRequest → List DistRequest
  | [] => [r]
  | x :: xs => if r.id < x.id then r :: x :: xs else x :: requeue r xs

/-- Modelled from the spec: step 4, the success callback marks the peer idle,
delivers the result and records the success with the observed latency.  The
result of a cancelled request is discarded. -/
def onSuccess (s : Distributor) (req latency value : Nat) : Distributor :=
  match findAssigned s req with
  | none => s
  | some (r, p) =>
    { s with registry := markIdle s.registry p r.kind,
             assigned := s.assigned.eraseP (fun a => a.1.id == req),
             rankLog := s.rankLog ++ [RankEvent.success p latency],
             results := if s.cancelled.contains req then s.results
                        else s.results ++ [(req, Except.ok value)],
             cancelled := s.cancelled.filter (fun c => c != req) }

/-- Modelled from the spec: step 5, on timeout or send error the peer is marked
idle, the failure is recorded, the peer is excluded for this request and the
request re-enters step 2.  A cancelled request is dropped instead. -/
def onFailure (s : Distributor) (req : Nat) : Distributor :=
  match findAssigned s req with
  | none => s
  | some (r, p) =>
    { s with registry := markIdle s.registry p r.kind,
             assigned := s.assigned.eraseP (fun a => a.1.id == req),
             rankLog := s.rankLog ++ [RankEvent.failure p],
             pending := if s.cancelled.contains req then s.pending
                        else requeue { r with excluded := p :: r.excluded } s.pending,
             cancelled := s.cancelled.filter (fun c => c != req) }

/-- Modelled from the spec: step 6, the global per-request deadline elapsed: the
request fails with `ErrTimeout`, and a peer serving it is marked idle again. -/
def onDeadline (s : Distributor) (req : Nat) : Distributor :=
  match findAssigned s req with
  | some (r, p) =>
    { s with registry := markIdle s.registry p r.kind,
             assigned := s.assigned.eraseP (fun a => a.1.id == req),
             results := if s.cancelled.contains req then s.results
                        else s.results ++ [(req, Except.error OdrError.ErrTimeout)],
             cancelled := s.cancelled.filter (fun c => c != req) }
  | none =>
    if s.pending.any (fun r => r.id == req) then
      { s with pending := s.pending.filter (fun r => r.id != req),
               results := s.results ++ [(req, Except.error OdrError.ErrTimeout)] }
    else s

/-- Modelled from the spec: cancellation.  A pending request is withdrawn; an
attempt in flight "is allowed to complete but its result is discarded". -/
def onCancel (s : Distributor) (req : Nat) : Distributor :=
  if s.pending.any (fun r => r.id == req) then
    { s with pending := s.pending.filter (fun r => r.id != req) }
  else if (findAssigned s req).isSome then
    { s with cancelled := req :: s.cancelled }
  else s

/-- Modelled from the spec: on `unregister`, "any requests currently assigned to
that peer are signaled as failed so RequestDistributor can retry elsewhere":
each is handled as in step 5 (failure recorded, peer excluded, request back in
the pending list unless cancelled), and the peer leaves the registry. -/
def onUnregister (s : Distributor) (id : Nat) : Distributor :=
  { s with
    registry := unregister s.registry id,
    assigned := s.assigned.filter (fun a => a.2 != id),
    rankLog := s.rankLog ++ (s.assigned.filter (fun a => a.2 == id)).map
      (fun _ => RankEvent.failure id),
    pending := (s.assigned.filter (fun a => a.2 == id && !s.cancelled.contains a.1.id)).foldl
      (fun pend a => requeue { a.1 with excluded := id :: a.1.excluded } pend) s.pending,
    cancelled := s.cancelled.filter
      (fun c => !(s.assigned.any (fun a => a.2 == id && a.1.id == c))) }

/-- Modelled from the spec: the events that reach the distributor's single event
queue (section 9). -/
inductive DistEvent where
  | register (p : Peer)
  | unregister (id : Nat)
  | queue (k : Kind) (canServe : Peer → Bool) (cost : Peer → Nat)
  | success (req latency value : Nat)
  | failure (req : Nat)
  | deadline (req : Nat)
  | cancel (req : Nat)

/-- Modelled from the spec: the state change an event makes before the scheduling
loop runs. -/
def Distributor.handle (s : Distributor) : DistEvent → Distributor
  | DistEvent.register p => { s with registry := register s.registry p }
  | DistEvent.unregister id => onUnregister s id
  | DistEvent.queue k canServe cost => queue s k canServe cost
  | DistEvent.success req latency value => onSuccess s req latency value
  | DistEvent.failure req => onFailure s req
  | DistEvent.deadline req => onDeadline s req
  | DistEvent.cancel req => onCancel s req

/-- Modelled from the spec: the scheduling loop wakes on every event ("a new idle
peer becoming available, or a new request arriving"). -/
def Distributor.step (score : List RankEvent → Nat → ℚ) (s : Distributor) (e : DistEvent) :
    Distributor :=
  schedule score (s.handle e)

/-- Modelled from the spec: the distributor after a history of events. -/
def Distributor.run (score : List RankEvent → Nat → ℚ) (evs : List DistEvent) : Distributor :=
  evs.foldl (Distributor.step score) Distributor.init

/-- Exclusivity of one distributor state: two different assignments never agree
on both the peer and the request kind. -/
def Exclusive (s : Distributor) : Prop :=
  s.assigned.Pairwise (fun a b => ¬ (a.2 = b.2 ∧ a.1.kind = b.1.kind))

/-- Number of requests of kind `k` assigned to peer `p`. -/
def assignedCount (s : Distributor) (p : Nat) (k : Kind) : Nat :=
  (s.assigned.filter (fun a => a.2 == p && a.1.kind == k)).length

/-! ## Retrieve manager (specification section 4.3) -/

/-- Modelled from the spec: a domain-level query, kind and key, carrying its
verification function (raw response to accepted value, `none` for a response
that fails the check) and the capability predicate and cost of the request
built for it. -/
structure OdrQuery where
  kind : Kind
  key : Nat
  verify : Nat → Option Nat
  canServe : Peer → Bool
  cost : Peer → Nat

/-- Modelled from the spec: one in-flight query with its waiters.  The peers
already tried are kept in the `excluded` list of its request `req`; the deadline
is the `deadline` event. -/
structure PendingEntry where
  kind : Kind
  key : Nat
  req : Nat
  verify : Nat → Option Nat
  waiters : List Nat

/-- Modelled from the spec: what a caller of `retrieve` receives, the value or the
error, with the identity and request it was waiting on. -/
structure Delivery where
  caller : Nat
  kind : Kind
  key : Nat
  req : Nat
  outcome : Except OdrError Nat

/-- Modelled from the spec: the state of the RetrieveManager
(`newRetrieveManager(peers, reqDist, serverPool)` in `les/backend.go`, body
unavailable). -/
structure RetrieveManager where
  dist : Distributor
  entries : List PendingEntry
  delivered : List Delivery

/-- Modelled from the spec: the retrieve manager `newRetrieveManager` returns. -/
def RetrieveManager.init : RetrieveManager :=
  { dist := Distributor.init, entries := [], delivered := [] }

/-- Modelled from the spec: the events of the retrieval core, peers connecting
and disconnecting, calls of `retrieve`, responses, per-attempt timeouts, query
deadlines and caller-side cancellations. -/
inductive Event where
  | register (p : Peer)
  | unregister (id : Nat)
  | retrieve (q : OdrQuery) (caller : Nat)
  | response (req payload latency : Nat)
  | timeout (req : Nat)
  | deadline (req : Nat)
  | cancel (caller : Nat) (kind : Kind) (key : Nat)

/-- Modelled from the spec: the failure the distributor reported for request
`req`, if any. -/
def failureOf (d : Distributor) (req : Nat) : Option OdrError :=
  d.results.findSome? (fun x =>
    if x.1 = req then (match x.2 with
      | Except.error e => some e
      | Except.ok _ => none) else none)

/-- Modelled from the spec: "all waiters receive the same eventual result", the
deliveries that resolve entry `e` with `outcome`. -/
def deliverAll (e : PendingEntry) (outcome : Except OdrError Nat) : List Delivery :=
  e.waiters.map (fun c =>
    { caller := c, kind := e.kind, key := e.key, req := e.req, outcome := outcome })

/-- Modelled from the spec: terminal failures.  Every entry whose request the
distributor has failed is removed and each of its waiters receives the error:
`ErrNoPeers` on exhaustion and `ErrTimeout` on an elapsed deadline, the two
errors that reach the caller by section 7 ("only exhaustion or overall deadline
reaches the caller") and by the properties of section 8.  Section 4.3 calls the
first of them `ErrNotFound`, a name the taxonomy of section 7 does not have; the
model follows sections 7 and 8. -/
def settle (s : RetrieveManager) : RetrieveManager :=
  { s with
    entries := s.entries.filter (fun e => (failureOf s.dist e.req).isNone),
    delivered := s.delivered ++ s.entries.flatMap (fun e =>
      match failureOf s.dist e.req with
      | none => []
      | some err => deliverAll e (Except.error err)) }

/-- Modelled from the spec: the pending entry of identity `(k, key)`. -/
def findEntry (s : RetrieveManager) (k : Kind) (key : Nat) : Option PendingEntry :=
  s.entries.find? (fun e => e.kind == k && e.key == key)

/-- Modelled from the spec: one event of the retrieval core.

* `retrieve`: on a fresh identity an entry is created and a request queued; if an
  entry for the identity exists "the caller is added to its waiter set instead
  of issuing a new network request".
* `response`: the completion callback runs the query's `verify`; an accepted value
  goes to all waiters, a rejected response is a failure of the answering peer.
* `cancel`: the caller leaves the waiter set; when no waiter is left the entry is
  removed and the request cancelled. -/
def RetrieveManager.step (score : List RankEvent → Nat → ℚ) (s : RetrieveManager) :
    Event → RetrieveManager
  | Event.register p => settle { s with dist := s.dist.step score (DistEvent.register p) }
  | Event.unregister id => settle { s with dist := s.dist.step score (DistEvent.unregister id) }
  | Event.retrieve q c =>
    match findEntry s q.kind q.key with
    | some _ =>
      { s with entries := s.entries.map (fun e =>
          if e.kind = q.kind ∧ e.key = q.key then { e with waiters := e.waiters ++ [c] } else e) }
    | none =>
      settle { s with
        dist := s.dist.step score (DistEvent.queue q.kind q.canServe q.cost),
        entries := s.entries ++ [{ kind := q.kind, key := q.key, req := s.dist.nextId,
                                   verify := q.verify, waiters := [c] }] }
  | Event.response req payload latency =>
    match findAssigned s.dist req with
    | none => s
    | some _ =>
      match s.entries.find? (fun e => e.req == req) with
      | none => settle { s with dist := s.dist.step score (DistEvent.success req latency payload) }
      | some e =>
        match e.verify payload with
        | some v =>
          settle { dist := s.dist.step score (DistEvent.success req latency v),
                   entries := s.entries.filter (fun x => x.req != req),
                   delivered := s.delivered ++ deliverAll e (Except.ok v) }
        | none => settle { s with dist := s.dist.step score (DistEvent.failure req) }
  | Event.timeout req => settle { s with dist := s.dist.step score (DistEvent.failure req) }
  | Event.deadline req => settle { s with dist := s.dist.step score (DistEvent.deadline req) }
  | Event.cancel c k key =>
    match findEntry s k key with
    | none => s
    | some e =>
      if (e.waiters.filter (fun w => w != c)).isEmpty then
        settle { s with dist := s.dist.step score (DistEvent.cancel e.req),
                        entries := s.entries.filter (fun x => !(x.kind == k && x.key == key)) }
      else
        { s with entries := s.entries.map (fun x =>
            if x.kind = k ∧ x.key = key then { x with waiters := x.waiters.filter (fun w => w != c) }
            else x) }

/-- Modelled from the spec: the retrieve manager after a history of events. -/
def RetrieveManager.run (score : List RankEvent → Nat → ℚ) (evs : List Event) : RetrieveManager :=
  evs.foldl (RetrieveManager.step score) RetrieveManager.init

/-- The invariant behind exclusivity: assignments are pairwise exclusive and the
peer of every assignment is marked busy for the kind of the request. -/
def DistInv (s : Distributor) : Prop :=
  Exclusive s ∧ ∀ a ∈ s.assigned, isBusy s.registry a.2 a.1.kind = true


/-- Bookkeeping invariant of the distributor: request identifiers are fresh
(below `nextId`), no identifier occurs twice among the pending and in-flight
requests, and every assignment was made by a recorded send. -/
def IdInv (s : Distributor) : Prop :=
  (∀ r ∈ s.pending, r.id < s.nextId) ∧
  (∀ a ∈ s.assigned, a.1.id < s.nextId) ∧
  (∀ x ∈ s.sends, x.1 < s.nextId) ∧
  (s.pending.map (fun r => r.id) ++ s.assigned.map (fun a => a.1.id)).Nodup ∧
  (∀ a ∈ s.assigned, (a.1.id, a.2) ∈ s.sends)


/-- Bookkeeping invariant of the retrieve manager: at most one pending entry per
identity and per request, entries and deliveries only name requests that were
queued, a request that has been delivered has no pending entry any more, and all
deliveries made for one request carry the same outcome. -/
def RMInv (s : RetrieveManager) : Prop :=
  (s.entries.map (fun e => (e.kind, e.key))).Nodup ∧
  (s.entries.map (fun e => e.req)).Nodup ∧
  (∀ e ∈ s.entries, e.req < s.dist.nextId) ∧
  (∀ d ∈ s.delivered, d.req < s.dist.nextId) ∧
  (∀ e ∈ s.entries, ∀ d ∈ s.delivered, d.req ≠ e.req) ∧
  (∀ d1 ∈ s.delivered, ∀ d2 ∈ s.delivered, d1.req = d2.req → d1.outcome = d2.outcome)


/-- Number of pending entries of identity `(k, key)`. -/
def entryCount (s : RetrieveManager) (k : Kind) (key : Nat) : Nat :=
  (s.entries.filter (fun e => e.kind == k && e.key == key)).length

/-- Number of send actions invoked for request `req`. -/
def sendCount (d : Distributor) (req : Nat) : Nat :=
  (d.sends.filter (fun x => x.1 == req)).length

/-- Caller-side cancellations, the one event that ends a wait without a result. -/
def Event.isCancel : Event → Bool
  | Event.cancel _ _ _ => true
  | _ => false


/-! ## Sample data for concrete instances -/

/-- A ranking that scores every peer alike. -/
def flatScore : List RankEvent → Nat → ℚ := fun _ _ => 0

/-- A freshly connected peer with identity `i`. -/
def samplePeer (i : Nat) : Peer :=
  { id := i, version := 2, headHash := 0, headTd := 10, busy := [] }

/-- A state-proof query for key 7 that accepts the payload 5 (as value 55) and
nothing else, can be served by every peer and prefers higher identities. -/
def sampleQuery : OdrQuery :=
  { kind := Kind.stateProof, key := 7,
    verify := fun x => if x = 5 then some 55 else none,
    canServe := fun _ => true,
    cost := fun p => 10 - p.id }

/-- A state-proof query for key 7 for which every response fails verification. -/
def rejectingQuery : OdrQuery :=
  { kind := Kind.stateProof, key := 7,
    verify := fun _ => none,
    canServe := fun _ => true,
    cost := fun p => 10 - p.id }


/-- The `retrieve` call that created request `req` in the history `hist`: the call
of query `q` by caller `c` that found no pending entry for its identity, in the
state reached by the events `pre` before it, and so queued the request with the
next identifier. -/
def Creates (score : List RankEvent → Nat → ℚ) (hist : List Event) (q : OdrQuery) (c req : Nat) :
    Prop :=
  ∃ pre post, hist = pre ++ Event.retrieve q c :: post ∧
    findEntry (RetrieveManager.run score pre) q.kind q.key = none ∧
    (RetrieveManager.run score pre).dist.nextId = req


/-- Registry invariant: no two registered peers share an identity. -/
def RegInv (reg : PeerRegistry) : Prop := (reg.map (fun p => p.id)).Nodup


/-- Cancelled requests were queued once and have no pending entry. -/
def CancInv (s : RetrieveManager) : Prop :=
  (∀ c ∈ s.dist.cancelled, c < s.dist.nextId) ∧ (∀ e ∈ s.entries, e.req ∉ s.dist.cancelled)


/-- The places a request can be in after the scheduling loop has seen it: in
flight on some peer, still pending, or failed with `ErrNoPeers`. -/
def Landed (s : Distributor) (r : DistRequest) : Prop :=
  (∃ p, (r, p) ∈ s.assigned) ∨ r ∈ s.pending ∨
    (r.id, Except.error OdrError.ErrNoPeers) ∈ s.results


/-- The retrieval core while request 0 of query `q`, made for caller `c`, is in
flight on peer `a`: the peers `E` are excluded, `S` are the sends and `L` the
ranking updates made so far, and `B` is the registry with every peer idle. -/
def roundState (B : PeerRegistry) (q : OdrQuery) (c : Nat) (E : List Nat) (a : Nat)
    (S : List (Nat × Nat)) (L : List RankEvent) : RetrieveManager :=
  { dist := { registry := (markBusy B a q.kind).2, pending := [],
              assigned := [(⟨0, q.kind, q.canServe, q.cost, E⟩, a)], results := [],
              sends := S, rankLog := L, cancelled := [], nextId := 1 },
    entries := [⟨q.kind, q.key, 0, q.verify, [c]⟩],
    delivered := [] }

/-- The retrieval core after request 0 of query `q` has exhausted its peers. -/
def doneState (B : PeerRegistry) (q : OdrQuery) (c : Nat) (S : List (Nat × Nat))
    (L : List RankEvent) : RetrieveManager :=
  { dist := { registry := B, pending := [], assigned := [],
              results := [(0, Except.error OdrError.ErrNoPeers)],
              sends := S, rankLog := L, cancelled := [], nextId := 1 },
    entries := [],
    delivered := [⟨c, q.kind, q.key, 0, Except.error OdrError.ErrNoPeers⟩] }

end Les

namespace Eth

/-! ## Full-node constructor (`tst/backend.go`) -/

/-- The fields of the service configuration that the head of `New` and `CreateDB`
read.  `SyncMode` is `downloader.SyncMode`, a Go `int`. -/
structure Config where
  SyncMode : Int
  DatabaseCache : Int
  DatabaseHandles : Int
deriving DecidableEq, Repr

/-- The part of `node.ServiceContext` that is used: `OpenDatabase(name, cache,
handles)`, which yields a database or an error. -/
structure ServiceContext (Db : Type) where
  OpenDatabase : String → Int → Int → Except String Db

/-- The function `CreateDB`: the chain database is opened through the service
context.  The second component lists the databases whose opening was requested. -/
def CreateDB {Db : Type} (ctx : ServiceContext Db) (config : Config) (name : String) :
    Except String Db × List String :=
  (ctx.OpenDatabase name config.DatabaseCache config.DatabaseHandles, [name])

/-- The function `New` of the full node.  `lightSync` is the constant
`downloader.LightSync` and `isValid` the method `SyncMode.IsValid`, neither of
which is in the available sources; `rest` is the remainder of the constructor
from `upgradeDeduplicateData` on.  The result is the service or the error, with
the databases whose opening was requested. -/
def New {Db Service : Type} (lightSync : Int) (isValid : Int → Bool)
    (ctx : ServiceContext Db) (config : Config) (rest : Db → Except String Service) :
    Except String Service × List String :=
  if config.SyncMode = lightSync then
    (Except.error "can't run lbchain-dev.lbchain-devchain in light sync mode, use les.Lightlbchain-devchain",
      [])
  else if !isValid config.SyncMode then
    (Except.error ("invalid sync mode " ++ toString config.SyncMode), [])
  else
    match CreateDB ctx config "chaindata" with
    | (Except.error err, opened) => (Except.error err, opened)
    | (Except.ok chainDb, opened) => (rest chainDb, opened)

end Eth

namespace Les

/-! ## Light-service constructor (`les/backend.go`) -/

/-- The head of the light-service constructor `les.New` (`les/backend.go`): the
database is opened without any test of the sync mode; `rest` is the remainder of
the constructor from `core.SetupGenesisBlock` on. -/
def New {Db Service : Type} (ctx : Eth.ServiceContext Db) (config : Eth.Config)
    (rest : Db → Except String Service) : Except String Service × List String :=
  match Eth.CreateDB ctx config "lightchaindata" with
  | (Except.error err, opened) => (Except.error err, opened)
  | (Except.ok chainDb, opened) => (rest chainDb, opened)

end Les

namespace Mobile

/-! ## Mobile node set-up (`mobile/geth.go`)

The identifiers `Boolbchain-devrapNodes`, `lbchain-devchainEnabled`, ... of the source
contain a hyphen; it is dropped here and the part after it capitalised. -/

/-- The type `Enodes` (declared outside the available sources): a slice of
discovery nodes, each stood for by a number. -/
structure Enodes where
  nodes : List Nat
deriving DecidableEq, Repr

/-- The method `Enodes.Size`. -/
def Enodes.Size (e : Enodes) : Int := e.nodes.length

/-- The struct `NodeConfig`.  `BoolbchainDevrapNodes` is a `*Enodes`: `none` is
nil, `some a` the address of an `Enodes` object. -/
structure NodeConfig where
  BoolbchainDevrapNodes : Option Nat
  MaxPeers : Int
  lbchainDevchainEnabled : Bool
  lbchainDevchainNetworkID : Int
  lbchainDevchainGenesis : String
  lbchainDevchainDatabaseCache : Int
  lbchainDevchainNelbchainDevats : String
  WhisperEnabled : Bool
deriving DecidableEq, Repr

/-- The memory of the package: the `NodeConfig` and `Enodes` objects by address. -/
structure Memory where
  configs : List NodeConfig
  enodes : List Enodes
deriving DecidableEq, Repr

/-- The package variable `defaultNodeConfig`, a pointer to the first `NodeConfig`. -/
def defaultNodeConfig : Nat := 0

/-- The Go zero value of `NodeConfig`. -/
def zeroNodeConfig : NodeConfig :=
  { BoolbchainDevrapNodes := none, MaxPeers := 0, lbchainDevchainEnabled := false,
    lbchainDevchainNetworkID := 0, lbchainDevchainGenesis := "",
    lbchainDevchainDatabaseCache := 0, lbchainDevchainNelbchainDevats := "",
    WhisperEnabled := false }

/-- The value `defaultNodeConfig` is initialised with; its bootstrap nodes are
the object `FoundationBootnodes()` returned, held at address 0. -/
def defaultNodeConfigValue : NodeConfig :=
  { zeroNodeConfig with
    BoolbchainDevrapNodes := some 0,
    MaxPeers := 25,
    lbchainDevchainEnabled := true,
    lbchainDevchainNetworkID := 1,
    lbchainDevchainDatabaseCache := 16 }

/-- The memory after package initialisation; `foundation` is the result of
`FoundationBootnodes()`, which is not in the available sources. -/
def Memory.init (foundation : Enodes) : Memory :=
  { configs := [defaultNodeConfigValue], enodes := [foundation] }

/-- Reading `*p` for a `*NodeConfig`. -/
def Memory.load (m : Memory) (p : Nat) : NodeConfig := m.configs.getD p zeroNodeConfig

/-- Assignment to fields of `*p`. -/
def Memory.store (m : Memory) (p : Nat) (f : NodeConfig → NodeConfig) : Memory :=
  { m with configs := m.configs.set p (f (m.load p)) }

/-- The function `NewNodeConfig`: `config := *defaultNodeConfig; return &config`.
The copy is placed at a fresh address, which is returned. -/
def NewNodeConfig (m : Memory) : Nat × Memory :=
  (m.configs.length, { m with configs := m.configs ++ [m.load defaultNodeConfig] })

/-- What client code does with node configurations: it calls `NewNodeConfig`,
assigns to fields of the `i`-th configuration that a call returned, or creates
an `Enodes` object of its own (to which a configuration may then point). -/
inductive ClientOp where
  | call
  | assign (i : Nat) (f : NodeConfig → NodeConfig)
  | newEnodes (e : Enodes)

/-- The memory together with the pointers handed out so far. -/
structure Client where
  mem : Memory
  returned : List Nat

/-- One client operation. -/
def Client.exec (c : Client) : ClientOp → Client
  | ClientOp.call =>
    { mem := (NewNodeConfig c.mem).2, returned := c.returned ++ [(NewNodeConfig c.mem).1] }
  | ClientOp.assign i f =>
    match c.returned.get? i with
    | none => c
    | some p => { c with mem := c.mem.store p f }
  | ClientOp.newEnodes e => { c with mem := { c.mem with enodes := c.mem.enodes ++ [e] } }

/-- The client state after a sequence of operations on the initial memory. -/
def Client.run (foundation : Enodes) (ops : List ClientOp) : Client :=
  ops.foldl Client.exec { mem := Memory.init foundation, returned := [] }


/-- The struct `p2p.Config` as far as `NewNode` fills it; `NAT` stands for the
port mapper `nat.Any()`. -/
structure P2PConfig where
  NoDiscovery : Bool
  DiscoveryV5 : Bool
  BoolbchainDevrapNodesV5 : List Nat
  ListenAddr : String
  NAT : String
  MaxPeers : Int
deriving DecidableEq, Repr

/-- The struct `node.Config` as far as `NewNode` fills it. -/
structure NodeConf where
  Name : String
  Version : String
  DataDir : String
  KeyStoreDir : String
  P2P : P2PConfig
deriving DecidableEq, Repr

/-- The fields of the service configuration that `NewNode` sets on its copy of
the default configuration. -/
structure ServiceConf (Genesis : Type) where
  Genesis : Option Genesis
  SyncMode : Int
  NetworkId : Nat
  DatabaseCache : Int

/-- The services `NewNode` registers: the light protocol, the stats reporter
with its connection string, and Whisper. -/
inductive Service (Genesis : Type) where
  | les (conf : ServiceConf Genesis)
  | stats (url : String)
  | whisper

/-- The networking stack `node.New` returns: its configuration and the services
registered on it. -/
structure Stack (Genesis : Type) where
  conf : NodeConf
  services : List (Service Genesis)

/-- What `NewNode` takes from outside the available sources: the constants
`clientIdentifier`, `params.Version`, `downloader.LightSync`, the default service
configuration and the testnet genesis and chain configuration, `filepath.Join`,
`nat.Any()`, JSON decoding of a genesis, and the errors, if any, of `node.New`
and of `Register`. -/
structure Env (Genesis : Type) where
  clientIdentifier : String
  Version : String
  Join : String → String → String
  natAny : String
  nodeNew : NodeConf → Option String
  Unmarshal : String → Except String Genesis
  TestnetGenesis : String
  TestnetChainConfig : Genesis → Genesis
  DefaultConfig : ServiceConf Genesis
  LightSync : Int
  Register : Stack Genesis → Service Genesis → Option String

/-- The test `config.BoolbchainDevrapNodes == nil || config.BoolbchainDevrapNodes.Size() == 0`. -/
def bootEmpty (m : Memory) (b : Option Nat) : Bool :=
  match b with
  | none => true
  | some a => (m.enodes.getD a ⟨[]⟩).Size == 0

/-- Lines 104 to 106 of `NewNode`: `if config.MaxPeers == 0` the default's
`MaxPeers` is assigned. -/
def defaultMaxPeers (m : Memory) (p : Nat) : Memory :=
  if (m.load p).MaxPeers = 0 then
    m.store p (fun c => { c with MaxPeers := (m.load defaultNodeConfig).MaxPeers })
  else m

/-- Lines 107 to 109 of `NewNode`: a nil or empty bootstrap list is replaced by
the default's. -/
def defaultBootnodes (m : Memory) (p : Nat) : Memory :=
  if bootEmpty m (m.load p).BoolbchainDevrapNodes then
    m.store p (fun c =>
      { c with BoolbchainDevrapNodes := (m.load defaultNodeConfig).BoolbchainDevrapNodes })
  else m

/-- Lines 100 to 109 of `NewNode`: a nil `config` is replaced by `NewNodeConfig()`,
a zero `MaxPeers` and a nil or empty bootstrap list by the defaults.  The result
is the configuration pointer in use and the memory. -/
def applyDefaults (m : Memory) (config : Option Nat) : Nat × Memory :=
  let r : Nat × Memory :=
    match config with
    | none => NewNodeConfig m
    | some p => (p, m)
  (r.1, defaultBootnodes (defaultMaxPeers r.2 r.1) r.1)

/-- Lines 111 to 124 of `NewNode`: the `node.Config` built from the configuration
at `cp`; `none` when `config.BoolbchainDevrapNodes` is nil, where Go panics. -/
def nodeConfig {Genesis : Type} (env : Env Genesis) (m : Memory) (datadir : String) (cp : Nat) :
    Option NodeConf :=
  match (m.load cp).BoolbchainDevrapNodes with
  | none => none
  | some a =>
    some { Name := env.clientIdentifier,
           Version := env.Version,
           DataDir := datadir,
           KeyStoreDir := env.Join datadir "keystore",
           P2P := { NoDiscovery := true,
                    DiscoveryV5 := true,
                    BoolbchainDevrapNodesV5 := (m.enodes.getD a ⟨[]⟩).nodes,
                    ListenAddr := ":0",
                    NAT := env.natAny,
                    MaxPeers := (m.load cp).MaxPeers } }

/-- Lines 130 to 144 of `NewNode`: the genesis given by the user, if any; for the
testnet genesis the chain configuration is hard coded and network 1 becomes 3. -/
def parseGenesis {Genesis : Type} (env : Env Genesis) (m : Memory) (cp : Nat) :
    Except String (Option Genesis) × Memory :=
  if (m.load cp).lbchainDevchainGenesis = "" then (Except.ok none, m)
  else
    match env.Unmarshal (m.load cp).lbchainDevchainGenesis with
    | Except.error err => (Except.error ("invalid genesis spec: " ++ err), m)
    | Except.ok g =>
      if (m.load cp).lbchainDevchainGenesis = env.TestnetGenesis then
        (Except.ok (some (env.TestnetChainConfig g)),
          if (m.load cp).lbchainDevchainNetworkID = 1 then
            m.store cp (fun c => { c with lbchainDevchainNetworkID := 3 })
          else m)
      else (Except.ok (some g), m)

/-- The call `rawStack.Register(...)` with its error wrapped under `label`. -/
def registerService {Genesis : Type} (env : Env Genesis) (label : String)
    (st : Stack Genesis) (svc : Service Genesis) : Except String (Stack Genesis) :=
  match env.Register st svc with
  | some err => Except.error (label ++ " init: " ++ err)
  | none => Except.ok { st with services := st.services ++ [svc] }

/-- Lines 145 to 177 of `NewNode`: the services are registered as requested. -/
def registerServices {Genesis : Type} (env : Env Genesis) (cfg : NodeConfig)
    (genesis : Option Genesis) (rawStack : Stack Genesis) : Except String (Stack Genesis) :=
  let withChain : Except String (Stack Genesis) :=
    if cfg.lbchainDevchainEnabled then
      match registerService env "lbchain-devereum" rawStack
          (Service.les { env.DefaultConfig with
            Genesis := genesis,
            SyncMode := env.LightSync,
            NetworkId := (cfg.lbchainDevchainNetworkID % 2 ^ 64).toNat,
            DatabaseCache := cfg.lbchainDevchainDatabaseCache }) with
      | Except.error err => Except.error err
      | Except.ok st =>
        if cfg.lbchainDevchainNelbchainDevats ≠ "" then
          registerService env "nelbchain-devats" st (Service.stats cfg.lbchainDevchainNelbchainDevats)
        else Except.ok st
    else Except.ok rawStack
  match withChain with
  | Except.error err => Except.error err
  | Except.ok st =>
    if cfg.WhisperEnabled then registerService env "whisper" st Service.whisper
    else Except.ok st

/-- The function `NewNode(datadir, config)`, with `config` a pointer or nil.  The
result is the node or the error, and the memory after the call. -/
def NewNode {Genesis : Type} (env : Env Genesis) (m : Memory) (datadir : String)
    (config : Option Nat) : Except String (Stack Genesis) × Memory :=
  let r := applyDefaults m config
  match nodeConfig env r.2 datadir r.1 with
  | none => (Except.error "invalid memory address or nil pointer dereference", r.2)
  | some nodeConf =>
    match env.nodeNew nodeConf with
    | some err => (Except.error err, r.2)
    | none =>
      match parseGenesis env r.2 r.1 with
      | (Except.error err, m2) => (Except.error err, m2)
      | (Except.ok genesis, m2) =>
        (registerServices env (m2.load r.1) genesis { conf := nodeConf, services := [] }, m2)

/-- Sample surroundings for concrete runs: every outside call succeeds. -/
def sampleEnv : Env Unit :=
  { clientIdentifier := "GlbchainDevMobile",
    Version := "1.8.0",
    Join := fun a b => a ++ "/" ++ b,
    natAny := "any",
    nodeNew := fun _ => none,
    Unmarshal := fun _ => Except.ok (),
    TestnetGenesis := "testnet",
    TestnetChainConfig := fun g => g,
    DefaultConfig := { Genesis := none, SyncMode := 1, NetworkId := 1, DatabaseCache := 128 },
    LightSync := 2,
    Register := fun _ _ => none }

/-- The sample default bootstrap nodes. -/
def sampleFoundation : Enodes := ⟨[11, 12, 13]⟩

/-- The invariant of client states: `defaultNodeConfig` still holds its initial
value, the default bootstrap object is untouched, and every returned pointer is
a valid address other than that of `defaultNodeConfig`. -/
def Client.Inv (foundation : Enodes) (c : Client) : Prop :=
  c.mem.load defaultNodeConfig = defaultNodeConfigValue ∧
  c.mem.enodes.head? = some foundation ∧
  0 < c.mem.configs.length ∧
  ∀ p ∈ c.returned, 0 < p ∧ p < c.mem.configs.length

end Mobile

namespace P2P

/-! ## Message streams (`p2p.MsgReadWriter`) -/

/-- The fields of `p2p.Msg` that the metered streams read: `Code` (a `uint64`)
and `Size` (a `uint32`). -/
structure Msg where
  Code : Nat
  Size : Nat
deriving DecidableEq, Repr

/-- The two methods of the interface `p2p.MsgReadWriter` for a stream whose
state has type `S`: `ReadMsg() (Msg, error)` and `WriteMsg(Msg) error`, each
with the state of the stream after the call. -/
structure MsgReadWriter (S : Type) where
  ReadMsg : S → (Msg × Option String) × S
  WriteMsg : S → Msg → Option String × S

end P2P

namespace Eth

/-! ## Metered message stream of the full node (`tst/metrics.go`) -/

/-- The eight groups of meters declared in `tst/metrics.go`. -/
inductive MeterGroup where
  | propTxn | propHash | propBlock | reqHeader | reqBody | reqState | reqReceipt | misc
deriving DecidableEq, Repr

/-- Direction of the traffic a meter counts (`in` or `out` in its name). -/
inductive Direction where
  | inbound | outbound
deriving DecidableEq, Repr

/-- Quantity a meter counts (`packets` or `traffic` in its name). -/
inductive Quantity where
  | packets | traffic
deriving DecidableEq, Repr

/-- A registered meter, identified by the three parts of its registered name
`lbchain-dev/<group>/<direction>/<quantity>`. -/
structure Meter where
  group : MeterGroup
  dir : Direction
  qty : Quantity
deriving DecidableEq, Repr

def propTxnInPacketsMeter : Meter := ⟨.propTxn, .inbound, .packets⟩
def propTxnInTrafficMeter : Meter := ⟨.propTxn, .inbound, .traffic⟩
def propTxnOutPacketsMeter : Meter := ⟨.propTxn, .outbound, .packets⟩
def propTxnOutTrafficMeter : Meter := ⟨.propTxn, .outbound, .traffic⟩
def propHashInPacketsMeter : Meter := ⟨.propHash, .inbound, .packets⟩
def propHashInTrafficMeter : Meter := ⟨.propHash, .inbound, .traffic⟩
def propHashOutPacketsMeter : Meter := ⟨.propHash, .outbound, .packets⟩
def propHashOutTrafficMeter : Meter := ⟨.propHash, .outbound, .traffic⟩
def propBlockInPacketsMeter : Meter := ⟨.propBlock, .inbound, .packets⟩
def propBlockInTrafficMeter : Meter := ⟨.propBlock, .inbound, .traffic⟩
def propBlockOutPacketsMeter : Meter := ⟨.propBlock, .outbound, .packets⟩
def propBlockOutTrafficMeter : Meter := ⟨.propBlock, .outbound, .traffic⟩
def reqHeaderInPacketsMeter : Meter := ⟨.reqHeader, .inbound, .packets⟩
def reqHeaderInTrafficMeter : Meter := ⟨.reqHeader, .inbound, .traffic⟩
def reqHeaderOutPacketsMeter : Meter := ⟨.reqHeader, .outbound, .packets⟩
def reqHeaderOutTrafficMeter : Meter := ⟨.reqHeader, .outbound, .traffic⟩
def reqBodyInPacketsMeter : Meter := ⟨.reqBody, .inbound, .packets⟩
def reqBodyInTrafficMeter : Meter := ⟨.reqBody, .inbound, .traffic⟩
def reqBodyOutPacketsMeter : Meter := ⟨.reqBody, .outbound, .packets⟩
def reqBodyOutTrafficMeter : Meter := ⟨.reqBody, .outbound, .traffic⟩
def reqStateInPacketsMeter : Meter := ⟨.reqState, .inbound, .packets⟩
def reqStateInTrafficMeter : Meter := ⟨.reqState, .inbound, .traffic⟩
def reqStateOutPacketsMeter : Meter := ⟨.reqState, .outbound, .packets⟩
def reqStateOutTrafficMeter : Meter := ⟨.reqState, .outbound, .traffic⟩
def reqReceiptInPacketsMeter : Meter := ⟨.reqReceipt, .inbound, .packets⟩
def reqReceiptInTrafficMeter : Meter := ⟨.reqReceipt, .inbound, .traffic⟩
def reqReceiptOutPacketsMeter : Meter := ⟨.reqReceipt, .outbound, .packets⟩
def reqReceiptOutTrafficMeter : Meter := ⟨.reqReceipt, .outbound, .traffic⟩
def miscInPacketsMeter : Meter := ⟨.misc, .inbound, .packets⟩
def miscInTrafficMeter : Meter := ⟨.misc, .inbound, .traffic⟩
def miscOutPacketsMeter : Meter := ⟨.misc, .outbound, .packets⟩
def miscOutTrafficMeter : Meter := ⟨.misc, .outbound, .traffic⟩

/-- The state of the package-level meters: the count of each. -/
abbrev Meters := Meter → Int

/-- Modelled from the spec: `Meter.Mark(n)` of the `metrics` package, which is
not in the available sources, records `n` events, that is, it adds `n` to the
count of the meter and touches no other meter. -/
def Mark (ms : Meters) (m : Meter) (n : Int) : Meters :=
  fun x => if x = m then ms x + n else ms x

/-- The constants of `tst/protocol.go` that `tst/metrics.go` reads; their
declarations are not in the available sources.  `lbchainDev63` is the protocol
version constant written `lbchain-dev63`; the others are message codes. -/
structure Protocol where
  lbchainDev63 : Int
  NewBlockHashesMsg : Nat
  TxMsg : Nat
  BlockHeadersMsg : Nat
  BlockBodiesMsg : Nat
  NewBlockMsg : Nat
  NodeDataMsg : Nat
  ReceiptsMsg : Nat
deriving DecidableEq, Repr

/-- The struct `meteredMsgReadWriter`: the wrapped stream and the protocol
version. -/
structure meteredMsgReadWriter (S : Type) where
  MsgReadWriter : S
  version : Int
deriving DecidableEq, Repr

/-- The value of interface type `p2p.MsgReadWriter` that `newMeteredMsgWriter`
returns: either the stream it was given or a pointer to a metered wrapper. -/
inductive Stream (S : Type) where
  | given (rw : S)
  | metered (w : meteredMsgReadWriter S)
deriving DecidableEq, Repr

/-- The function `newMeteredMsgWriter`; `enabled` is the variable
`metrics.Enabled`. -/
def newMeteredMsgWriter {S : Type} (enabled : Bool) (rw : S) : Stream S :=
  if !enabled then Stream.given rw
  else Stream.metered { MsgReadWriter := rw, version := 0 }

/-- The method `Init`: sets the protocol version. -/
def meteredMsgReadWriter.Init {S : Type} (rw : meteredMsgReadWriter S) (version : Int) :
    meteredMsgReadWriter S :=
  { rw with version := version }

/-- The `switch` of `ReadMsg`: the packets and traffic meters of an incoming
message, starting from the miscellaneous pair. -/
def inMeters (P : Protocol) (version : Int) (code : Nat) : Meter × Meter :=
  if code = P.BlockHeadersMsg then (reqHeaderInPacketsMeter, reqHeaderInTrafficMeter)
  else if code = P.BlockBodiesMsg then (reqBodyInPacketsMeter, reqBodyInTrafficMeter)
  else if version ≥ P.lbchainDev63 ∧ code = P.NodeDataMsg then
    (reqStateInPacketsMeter, reqStateInTrafficMeter)
  else if version ≥ P.lbchainDev63 ∧ code = P.ReceiptsMsg then
    (reqReceiptInPacketsMeter, reqReceiptInTrafficMeter)
  else if code = P.NewBlockHashesMsg then (propHashInPacketsMeter, propHashInTrafficMeter)
  else if code = P.NewBlockMsg then (propBlockInPacketsMeter, propBlockInTrafficMeter)
  else if code = P.TxMsg then (propTxnInPacketsMeter, propTxnInTrafficMeter)
  else (miscInPacketsMeter, miscInTrafficMeter)

/-- The `switch` of `WriteMsg`: the packets and traffic meters of an outgoing
message, starting from the miscellaneous pair. -/
def outMeters (P : Protocol) (version : Int) (code : Nat) : Meter × Meter :=
  if code = P.BlockHeadersMsg then (reqHeaderOutPacketsMeter, reqHeaderOutTrafficMeter)
  else if code = P.BlockBodiesMsg then (reqBodyOutPacketsMeter, reqBodyOutTrafficMeter)
  else if version ≥ P.lbchainDev63 ∧ code = P.NodeDataMsg then
    (reqStateOutPacketsMeter, reqStateOutTrafficMeter)
  else if version ≥ P.lbchainDev63 ∧ code = P.ReceiptsMsg then
    (reqReceiptOutPacketsMeter, reqReceiptOutTrafficMeter)
  else if code = P.NewBlockHashesMsg then (propHashOutPacketsMeter, propHashOutTrafficMeter)
  else if code = P.NewBlockMsg then (propBlockOutPacketsMeter, propBlockOutTrafficMeter)
  else if code = P.TxMsg then (propTxnOutPacketsMeter, propTxnOutTrafficMeter)
  else (miscOutPacketsMeter, miscOutTrafficMeter)

/-- The method `ReadMsg` of the metered stream: the message is read from the
wrapped stream; on an error it is returned at once, otherwise the selected
packets meter is marked with 1 and the traffic meter with the message size. -/
def meteredMsgReadWriter.ReadMsg {S : Type} (io : P2P.MsgReadWriter S) (P : Protocol)
    (rw : meteredMsgReadWriter S) (ms : Meters) :
    (P2P.Msg × Option String) × meteredMsgReadWriter S × Meters :=
  match io.ReadMsg rw.MsgReadWriter with
  | ((msg, some err), s) => ((msg, some err), { rw with MsgReadWriter := s }, ms)
  | ((msg, none), s) =>
    let (packets, traffic) := inMeters P rw.version msg.Code
    ((msg, none), { rw with MsgReadWriter := s },
      Mark (Mark ms packets 1) traffic (msg.Size : Int))

/-- The method `WriteMsg` of the metered stream: the selected packets meter is
marked with 1 and the traffic meter with the message size, then the message is
written to the wrapped stream, whose error is returned. -/
def meteredMsgReadWriter.WriteMsg {S : Type} (io : P2P.MsgReadWriter S) (P : Protocol)
    (rw : meteredMsgReadWriter S) (msg : P2P.Msg) (ms : Meters) :
    Option String × meteredMsgReadWriter S × Meters :=
  let (packets, traffic) := outMeters P rw.version msg.Code
  let ms1 := Mark (Mark ms packets 1) traffic (msg.Size : Int)
  match io.WriteMsg rw.MsgReadWriter msg with
  | (err, s) => (err, { rw with MsgReadWriter := s }, ms1)

/-- The grouping of message codes as the specification words it: headers,
bodies, new hashes, new blocks and transactions have their own group at every
version; node data and receipts have theirs from version 63 on; the rest is
miscellaneous. -/
def specGroup (P : Protocol) (version : Int) (code : Nat) : MeterGroup :=
  if code = P.BlockHeadersMsg then .reqHeader
  else if code = P.BlockBodiesMsg then .reqBody
  else if code = P.NewBlockHashesMsg then .propHash
  else if code = P.NewBlockMsg then .propBlock
  else if code = P.TxMsg then .propTxn
  else if code = P.NodeDataMsg ∧ version ≥ 63 then .reqState
  else if code = P.ReceiptsMsg ∧ version ≥ 63 then .reqReceipt
  else .misc

/-- The protocol constants as go-ethereum declares them, used as sample values. -/
def sampleProtocol : Protocol :=
  { lbchainDev63 := 63, NewBlockHashesMsg := 1, TxMsg := 2, BlockHeadersMsg := 4,
    BlockBodiesMsg := 6, NewBlockMsg := 7, NodeDataMsg := 14, ReceiptsMsg := 16 }

/-- A sample wrapped stream: its state is the list of messages still to be read;
reading an empty stream fails with `EOF`, writing always succeeds. -/
def sampleIO : P2P.MsgReadWriter (List P2P.Msg) where
  ReadMsg := fun s =>
    match s with
    | [] => (({ Code := 0, Size := 0 }, some "EOF"), [])
    | m :: rest => ((m, none), rest)
  WriteMsg := fun s _ => (none, s)

/-! ## Header lookup of the API backend (`tst/api_backend.go`) -/

/-- What `HeaderByNumber` reaches through the backend at the time of the call:
the miner's pending block (`miner.PendingBlock()`), the chain's current block
(`blockchain.CurrentBlock()`), the chain's header lookup
(`blockchain.GetHeaderByNumber`, a nil pointer being `none`) and the header of a
block (`Block.Header()`). -/
structure ApiBackend (Block Header : Type) where
  PendingBlock : Block
  CurrentBlock : Block
  GetHeaderByNumber : Nat → Option Header
  Header : Block → Header

/-- The two constants of type `rpc.BlockNumber` (an `int64`) that
`HeaderByNumber` compares with; their declarations are not in the available
sources. -/
structure BlockNumbers where
  PendingBlockNumber : Int
  LatestBlockNumber : Int
deriving DecidableEq, Repr

/-- The conversion `uint64(x)` of a signed 64-bit integer. -/
def uint64 (x : Int) : Nat := (x % 2 ^ 64).toNat

/-- The method `HeaderByNumber`: the returned header pointer and the returned
error. -/
def HeaderByNumber {Block Header : Type} (rpc : BlockNumbers) (b : ApiBackend Block Header)
    (blockNr : Int) : Option Header × Option String :=
  if blockNr = rpc.PendingBlockNumber then
    let block := b.PendingBlock
    (some (b.Header block), none)
  else if blockNr = rpc.LatestBlockNumber then
    (some (b.Header b.CurrentBlock), none)
  else
    (b.GetHeaderByNumber (uint64 blockNr), none)

/-- The values go-ethereum gives the two block-number constants, used as sample
values. -/
def sampleBlockNumbers : BlockNumbers := { PendingBlockNumber := -2, LatestBlockNumber := -1 }

/-- A sample backend over numbers: block `n` has header `n + 1000`, the pending
block is 8, the current block is 7 and headers 0 to 7 are known. -/
def sampleBackend : ApiBackend Nat Nat where
  PendingBlock := 8
  CurrentBlock := 7
  GetHeaderByNumber := fun n => if n ≤ 7 then some (n + 1000) else none
  Header := fun n => n + 1000

/-! ## Consensus engine (`tst/backend.go`) -/

/-- The fields of `ethash.Config` that `CreateConsensusEngine` reads or sets.
`PowMode` is `ethash.Mode`, an unsigned integer. -/
structure EthashConfig where
  CacheDir : String
  CachesInMem : Int
  CachesOnDisk : Int
  DatasetDir : String
  DatasetsInMem : Int
  DatasetsOnDisk : Int
  PowMode : Nat
deriving DecidableEq, Repr

/-- The three constants of type `ethash.Mode` that `CreateConsensusEngine`
compares with; their declarations are not in the available sources. -/
structure PowModes where
  ModeFake : Nat
  ModeTest : Nat
  ModeShared : Nat
deriving DecidableEq, Repr

/-- The engines `CreateConsensusEngine` can return, by the constructor that
makes them: `clique.New(config, db)`, `ethash.NewFaker()`, `ethash.NewTester()`,
`ethash.NewShared()`, and `ethash.New(config)` together with the thread count
last set on it (0 when never set). -/
inductive Engine (Clique Db : Type) where
  | clique (config : Clique) (db : Db)
  | faker
  | tester
  | shared
  | ethash (config : EthashConfig) (threads : Int)
deriving DecidableEq, Repr

/-- The method `SetThreads` of the regular proof-of-work engine. -/
def Engine.SetThreads {Clique Db : Type} (threads : Int) : Engine Clique Db → Engine Clique Db
  | Engine.ethash config _ => Engine.ethash config threads
  | e => e

/-- The function `CreateConsensusEngine`.  `ResolvePath` is the method of the
service context, `clique` is the field `chainConfig.Clique` (`none` for nil). -/
def CreateConsensusEngine {Clique Db : Type} (modes : PowModes) (ResolvePath : String → String)
    (config : EthashConfig) (clique : Option Clique) (db : Db) : Engine Clique Db :=
  match clique with
  | some c => Engine.clique c db
  | none =>
    if config.PowMode = modes.ModeFake then Engine.faker
    else if config.PowMode = modes.ModeTest then Engine.tester
    else if config.PowMode = modes.ModeShared then Engine.shared
    else
      let engine : Engine Clique Db := Engine.ethash
        { CacheDir := ResolvePath config.CacheDir,
          CachesInMem := config.CachesInMem,
          CachesOnDisk := config.CachesOnDisk,
          DatasetDir := config.DatasetDir,
          DatasetsInMem := config.DatasetsInMem,
          DatasetsOnDisk := config.DatasetsOnDisk,
          PowMode := 0 } 0
      engine.SetThreads (-1)

/-- The values go-ethereum gives the mode constants, used as sample values. -/
def sampleModes : PowModes := { ModeFake := 3, ModeTest := 2, ModeShared := 1 }

/-- A sample proof-of-work configuration with the given mode. -/
def sampleEthash (mode : Nat) : EthashConfig :=
  { CacheDir := "ethash", CachesInMem := 2, CachesOnDisk := 3, DatasetDir := "/d",
    DatasetsInMem := 1, DatasetsOnDisk := 2, PowMode := mode }

/-! ## Starting the full node (`tst/backend.go`) -/

/-- The result of an operation on Go's `int` (64 bits wide), wrapped around into
the range from `-2^63` to `2^63 - 1`. -/
def wrapInt (x : Int) : Int := (x + 2 ^ 63) % 2 ^ 64 - 2 ^ 63

/-- The values of Go's `int` (64 bits wide). -/
def isInt (x : Int) : Prop := -(2 ^ 63) ≤ x ∧ x < 2 ^ 63

instance (x : Int) : Decidable (isInt x) := by unfold isInt; infer_instance

/-- The two fields of the service configuration that `Start` reads. -/
structure LightConfig where
  LightServ : Int
  LightPeers : Int
deriving DecidableEq, Repr

/-- What `Start` sets going, in order: the bloom handlers, the RPC network
service, the protocol manager with its peer limit, and the light server. -/
inductive StartEffect where
  | startBloomHandlers
  | netRPCService
  | protocolManagerStart (maxPeers : Int)
  | lesServerStart
deriving DecidableEq, Repr

/-- The method `Start` of the full node.  `srvrMaxPeers` is `srvr.MaxPeers`,
`lesServer` tells whether `s.lesServer` is not nil.  The result is the returned
error and what was set going before the return. -/
def Start (config : LightConfig) (srvrMaxPeers : Int) (lesServer : Bool) :
    Option String × List StartEffect :=
  let begun := [StartEffect.startBloomHandlers, StartEffect.netRPCService]
  let maxPeers := srvrMaxPeers
  let limit : Except String Int :=
    if config.LightServ > 0 then
      if config.LightPeers ≥ srvrMaxPeers then
        Except.error ("invalid peer config: light peer count (" ++ toString config.LightPeers
          ++ ") >= total peer count (" ++ toString srvrMaxPeers ++ ")")
      else Except.ok (wrapInt (maxPeers - config.LightPeers))
    else Except.ok maxPeers
  match limit with
  | Except.error err => (some err, begun)
  | Except.ok maxPeers =>
    (none, begun ++ [StartEffect.protocolManagerStart maxPeers]
      ++ (if lesServer then [StartEffect.lesServerStart] else []))

end Eth

namespace Les

/-! ## Metered message stream of the light node (`les/metrics.go`) -/

/-- The four meters declared in `les/metrics.go`. -/
inductive Meter where
  | miscInPacketsMeter | miscInTrafficMeter | miscOutPacketsMeter | miscOutTrafficMeter
deriving DecidableEq, Repr

/-- The state of the package-level meters: the count of each. -/
abbrev Meters := Meter → Int

/-- Modelled from the spec: `Meter.Mark(n)` of the `metrics` package, which is
not in the available sources, adds `n` to the count of the meter and touches no
other meter. -/
def Mark (ms : Meters) (m : Meter) (n : Int) : Meters :=
  fun x => if x = m then ms x + n else ms x

/-- The struct `meteredMsgReadWriter` of the light node. -/
structure meteredMsgReadWriter (S : Type) where
  MsgReadWriter : S
  version : Int
deriving DecidableEq, Repr

/-- The value of interface type `p2p.MsgReadWriter` that `newMeteredMsgWriter`
returns: either the stream it was given or a pointer to a metered wrapper. -/
inductive Stream (S : Type) where
  | given (rw : S)
  | metered (w : meteredMsgReadWriter S)
deriving DecidableEq, Repr

/-- The function `newMeteredMsgWriter` of the light node; `enabled` is the
variable `metrics.Enabled`. -/
def newMeteredMsgWriter {S : Type} (enabled : Bool) (rw : S) : Stream S :=
  if !enabled then Stream.given rw
  else Stream.metered { MsgReadWriter := rw, version := 0 }

/-- The method `Init` of the light node: sets the protocol version. -/
def meteredMsgReadWriter.Init {S : Type} (rw : meteredMsgReadWriter S) (version : Int) :
    meteredMsgReadWriter S :=
  { rw with version := version }

/-- The method `ReadMsg` of the light node: on an error the message is returned
at once, otherwise the miscellaneous incoming meters are marked. -/
def meteredMsgReadWriter.ReadMsg {S : Type} (io : P2P.MsgReadWriter S)
    (rw : meteredMsgReadWriter S) (ms : Meters) :
    (P2P.Msg × Option String) × meteredMsgReadWriter S × Meters :=
  match io.ReadMsg rw.MsgReadWriter with
  | ((msg, some err), s) => ((msg, some err), { rw with MsgReadWriter := s }, ms)
  | ((msg, none), s) =>
    let (packets, traffic) := (Meter.miscInPacketsMeter, Meter.miscInTrafficMeter)
    ((msg, none), { rw with MsgReadWriter := s },
      Mark (Mark ms packets 1) traffic (msg.Size : Int))

/-- The method `WriteMsg` of the light node: the miscellaneous outgoing meters
are marked, then the message is written to the wrapped stream. -/
def meteredMsgReadWriter.WriteMsg {S : Type} (io : P2P.MsgReadWriter S)
    (rw : meteredMsgReadWriter S) (msg : P2P.Msg) (ms : Meters) :
    Option String × meteredMsgReadWriter S × Meters :=
  let (packets, traffic) := (Meter.miscOutPacketsMeter, Meter.miscOutTrafficMeter)
  let ms1 := Mark (Mark ms packets 1) traffic (msg.Size : Int)
  match io.WriteMsg rw.MsgReadWriter msg with
  | (err, s) => (err, { rw with MsgReadWriter := s }, ms1)

end Les


namespace Whisperv6

/-! ## Whisper topics (`whisper/whisperv6/topic_test.go`)

The file `topic.go` that declares `TopicType`, `BytesToTopic`, `String` and the
text unmarshalling is not in the available sources; they are modelled after what
the tests of `topic_test.go` require, and the tests themselves are translated
from the source. -/

/-- A byte. -/
abbrev Byte := Fin 256

/-- The length of a topic in bytes: the test tables write every `TopicType` with
four elements. -/
def TopicLength : Nat := 4

/-- The type `TopicType`: an array of `TopicLength` bytes. -/
structure TopicType where
  b0 : Byte
  b1 : Byte
  b2 : Byte
  b3 : Byte
deriving DecidableEq, Repr

/-- The zero value of `TopicType`. -/
def TopicType.zero : TopicType := ⟨0, 0, 0, 0⟩

/-- The index expression `t[i]`, for `i` below `TopicLength`. -/
def TopicType.get (t : TopicType) (i : Nat) : Byte :=
  match i with
  | 0 => t.b0
  | 1 => t.b1
  | 2 => t.b2
  | 3 => t.b3
  | _ => 0

/-- The assignment `t[i] = v`, for `i` below `TopicLength`. -/
def TopicType.set (t : TopicType) (i : Nat) (v : Byte) : TopicType :=
  match i with
  | 0 => { t with b0 := v }
  | 1 => { t with b1 := v }
  | 2 => { t with b2 := v }
  | 3 => { t with b3 := v }
  | _ => t

/-- The slice `t[:]`. -/
def TopicType.bytes (t : TopicType) : List Byte := [t.b0, t.b1, t.b2, t.b3]

/-- Modelled from the spec: the function `BytesToTopic` of `topic.go`, which is
not in the available sources.  As `bytesToTopicTests` requires, the first
`TopicLength` bytes of the slice, or all of them when there are fewer, are
copied into a zero topic.  A nil slice is the empty list. -/
def BytesToTopic (b : List Byte) : TopicType :=
  let sz := if b.length < TopicLength then b.length else TopicLength
  (List.range sz).foldl (fun t i => t.set i (b.getD i 0)) TopicType.zero

/-- The sixteen lower-case hexadecimal digits, in order. -/
def hextable : List Char := "0123456789abcdef".toList

/-- The hexadecimal digit of a number below 16. -/
def hexChar (n : Nat) : Char := hextable.getD n '0'

/-- The two hexadecimal digits of a byte, high nibble first. -/
def encodeByte (b : Byte) : List Char := [hexChar (b.val / 16), hexChar (b.val % 16)]

/-- Modelled from the spec: the method `String` of `TopicType` (`topic.go`, not
in the available sources).  As `topicStringTests` requires, the result is `0x`
followed by the two lower-case hexadecimal digits of each byte, in byte order. -/
def TopicType.String (t : TopicType) : String :=
  String.mk ('0' :: 'x' :: t.bytes.flatMap encodeByte)

/-- The value of a hexadecimal digit, of either case; `none` for any other
character. -/
def decodeNibble (c : Char) : Option Nat :=
  if '0'.toNat ≤ c.toNat ∧ c.toNat ≤ '9'.toNat then some (c.toNat - '0'.toNat)
  else if 'a'.toNat ≤ c.toNat ∧ c.toNat ≤ 'f'.toNat then some (c.toNat - 'a'.toNat + 10)
  else if 'A'.toNat ≤ c.toNat ∧ c.toNat ≤ 'F'.toNat then some (c.toNat - 'A'.toNat + 10)
  else none

/-- The byte written by two hexadecimal digits, high nibble first. -/
def decodeByte (hi lo : Char) : Option Byte :=
  match decodeNibble hi, decodeNibble lo with
  | some h, some l => some (Fin.ofNat (16 * h + l))
  | _, _ => none

/-- Modelled from the spec: the text unmarshalling of `TopicType` (`topic.go`
and the hexadecimal decoder it relies on, not in the available sources).  As
the tests `TestUnmarshalTestsGood`, `TestUnmarshalTestsBad` and
`TestUnmarshalTestsUgly` require, the text must be `0x` followed by an even
number of characters, `2 * TopicLength` of them, all hexadecimal digits; the
bytes are then taken in the order written. -/
def UnmarshalText (input : String) : Except String TopicType :=
  match input.data with
  | '0' :: 'x' :: raw =>
    if raw.length % 2 ≠ 0 then Except.error "hex string of odd length"
    else if raw.length / 2 ≠ TopicLength then
      Except.error ("hex string has length " ++ toString raw.length ++ ", want "
        ++ toString (2 * TopicLength) ++ " for Topic")
    else
      match raw with
      | [c0, c1, c2, c3, c4, c5, c6, c7] =>
        match decodeByte c0 c1, decodeByte c2 c3, decodeByte c4 c5, decodeByte c6 c7 with
        | some a, some b, some c, some d => Except.ok ⟨a, b, c, d⟩
        | _, _, _, _ => Except.error "invalid hex string"
      | _ => Except.error "invalid hex string"
  | _ => Except.error "hex string without 0x prefix"

/-- The double quote character. -/
def quoteChar : Char := Char.ofNat 34

/-- The backslash character. -/
def backslashChar : Char := Char.ofNat 92

/-- A character that stands for itself inside a JSON string literal: neither a
double quote, nor a backslash, nor a control character. -/
def plainChar (c : Char) : Bool := c != quoteChar && c != backslashChar && decide (32 ≤ c.toNat)

/-- The JSON string literal of a text without characters to escape. -/
def jsonQuote (value : String) : String := String.mk (quoteChar :: (value.data ++ [quoteChar]))

/-- The value of a JSON string literal without escape sequences; `none` for any
other input.  Escape sequences and JSON values other than strings are outside
this model. -/
def jsonStringValue (data : String) : Option String :=
  match data.data with
  | [] => none
  | first :: rest =>
    match rest.reverse with
    | [] => none
    | last :: inner =>
      if first = quoteChar ∧ last = quoteChar ∧ inner.all plainChar then
        some (String.mk inner.reverse)
      else none

/-- The call `json.Unmarshal(data, &top)` for a `TopicType`, on a JSON string
literal: the value of the literal is handed to the text unmarshalling. -/
def Unmarshal (data : String) : Except String TopicType :=
  match jsonStringValue data with
  | some value => UnmarshalText value
  | none => Except.error "not a JSON string literal"

/-- The table `topicStringTests`. -/
def topicStringTests : List (TopicType × String) :=
  [ (⟨0x00, 0x00, 0x00, 0x00⟩, "0x00000000"),
    (⟨0x00, 0x7f, 0x80, 0xff⟩, "0x007f80ff"),
    (⟨0xff, 0x80, 0x7f, 0x00⟩, "0xff807f00"),
    (⟨0xf2, 0x6e, 0x77, 0x79⟩, "0xf26e7779") ]

/-- The test `TestTopicString`: true when no row fails. -/
def TestTopicString : Bool :=
  topicStringTests.all (fun row => row.1.String == row.2)

/-- The table `bytesToTopicTests`, each row as the topic and the data; the last
row, whose data is nil, has the empty list. -/
def bytesToTopicTests : List (TopicType × List Byte) :=
  [ (⟨0x8f, 0x9a, 0x2b, 0x7d⟩, [0x8f, 0x9a, 0x2b, 0x7d]),
    (⟨0x00, 0x7f, 0x80, 0xff⟩, [0x00, 0x7f, 0x80, 0xff]),
    (⟨0x00, 0x00, 0x00, 0x00⟩, [0x00, 0x00, 0x00, 0x00]),
    (⟨0x00, 0x00, 0x00, 0x00⟩, [0x00, 0x00, 0x00]),
    (⟨0x01, 0x00, 0x00, 0x00⟩, [0x01]),
    (⟨0x00, 0xfe, 0x00, 0x00⟩, [0x00, 0xfe]),
    (⟨0xea, 0x1d, 0x43, 0x00⟩, [0xea, 0x1d, 0x43]),
    (⟨0x6f, 0x3c, 0xb0, 0xdd⟩, [0x6f, 0x3c, 0xb0, 0xdd, 0x0f, 0x00, 0x90]),
    (⟨0x00, 0x00, 0x00, 0x00⟩, []),
    (⟨0x00, 0x00, 0x00, 0x00⟩, []) ]

/-- The test `TestBytesToTopic`: true when no row fails. -/
def TestBytesToTopic : Bool :=
  bytesToTopicTests.all (fun row => BytesToTopic row.2 == row.1)

/-- The table `unmarshalTestsGood`. -/
def unmarshalTestsGood : List (TopicType × String) :=
  [ (⟨0x00, 0x00, 0x00, 0x00⟩, jsonQuote "0x00000000"),
    (⟨0x00, 0x7f, 0x80, 0xff⟩, jsonQuote "0x007f80ff"),
    (⟨0xff, 0x80, 0x7f, 0x00⟩, jsonQuote "0xff807f00"),
    (⟨0xf2, 0x6e, 0x77, 0x79⟩, jsonQuote "0xf26e7779") ]

/-- The table `unmarshalTestsBad`. -/
def unmarshalTestsBad : List (TopicType × String) :=
  [ (⟨0x00, 0x00, 0x00, 0x00⟩, jsonQuote "0x000000"),
    (⟨0x00, 0x00, 0x00, 0x00⟩, jsonQuote "0x0000000"),
    (⟨0x00, 0x00, 0x00, 0x00⟩, jsonQuote "0x000000000"),
    (⟨0x00, 0x00, 0x00, 0x00⟩, jsonQuote "0x0000000000"),
    (⟨0x00, 0x00, 0x00, 0x00⟩, jsonQuote "000000"),
    (⟨0x00, 0x00, 0x00, 0x00⟩, jsonQuote "0000000"),
    (⟨0x00, 0x00, 0x00, 0x00⟩, jsonQuote "000000000"),
    (⟨0x00, 0x00, 0x00, 0x00⟩, jsonQuote "0000000000"),
    (⟨0x00, 0x00, 0x00, 0x00⟩, jsonQuote "abcdefg0") ]

/-- The table `unmarshalTestsUgly`. -/
def unmarshalTestsUgly : List (TopicType × String) :=
  [ (⟨0x01, 0x00, 0x00, 0x00⟩, jsonQuote "0x00000001") ]

/-- The test `TestUnmarshalTestsGood`: unmarshalling must succeed and give the
topic of the row. -/
def TestUnmarshalTestsGood : Bool :=
  unmarshalTestsGood.all (fun row =>
    match Unmarshal row.2 with
    | Except.error _ => false
    | Except.ok top => top == row.1)

/-- The test `TestUnmarshalTestsBad`: unmarshalling must fail. -/
def TestUnmarshalTestsBad : Bool :=
  unmarshalTestsBad.all (fun row =>
    match Unmarshal row.2 with
    | Except.error _ => true
    | Except.ok _ => false)

/-- The test `TestUnmarshalTestsUgly`: unmarshalling must succeed and give a
topic other than the one of the row. -/
def TestUnmarshalTestsUgly : Bool :=
  unmarshalTestsUgly.all (fun row =>
    match Unmarshal row.2 with
    | Except.error _ => false
    | Except.ok top => top != row.1)

/-- A hexadecimal digit, as the specification words it: one of the digits and
the letters a to f in either case. -/
def isHexDigit (c : Char) : Bool := "0123456789abcdefABCDEF".toList.contains c

/-- A lower-case hexadecimal digit. -/
def isLowerHexDigit (c : Char) : Bool := "0123456789abcdef".toList.contains c

/-- A well-formed topic text, as the specification words it: `0x` followed by
exactly 8 hexadecimal digits. -/
def wellFormed (value : String) : Bool :=
  match value.data with
  | '0' :: 'x' :: raw => decide (raw.length = 8) && raw.all isHexDigit
  | _ => false

/-- Whether every character of a text stands for itself in a JSON string
literal. -/
def plainText (value : String) : Bool := value.data.all plainChar

end Whisperv6


/-! # Proofs -/

namespace Les

/-! ## Registry lemmas -/

theorem isBusy_iff (reg : PeerRegistry) (id : Nat) (k : Kind) :
    isBusy reg id k = true ↔ ∃ q ∈ reg, q.id = id ∧ k ∈ q.busy := by
  simp [isBusy, List.any_eq_true]

theorem isRegistered_iff (reg : PeerRegistry) (id : Nat) :
    isRegistered reg id = true ↔ ∃ q ∈ reg, q.id = id := by
  simp [isRegistered, List.any_eq_true]

theorem isBusy_markBusy_self (reg : PeerRegistry) (id : Nat) (k : Kind)
    (h : isRegistered reg id = true) : isBusy (markBusy reg id k).2 id k = true := by
  unfold markBusy
  by_cases hb : isBusy reg id k = true
  · simp [hb]
  · obtain ⟨q, hq, hid⟩ := (isRegistered_iff reg id).1 h
    simp only [hb, Bool.false_eq_true, if_false]
    rw [isBusy_iff]
    exact ⟨{ q with busy := k :: q.busy }, List.mem_map.2 ⟨q, hq, by simp [hid]⟩, hid, by simp⟩

theorem isBusy_markBusy_mono (reg : PeerRegistry) (id id' : Nat) (k k' : Kind)
    (h : isBusy reg id' k' = true) : isBusy (markBusy reg id k).2 id' k' = true := by
  unfold markBusy
  by_cases hb : isBusy reg id k = true
  · simpa [hb] using h
  · obtain ⟨q, hq, hid, hk⟩ := (isBusy_iff reg id' k').1 h
    simp only [hb, Bool.false_eq_true, if_false]
    rw [isBusy_iff]
    by_cases hq' : q.id = id
    · exact ⟨{ q with busy := k :: q.busy }, List.mem_map.2 ⟨q, hq, by simp [hq']⟩, hid,
        List.mem_cons_of_mem _ hk⟩
    · exact ⟨q, List.mem_map.2 ⟨q, hq, by simp [hq']⟩, hid, hk⟩

theorem isBusy_markIdle_other (reg : PeerRegistry) (id id' : Nat) (k k' : Kind)
    (hne : ¬ (id' = id ∧ k' = k)) (h : isBusy reg id' k' = true) :
    isBusy (markIdle reg id k) id' k' = true := by
  obtain ⟨q, hq, hid, hk⟩ := (isBusy_iff reg id' k').1 h
  rw [isBusy_iff]
  by_cases hq' : q.id = id
  · refine ⟨{ q with busy := q.busy.filter (fun j => j != k) },
      List.mem_map.2 ⟨q, hq, by simp [hq']⟩, hid, ?_⟩
    have hkk : k' ≠ k := fun e => hne ⟨hid ▸ hq', e⟩
    simp [List.mem_filter, hk, hkk]
  · exact ⟨q, List.mem_map.2 ⟨q, hq, by simp [markIdle, hq']⟩, hid, hk⟩

theorem isBusy_unregister_other (reg : PeerRegistry) (id id' : Nat) (k' : Kind)
    (hne : id' ≠ id) (h : isBusy reg id' k' = true) :
    isBusy (unregister reg id) id' k' = true := by
  obtain ⟨q, hq, hid, hk⟩ := (isBusy_iff reg id' k').1 h
  rw [isBusy_iff]
  refine ⟨q, ?_, hid, hk⟩
  simp [unregister, List.mem_filter, hq, hid, hne]

theorem isBusy_register_mono (reg : PeerRegistry) (p : Peer) (id' : Nat) (k' : Kind)
    (h : isBusy reg id' k' = true) : isBusy (register reg p) id' k' = true := by
  obtain ⟨q, hq, hid, hk⟩ := (isBusy_iff reg id' k').1 h
  rw [isBusy_iff]
  refine ⟨q, ?_, hid, hk⟩
  unfold register
  split
  · exact hq
  · exact List.mem_append_left _ hq

/-! ## The distributor invariant -/

theorem distInv_init : DistInv Distributor.init := by
  constructor
  · exact List.Pairwise.nil
  · intro a ha
    cases ha

theorem pickPeer_mem (score : Nat → ℚ) (cost : Peer → Nat) :
    ∀ (l : List Peer) (p : Peer), pickPeer score cost l = some p → p ∈ l := by
  intro l
  induction l with
  | nil => intro p h; simp [pickPeer] at h
  | cons x xs ih =>
    intro p h
    unfold pickPeer at h
    cases hq : pickPeer score cost xs with
    | none =>
      rw [hq] at h
      simp only [Option.some.injEq] at h
      simp [← h]
    | some q =>
      rw [hq] at h
      simp only at h
      split at h
      · simp only [Option.some.injEq] at h
        exact List.mem_cons_of_mem _ (h ▸ ih q hq)
      · simp only [Option.some.injEq] at h
        simp [← h]

theorem distInv_trySchedule (score : List RankEvent → Nat → ℚ) (s : Distributor)
    (r : DistRequest) (h : DistInv s) : DistInv (trySchedule score s r) := by
  unfold trySchedule
  split
  · exact h
  · split
    · exact h
    · rename_i p hp
      split
      · exact h
      · rename_i reg hm
        have hpm := pickPeer_mem _ _ _ _ hp
        have hpreg : p ∈ s.registry :=
          List.mem_of_mem_filter (List.mem_of_mem_filter hpm)
        have hnb : isBusy s.registry p.id r.kind = false := by
          unfold markBusy at hm
          by_cases hb : isBusy s.registry p.id r.kind = true
          · simp [hb] at hm
          · simpa using hb
        have hreg : reg = (markBusy s.registry p.id r.kind).2 := by rw [hm]
        constructor
        · show List.Pairwise _ (s.assigned ++ [(r, p.id)])
          rw [List.pairwise_append]
          refine ⟨h.1, List.pairwise_singleton _ _, ?_⟩
          intro a ha b hb
          simp only [List.mem_singleton] at hb
          subst hb
          rintro ⟨h1, h2⟩
          have := h.2 a ha
          rw [h1, h2, hnb] at this
          cases this
        · intro a ha
          show isBusy reg a.2 a.1.kind = true
          rw [hreg]
          rcases List.mem_append.1 ha with ha | ha
          · exact isBusy_markBusy_mono _ _ _ _ _ (h.2 a ha)
          · simp only [List.mem_singleton] at ha
            subst ha
            exact isBusy_markBusy_self _ _ _ ((isRegistered_iff _ _).2 ⟨p, hpreg, rfl⟩)

theorem distInv_foldl_trySchedule (score : List RankEvent → Nat → ℚ) :
    ∀ (l : List DistRequest) (s : Distributor), DistInv s →
      DistInv (l.foldl (trySchedule score) s) := by
  intro l
  induction l with
  | nil => intro s h; exact h
  | cons r rs ih => intro s h; exact ih _ (distInv_trySchedule score s r h)

theorem distInv_schedule (score : List RankEvent → Nat → ℚ) (s : Distributor)
    (h : DistInv s) : DistInv (schedule score s) :=
  distInv_foldl_trySchedule score _ _ h


theorem find_eraseP_split {α : Type} (f : α → Bool) :
    ∀ (l : List α) (a : α), l.find? f = some a →
      ∃ l₁ l₂, l = l₁ ++ a :: l₂ ∧ l.eraseP f = l₁ ++ l₂ ∧ f a = true ∧
        ∀ b ∈ l₁, f b = false := by
  intro l
  induction l with
  | nil => intro a h; simp at h
  | cons x xs ih =>
    intro a h
    by_cases hx : f x = true
    · simp only [List.find?, hx, Option.some.injEq] at h
      subst h
      exact ⟨[], xs, rfl, by simp [List.eraseP, hx], hx, by simp⟩
    · simp only [Bool.not_eq_true] at hx
      simp only [List.find?, hx] at h
      obtain ⟨l₁, l₂, h1, h2, h3, h4⟩ := ih a h
      refine ⟨x :: l₁, l₂, by simp [h1], ?_, h3, ?_⟩
      · simp [List.eraseP, hx, h2]
      · intro b hb
        rcases List.mem_cons.1 hb with hb | hb
        · exact hb ▸ hx
        · exact h4 b hb

theorem distInv_congr (s s' : Distributor) (h : DistInv s)
    (hr : s'.registry = s.registry) (ha : s'.assigned = s.assigned) : DistInv s' := by
  unfold DistInv Exclusive at *
  rw [hr, ha]
  exact h

theorem distInv_release (s s' : Distributor) (req : Nat) (r : DistRequest) (p : Nat)
    (hf : findAssigned s req = some (r, p)) (h : DistInv s)
    (hr : s'.registry = markIdle s.registry p r.kind)
    (ha : s'.assigned = s.assigned.eraseP (fun a => a.1.id == req)) : DistInv s' := by
  obtain ⟨l₁, l₂, h1, h2, -, -⟩ := find_eraseP_split _ _ _ hf
  obtain ⟨hex, hbusy⟩ := h
  unfold Exclusive at hex
  rw [h1, List.pairwise_append, List.pairwise_cons] at hex
  obtain ⟨hp1, ⟨hrel2, hp2⟩, hcross⟩ := hex
  constructor
  · unfold Exclusive
    rw [ha, h2, List.pairwise_append]
    exact ⟨hp1, hp2, fun a ha' b hb => hcross a ha' b (List.mem_cons_of_mem _ hb)⟩
  · intro a ha'
    rw [ha, h2] at ha'
    rw [hr]
    have hmem : a ∈ s.assigned := by
      rw [h1]
      rcases List.mem_append.1 ha' with h' | h'
      · exact List.mem_append_left _ h'
      · exact List.mem_append_right _ (List.mem_cons_of_mem _ h')
    apply isBusy_markIdle_other _ _ _ _ _ _ (hbusy a hmem)
    rcases List.mem_append.1 ha' with h' | h'
    · exact hcross a h' (r, p) (List.mem_cons_self _ _)
    · intro hc
      exact hrel2 a h' ⟨hc.1.symm, hc.2.symm⟩

theorem distInv_onSuccess (s : Distributor) (req latency value : Nat) (h : DistInv s) :
    DistInv (onSuccess s req latency value) := by
  unfold onSuccess
  split
  · exact h
  · rename_i r p hf
    exact distInv_release s _ req r p hf h rfl rfl

theorem distInv_onFailure (s : Distributor) (req : Nat) (h : DistInv s) :
    DistInv (onFailure s req) := by
  unfold onFailure
  split
  · exact h
  · rename_i r p hf
    exact distInv_release s _ req r p hf h rfl rfl

theorem distInv_onDeadline (s : Distributor) (req : Nat) (h : DistInv s) :
    DistInv (onDeadline s req) := by
  unfold onDeadline
  split
  · rename_i r p hf
    exact distInv_release s _ req r p hf h rfl rfl
  · split
    · exact distInv_congr s _ h rfl rfl
    · exact h

theorem distInv_onCancel (s : Distributor) (req : Nat) (h : DistInv s) :
    DistInv (onCancel s req) := by
  unfold onCancel
  split
  · exact distInv_congr s _ h rfl rfl
  · split
    · exact distInv_congr s _ h rfl rfl
    · exact h

theorem distInv_onUnregister (s : Distributor) (id : Nat) (h : DistInv s) :
    DistInv (onUnregister s id) := by
  constructor
  · exact List.Pairwise.sublist (List.filter_sublist _) h.1
  · intro a ha
    have ha' : a ∈ s.assigned.filter (fun a => a.2 != id) := ha
    rw [List.mem_filter] at ha'
    have hne : a.2 ≠ id := by simpa using ha'.2
    exact isBusy_unregister_other _ _ _ _ hne (h.2 a ha'.1)

theorem distInv_handle (s : Distributor) (e : DistEvent) (h : DistInv s) :
    DistInv (s.handle e) := by
  cases e with
  | register p =>
    exact ⟨h.1, fun a ha => isBusy_register_mono _ _ _ _ (h.2 a ha)⟩
  | unregister id => exact distInv_onUnregister s id h
  | queue k canServe cost => exact distInv_congr s _ h rfl rfl
  | success req latency value => exact distInv_onSuccess s req latency value h
  | failure req => exact distInv_onFailure s req h
  | deadline req => exact distInv_onDeadline s req h
  | cancel req => exact distInv_onCancel s req h

theorem distInv_step (score : List RankEvent → Nat → ℚ) (s : Distributor) (e : DistEvent)
    (h : DistInv s) : DistInv (s.step score e) :=
  distInv_schedule score _ (distInv_handle s e h)

theorem distInv_foldl_step (score : List RankEvent → Nat → ℚ) :
    ∀ (evs : List DistEvent) (s : Distributor), DistInv s →
      DistInv (evs.foldl (Distributor.step score) s) := by
  intro evs
  induction evs with
  | nil => intro s h; exact h
  | cons e es ih => intro s h; exact ih _ (distInv_step score s e h)

theorem assignedCount_le_one (s : Distributor) (h : Exclusive s) (p : Nat) (k : Kind) :
    assignedCount s p k ≤ 1 := by
  unfold assignedCount
  have hp : (s.assigned.filter (fun a => a.2 == p && a.1.kind == k)).Pairwise
      (fun a b => ¬ (a.2 = b.2 ∧ a.1.kind = b.1.kind)) :=
    List.Pairwise.sublist (List.filter_sublist _) h
  have hall : ∀ a ∈ s.assigned.filter (fun a => a.2 == p && a.1.kind == k),
      a.2 = p ∧ a.1.kind = k := by
    intro a ha
    have := (List.mem_filter.1 ha).2
    simpa using this
  generalize s.assigned.filter (fun a => a.2 == p && a.1.kind == k) = l at hp hall
  match l, hp, hall with
  | [], _, _ => simp
  | [_], _, _ => simp
  | a :: b :: rest, hp, hall =>
    exfalso
    have ha := hall a (by simp)
    have hb := hall b (by simp)
    exact (List.pairwise_cons.1 hp).1 b (by simp) ⟨ha.1.trans hb.1.symm, ha.2.trans hb.2.symm⟩


theorem settle_dist (s : RetrieveManager) : (settle s).dist = s.dist := rfl

/-- Every event of the retrieve manager leaves the distributor as it is or
hands it exactly one distributor event. -/
theorem rm_step_dist (score : List RankEvent → Nat → ℚ) (s : RetrieveManager) (e : Event) :
    (s.step score e).dist = s.dist ∨ ∃ d, (s.step score e).dist = s.dist.step score d := by
  cases e with
  | register p => exact Or.inr ⟨_, rfl⟩
  | unregister id => exact Or.inr ⟨_, rfl⟩
  | retrieve q c =>
    simp only [RetrieveManager.step]
    split
    · exact Or.inl rfl
    · exact Or.inr ⟨_, rfl⟩
  | response req payload latency =>
    simp only [RetrieveManager.step]
    split
    · exact Or.inl rfl
    · split
      · exact Or.inr ⟨_, rfl⟩
      · split
        · exact Or.inr ⟨_, rfl⟩
        · exact Or.inr ⟨_, rfl⟩
  | timeout req => exact Or.inr ⟨_, rfl⟩
  | deadline req => exact Or.inr ⟨_, rfl⟩
  | cancel c k key =>
    simp only [RetrieveManager.step]
    split
    · exact Or.inl rfl
    · split
      · exact Or.inr ⟨_, rfl⟩
      · exact Or.inl rfl

theorem distInv_rm_step (score : List RankEvent → Nat → ℚ) (s : RetrieveManager) (e : Event)
    (h : DistInv s.dist) : DistInv (s.step score e).dist := by
  rcases rm_step_dist score s e with h' | ⟨d, h'⟩
  · rw [h']; exact h
  · rw [h']; exact distInv_step score _ d h

theorem distInv_rm_foldl (score : List RankEvent → Nat → ℚ) :
    ∀ (evs : List Event) (s : RetrieveManager), DistInv s.dist →
      DistInv (evs.foldl (RetrieveManager.step score) s).dist := by
  intro evs
  induction evs with
  | nil => intro s h; exact h
  | cons e es ih => intro s h; exact ih _ (distInv_rm_step score s e h)

/-- C1 (exclusivity invariant).  In every state the request distributor reaches
from its initial state, under any history of distributor events and under any
history of retrieve-manager events, and for every peer `p` and request kind `k`,
at most one request of kind `k` is assigned to `p`. -/
theorem exclusivity_invariant (score : List RankEvent → Nat → ℚ) (devs : List DistEvent)
    (evs : List Event) (p : Nat) (k : Kind) :
    assignedCount (Distributor.run score devs) p k ≤ 1 ∧
    assignedCount (RetrieveManager.run score evs).dist p k ≤ 1 :=
  ⟨assignedCount_le_one _ (distInv_foldl_step score devs _ distInv_init).1 p k,
   assignedCount_le_one _ (distInv_rm_foldl score evs _ distInv_init).1 p k⟩


/-! ## Identifier bookkeeping of the distributor -/

theorem idInv_init : IdInv Distributor.init := by
  refine ⟨?_, ?_, ?_, ?_, ?_⟩ <;> simp [Distributor.init]

theorem requeue_perm (r : DistRequest) : ∀ l : List DistRequest, (requeue r l).Perm (r :: l) := by
  intro l
  induction l with
  | nil => exact List.Perm.refl _
  | cons x xs ih =>
    unfold requeue
    split
    · exact List.Perm.refl _
    · exact (List.Perm.cons x ih).trans (List.Perm.swap r x xs)

theorem mem_requeue (r x : DistRequest) (l : List DistRequest) :
    x ∈ requeue r l ↔ x = r ∨ x ∈ l := by
  rw [(requeue_perm r l).mem_iff]
  simp

theorem idInv_trySchedule_gen (score : List RankEvent → Nat → ℚ) (s : Distributor)
    (r : DistRequest) (rest : List Nat)
    (h1 : ∀ x ∈ s.pending, x.id < s.nextId) (h2 : ∀ a ∈ s.assigned, a.1.id < s.nextId)
    (h3 : ∀ x ∈ s.sends, x.1 < s.nextId) (hr : r.id < s.nextId)
    (h4 : (r.id :: rest ++ (s.pending.map (fun r => r.id) ++
      s.assigned.map (fun a => a.1.id))).Nodup)
    (h5 : ∀ a ∈ s.assigned, (a.1.id, a.2) ∈ s.sends) :
    let t := trySchedule score s r
    (∀ x ∈ t.pending, x.id < t.nextId) ∧ (∀ a ∈ t.assigned, a.1.id < t.nextId) ∧
    (∀ x ∈ t.sends, x.1 < t.nextId) ∧
    (rest ++ (t.pending.map (fun r => r.id) ++ t.assigned.map (fun a => a.1.id))).Nodup ∧
    (∀ a ∈ t.assigned, (a.1.id, a.2) ∈ t.sends) ∧ t.nextId = s.nextId := by
  have hp : (rest ++ ((s.pending ++ [r]).map (fun r => r.id) ++
      s.assigned.map (fun a => a.1.id))).Nodup := by
    refine (List.Perm.nodup_iff ?_).1 h4
    simp only [List.map_append, List.map_cons, List.map_nil, List.cons_append]
    refine (List.perm_middle.symm).trans ?_
    refine List.Perm.append_left _ ?_
    rw [List.append_assoc]
    refine List.perm_middle.symm.trans ?_
    simp
  have hpend : ∀ x ∈ s.pending ++ [r], x.id < s.nextId := by
    intro x hx
    rcases List.mem_append.1 hx with hx | hx
    · exact h1 x hx
    · simp only [List.mem_singleton] at hx
      exact hx ▸ hr
  have hdrop : (rest ++ (s.pending.map (fun r => r.id) ++
      s.assigned.map (fun a => a.1.id))).Nodup := (List.nodup_cons.1 h4).2
  intro t
  show _ ∧ _ ∧ _ ∧ _ ∧ _ ∧ _
  simp only [t]
  unfold trySchedule
  split
  · exact ⟨h1, h2, h3, hdrop, h5, rfl⟩
  · split
    · exact ⟨hpend, h2, h3, hp, h5, rfl⟩
    · rename_i p hpk
      split
      · exact ⟨hpend, h2, h3, hp, h5, rfl⟩
      · refine ⟨h1, ?_, ?_, ?_, ?_, rfl⟩
        · intro a ha
          rcases List.mem_append.1 ha with ha | ha
          · exact h2 a ha
          · simp only [List.mem_singleton] at ha
            subst ha
            exact hr
        · intro x hx
          rcases List.mem_append.1 hx with hx | hx
          · exact h3 x hx
          · simp only [List.mem_singleton] at hx
            subst hx
            exact hr
        · refine (List.Perm.nodup_iff ?_).1 h4
          simp only [List.map_append, List.map_cons, List.map_nil, List.cons_append]
          refine (List.perm_middle.symm).trans ?_
          refine List.Perm.append_left _ ?_
          refine List.perm_middle.symm.trans ?_
          refine List.Perm.append_left _ ?_
          exact List.perm_append_singleton _ _ |>.symm
        · intro a ha
          rcases List.mem_append.1 ha with ha | ha
          · exact List.mem_append_left _ (h5 a ha)
          · simp only [List.mem_singleton] at ha
            subst ha
            exact List.mem_append_right _ (List.mem_singleton_self _)


theorem idInv_foldl_trySchedule (score : List RankEvent → Nat → ℚ) :
    ∀ (l : List DistRequest) (s : Distributor),
      (∀ r ∈ l, r.id < s.nextId) →
      (∀ x ∈ s.pending, x.id < s.nextId) → (∀ a ∈ s.assigned, a.1.id < s.nextId) →
      (∀ x ∈ s.sends, x.1 < s.nextId) →
      (l.map (fun r => r.id) ++ (s.pending.map (fun r => r.id) ++
        s.assigned.map (fun a => a.1.id))).Nodup →
      (∀ a ∈ s.assigned, (a.1.id, a.2) ∈ s.sends) →
      IdInv (l.foldl (trySchedule score) s) ∧
        (l.foldl (trySchedule score) s).nextId = s.nextId := by
  intro l
  induction l with
  | nil =>
    intro s _ h1 h2 h3 h4 h5
    exact ⟨⟨h1, h2, h3, by simpa using h4, h5⟩, rfl⟩
  | cons r rs ih =>
    intro s hl h1 h2 h3 h4 h5
    obtain ⟨g1, g2, g3, g4, g5, g6⟩ :=
      idInv_trySchedule_gen score s r (rs.map (fun r => r.id)) h1 h2 h3
        (hl r (List.mem_cons_self _ _)) (by simpa using h4) h5
    have hl' : ∀ x ∈ rs, x.id < (trySchedule score s r).nextId := by
      intro x hx
      rw [g6]
      exact hl x (List.mem_cons_of_mem _ hx)
    obtain ⟨k1, k2⟩ := ih (trySchedule score s r) hl' g1 g2 g3 g4 g5
    exact ⟨k1, k2.trans g6⟩

theorem idInv_schedule (score : List RankEvent → Nat → ℚ) (s : Distributor) (h : IdInv s) :
    IdInv (schedule score s) ∧ (schedule score s).nextId = s.nextId := by
  obtain ⟨h1, h2, h3, h4, h5⟩ := h
  exact idInv_foldl_trySchedule score s.pending { s with pending := [] } h1
    (by intro x hx; cases hx) h2 h3 (by simpa using h4) h5

theorem idInv_queue (s : Distributor) (k : Kind) (canServe : Peer → Bool) (cost : Peer → Nat)
    (h : IdInv s) : IdInv (queue s k canServe cost) := by
  obtain ⟨h1, h2, h3, h4, h5⟩ := h
  refine ⟨?_, ?_, ?_, ?_, h5⟩
  · intro r hr
    rcases List.mem_append.1 hr with hr | hr
    · exact Nat.lt_succ_of_lt (h1 r hr)
    · simp only [List.mem_singleton] at hr
      subst hr
      exact Nat.lt_succ_self _
  · intro a ha
    exact Nat.lt_succ_of_lt (h2 a ha)
  · intro x hx
    exact Nat.lt_succ_of_lt (h3 x hx)
  · show ((s.pending ++ [_]).map (fun (r : DistRequest) => r.id) ++
      s.assigned.map (fun a => a.1.id)).Nodup
    have hfresh : s.nextId ∉ s.pending.map (fun r => r.id) ++ s.assigned.map (fun a => a.1.id) := by
      intro hm
      rcases List.mem_append.1 hm with hm | hm
      · obtain ⟨r, hr, he⟩ := List.mem_map.1 hm
        have := h1 r hr
        omega
      · obtain ⟨a, ha, he⟩ := List.mem_map.1 hm
        have := h2 a ha
        omega
    refine (List.Perm.nodup_iff ?_).1 (List.nodup_cons.2 ⟨hfresh, h4⟩)
    simp only [List.map_append, List.map_cons, List.map_nil, List.append_assoc]
    exact List.perm_middle.symm

theorem idInv_erase (s s' : Distributor) (h : IdInv s)
    (hp : s'.pending.Sublist s.pending) (ha : s'.assigned.Sublist s.assigned)
    (hs : s'.sends = s.sends) (hn : s'.nextId = s.nextId) : IdInv s' := by
  obtain ⟨h1, h2, h3, h4, h5⟩ := h
  refine ⟨?_, ?_, ?_, ?_, ?_⟩
  · intro r hr; rw [hn]; exact h1 r (hp.subset hr)
  · intro a ha'; rw [hn]; exact h2 a (ha.subset ha')
  · intro x hx; rw [hn]; rw [hs] at hx; exact h3 x hx
  · exact List.Nodup.sublist (List.Sublist.append (hp.map _) (ha.map _)) h4
  · intro a ha'; rw [hs]; exact h5 a (ha.subset ha')

theorem idInv_onSuccess (s : Distributor) (req latency value : Nat) (h : IdInv s) :
    IdInv (onSuccess s req latency value) := by
  unfold onSuccess
  split
  · exact h
  · exact idInv_erase s _ h (List.Sublist.refl _) (List.eraseP_sublist _) rfl rfl

theorem idInv_onDeadline (s : Distributor) (req : Nat) (h : IdInv s) :
    IdInv (onDeadline s req) := by
  unfold onDeadline
  split
  · exact idInv_erase s _ h (List.Sublist.refl _) (List.eraseP_sublist _) rfl rfl
  · split
    · exact idInv_erase s _ h (List.filter_sublist _) (List.Sublist.refl _) rfl rfl
    · exact h

theorem idInv_onCancel (s : Distributor) (req : Nat) (h : IdInv s) :
    IdInv (onCancel s req) := by
  unfold onCancel
  split
  · exact idInv_erase s _ h (List.filter_sublist _) (List.Sublist.refl _) rfl rfl
  · split
    · exact idInv_erase s _ h (List.Sublist.refl _) (List.Sublist.refl _) rfl rfl
    · exact h


theorem idInv_onFailure (s : Distributor) (req : Nat) (h : IdInv s) :
    IdInv (onFailure s req) := by
  unfold onFailure
  split
  · exact h
  · rename_i r p hf
    by_cases hc : s.cancelled.contains req = true
    · simp only [hc, if_true]
      exact idInv_erase s _ h (List.Sublist.refl _) (List.eraseP_sublist _) rfl rfl
    · simp only [hc, Bool.false_eq_true, if_false]
      obtain ⟨l₁, l₂, e1, e2, -, -⟩ := find_eraseP_split _ _ _ hf
      obtain ⟨h1, h2, h3, h4, h5⟩ := h
      have hmem : (r, p) ∈ s.assigned := by rw [e1]; simp
      refine ⟨?_, ?_, h3, ?_, ?_⟩
      · intro x hx
        rcases (mem_requeue _ _ _).1 hx with hx | hx
        · subst hx
          exact h2 (r, p) hmem
        · exact h1 x hx
      · intro a ha
        exact h2 a ((List.eraseP_sublist _).subset ha)
      · show ((requeue _ s.pending).map (fun r => r.id) ++
          (s.assigned.eraseP _).map (fun a => a.1.id)).Nodup
        rw [e2]
        rw [e1] at h4
        refine (List.Perm.nodup_iff ?_).1 h4
        refine List.Perm.trans ?_ (List.Perm.append_right _ ((requeue_perm _ _).map _).symm)
        simp only [List.map_append, List.map_cons, List.cons_append]
        refine List.Perm.trans ?_ List.perm_middle
        refine List.Perm.append_left _ ?_
        exact List.perm_middle
      · intro a ha
        exact h5 a ((List.eraseP_sublist _).subset ha)

theorem foldl_requeue_perm (f : DistRequest × Nat → DistRequest) :
    ∀ (l : List (DistRequest × Nat)) (pend : List DistRequest),
      (l.foldl (fun pend a => requeue (f a) pend) pend).Perm (l.map f ++ pend) := by
  intro l
  induction l with
  | nil => intro pend; exact List.Perm.refl _
  | cons a as ih =>
    intro pend
    simp only [List.foldl_cons, List.map_cons, List.cons_append]
    refine (ih _).trans ?_
    refine List.Perm.trans (List.Perm.append_left _ (requeue_perm _ _)) ?_
    exact List.perm_middle

theorem idInv_onUnregister (s : Distributor) (id : Nat) (h : IdInv s) :
    IdInv (onUnregister s id) := by
  obtain ⟨h1, h2, h3, h4, h5⟩ := h
  have hperm := foldl_requeue_perm (fun a => { a.1 with excluded := id :: a.1.excluded })
    (s.assigned.filter (fun a => a.2 == id && !s.cancelled.contains a.1.id)) s.pending
  refine ⟨?_, ?_, h3, ?_, ?_⟩
  · intro x hx
    have hx' := (hperm.mem_iff).1 hx
    rcases List.mem_append.1 hx' with hx' | hx'
    · obtain ⟨a, ha, he⟩ := List.mem_map.1 hx'
      subst he
      exact h2 a (List.mem_of_mem_filter ha)
    · exact h1 x hx'
  · intro a ha
    exact h2 a (List.mem_of_mem_filter ha)
  · show ((List.foldl _ s.pending _).map (fun r => r.id) ++
      (s.assigned.filter (fun a => a.2 != id)).map (fun a => a.1.id)).Nodup
    refine (List.Perm.nodup_iff (List.Perm.append_right _ (hperm.map _))).2 ?_
    simp only [List.map_append, List.map_map, List.append_assoc]
    have hp := List.filter_append_perm (fun a : DistRequest × Nat => a.2 == id) s.assigned
    have hs1 : (s.assigned.filter (fun a => a.2 == id && !s.cancelled.contains a.1.id)).Sublist
        (s.assigned.filter (fun a => a.2 == id)) := by
      apply List.monotone_filter_right
      intro a ha
      simp only [Bool.and_eq_true] at ha
      exact ha.1
    have hs2 : (s.assigned.filter (fun a => a.2 != id)) =
        (s.assigned.filter (fun a => !(a.2 == id))) := rfl
    have hbig : (s.pending.map (fun r => r.id) ++
        ((s.assigned.filter (fun a => a.2 == id)).map (fun a => a.1.id) ++
        (s.assigned.filter (fun a => a.2 != id)).map (fun a => a.1.id))).Nodup := by
      refine (List.Perm.nodup_iff (List.Perm.append_left _ ?_)).2 h4
      rw [hs2, ← List.map_append]
      exact hp.map _
    have hnd : (s.pending.map (fun r => r.id) ++
        ((s.assigned.filter (fun a => a.2 == id && !s.cancelled.contains a.1.id)).map
        (fun a => a.1.id) ++ (s.assigned.filter (fun a => a.2 != id)).map
        (fun a => a.1.id))).Nodup :=
      List.Nodup.sublist (List.Sublist.append (List.Sublist.refl _)
        (List.Sublist.append (hs1.map _) (List.Sublist.refl _))) hbig
    refine (List.Perm.nodup_iff ?_).1 hnd
    rw [← List.append_assoc, ← List.append_assoc]
    exact List.Perm.append_right _ List.perm_append_comm
  · intro a ha
    exact h5 a (List.mem_of_mem_filter ha)

theorem idInv_handle (s : Distributor) (e : DistEvent) (h : IdInv s) : IdInv (s.handle e) := by
  cases e with
  | register p => exact idInv_erase s _ h (List.Sublist.refl _) (List.Sublist.refl _) rfl rfl
  | unregister id => exact idInv_onUnregister s id h
  | queue k canServe cost => exact idInv_queue s k canServe cost h
  | success req latency value => exact idInv_onSuccess s req latency value h
  | failure req => exact idInv_onFailure s req h
  | deadline req => exact idInv_onDeadline s req h
  | cancel req => exact idInv_onCancel s req h

theorem idInv_step (score : List RankEvent → Nat → ℚ) (s : Distributor) (e : DistEvent)
    (h : IdInv s) : IdInv (s.step score e) :=
  (idInv_schedule score _ (idInv_handle s e h)).1

theorem idInv_rm_step (score : List RankEvent → Nat → ℚ) (s : RetrieveManager) (e : Event)
    (h : IdInv s.dist) : IdInv (s.step score e).dist := by
  rcases rm_step_dist score s e with h' | ⟨d, h'⟩
  · rw [h']; exact h
  · rw [h']; exact idInv_step score _ d h


/-! ## Bookkeeping of the retrieve manager -/

theorem trySchedule_nextId (score : List RankEvent → Nat → ℚ) (s : Distributor)
    (r : DistRequest) : (trySchedule score s r).nextId = s.nextId := by
  unfold trySchedule
  split
  · rfl
  · split
    · rfl
    · split <;> rfl

theorem foldl_trySchedule_nextId (score : List RankEvent → Nat → ℚ) :
    ∀ (l : List DistRequest) (s : Distributor),
      (l.foldl (trySchedule score) s).nextId = s.nextId := by
  intro l
  induction l with
  | nil => intro s; rfl
  | cons r rs ih => intro s; exact (ih _).trans (trySchedule_nextId score s r)

theorem schedule_nextId (score : List RankEvent → Nat → ℚ) (s : Distributor) :
    (schedule score s).nextId = s.nextId :=
  foldl_trySchedule_nextId score _ _

theorem handle_nextId (s : Distributor) (e : DistEvent) :
    (s.handle e).nextId = match e with
      | DistEvent.queue _ _ _ => s.nextId + 1
      | _ => s.nextId := by
  cases e with
  | register p => rfl
  | unregister id => rfl
  | queue k canServe cost => rfl
  | success req latency value =>
    simp only [Distributor.handle, onSuccess]
    split <;> rfl
  | failure req =>
    simp only [Distributor.handle, onFailure]
    split <;> rfl
  | deadline req =>
    simp only [Distributor.handle, onDeadline]
    split
    · rfl
    · split <;> rfl
  | cancel req =>
    simp only [Distributor.handle, onCancel]
    split
    · rfl
    · split <;> rfl

theorem step_nextId_le (score : List RankEvent → Nat → ℚ) (s : Distributor) (e : DistEvent) :
    s.nextId ≤ (s.step score e).nextId := by
  unfold Distributor.step
  rw [schedule_nextId, handle_nextId]
  cases e <;> simp

theorem step_queue_nextId (score : List RankEvent → Nat → ℚ) (s : Distributor) (k : Kind)
    (canServe : Peer → Bool) (cost : Peer → Nat) :
    (s.step score (DistEvent.queue k canServe cost)).nextId = s.nextId + 1 := by
  unfold Distributor.step
  rw [schedule_nextId, handle_nextId]

theorem rmInv_init : RMInv RetrieveManager.init := by
  refine ⟨?_, ?_, ?_, ?_, ?_, ?_⟩ <;> simp [RetrieveManager.init]

theorem mem_deliverAll (e : PendingEntry) (o : Except OdrError Nat) (d : Delivery) :
    d ∈ deliverAll e o ↔ ∃ c ∈ e.waiters,
      d = { caller := c, kind := e.kind, key := e.key, req := e.req, outcome := o } := by
  unfold deliverAll
  rw [List.mem_map]
  constructor
  · rintro ⟨c, hc, rfl⟩
    exact ⟨c, hc, rfl⟩
  · rintro ⟨c, hc, rfl⟩
    exact ⟨c, hc, rfl⟩

theorem mem_settle_new (s : RetrieveManager) (d : Delivery)
    (h : d ∈ s.entries.flatMap (fun e =>
      match failureOf s.dist e.req with
      | none => []
      | some err => deliverAll e (Except.error err))) :
    ∃ e ∈ s.entries, ∃ err, failureOf s.dist e.req = some err ∧
      d ∈ deliverAll e (Except.error err) := by
  rw [List.mem_flatMap] at h
  obtain ⟨e, he, hd⟩ := h
  cases hf : failureOf s.dist e.req with
  | none => rw [hf] at hd; cases hd
  | some err => rw [hf] at hd; exact ⟨e, he, err, hf, hd⟩

theorem rmInv_settle (s : RetrieveManager) (h : RMInv s) : RMInv (settle s) := by
  obtain ⟨h1, h2, h3, h4, h5, h6⟩ := h
  have hnew : ∀ d, d ∈ (settle s).delivered → d ∈ s.delivered ∨
      ∃ e ∈ s.entries, ∃ err, failureOf s.dist e.req = some err ∧
        d.req = e.req ∧ d.outcome = Except.error err := by
    intro d hd
    rcases List.mem_append.1 hd with hd | hd
    · exact Or.inl hd
    · obtain ⟨e, he, err, hf, hm⟩ := mem_settle_new s d hd
      obtain ⟨c, -, rfl⟩ := (mem_deliverAll _ _ _).1 hm
      exact Or.inr ⟨e, he, err, hf, rfl, rfl⟩
  refine ⟨?_, ?_, ?_, ?_, ?_, ?_⟩
  · exact List.Nodup.sublist ((List.filter_sublist _).map _) h1
  · exact List.Nodup.sublist ((List.filter_sublist _).map _) h2
  · intro e he
    exact h3 e (List.mem_of_mem_filter he)
  · intro d hd
    rcases hnew d hd with hd | ⟨e, he, err, -, hr, -⟩
    · exact h4 d hd
    · rw [hr]; exact h3 e he
  · intro e he d hd
    have he' := List.mem_filter.1 he
    rcases hnew d hd with hd | ⟨e', he'', err, hf, hr, -⟩
    · exact h5 e he'.1 d hd
    · intro hc
      have : failureOf s.dist e.req = some err := by rw [← hc, hr]; exact hf
      rw [this] at he'
      simp at he'
  · intro d1 hd1 d2 hd2 hreq
    rcases hnew d1 hd1 with hd1 | ⟨e1, he1, err1, hf1, hr1, ho1⟩
    · rcases hnew d2 hd2 with hd2 | ⟨e2, he2, err2, hf2, hr2, ho2⟩
      · exact h6 d1 hd1 d2 hd2 hreq
      · exact absurd (hreq.trans hr2) (h5 e2 he2 d1 hd1)
    · rcases hnew d2 hd2 with hd2 | ⟨e2, he2, err2, hf2, hr2, ho2⟩
      · exact absurd (hreq.symm.trans hr1) (h5 e1 he1 d2 hd2)
      · have : failureOf s.dist e1.req = failureOf s.dist e2.req := by
          rw [← hr1, ← hr2, hreq]
        rw [hf1, hf2] at this
        rw [ho1, ho2]
        simp only [Option.some.injEq] at this
        rw [this]


theorem rmInv_dist (s : RetrieveManager) (d : Distributor) (h : RMInv s)
    (hn : s.dist.nextId ≤ d.nextId) : RMInv { s with dist := d } := by
  obtain ⟨h1, h2, h3, h4, h5, h6⟩ := h
  exact ⟨h1, h2, fun e he => Nat.lt_of_lt_of_le (h3 e he) hn,
    fun x hx => Nat.lt_of_lt_of_le (h4 x hx) hn, h5, h6⟩

theorem rmInv_sub (s : RetrieveManager) (d : Distributor) (l : List PendingEntry) (h : RMInv s)
    (hn : s.dist.nextId ≤ d.nextId) (hl : l.Sublist s.entries) :
    RMInv { dist := d, entries := l, delivered := s.delivered } := by
  obtain ⟨h1, h2, h3, h4, h5, h6⟩ := h
  exact ⟨List.Nodup.sublist (hl.map _) h1, List.Nodup.sublist (hl.map _) h2,
    fun e he => Nat.lt_of_lt_of_le (h3 e (hl.subset he)) hn,
    fun x hx => Nat.lt_of_lt_of_le (h4 x hx) hn,
    fun e he => h5 e (hl.subset he), h6⟩

theorem rmInv_map (s : RetrieveManager) (f : PendingEntry → PendingEntry) (h : RMInv s)
    (hk : ∀ e, (f e).kind = e.kind) (hy : ∀ e, (f e).key = e.key)
    (hq : ∀ e, (f e).req = e.req) :
    RMInv { s with entries := s.entries.map f } := by
  obtain ⟨h1, h2, h3, h4, h5, h6⟩ := h
  have m1 : (s.entries.map f).map (fun e => (e.kind, e.key)) =
      s.entries.map (fun e => (e.kind, e.key)) := by
    rw [List.map_map]
    apply List.map_congr_left
    intro e _
    simp [hk, hy]
  have m2 : (s.entries.map f).map (fun e => e.req) = s.entries.map (fun e => e.req) := by
    rw [List.map_map]
    apply List.map_congr_left
    intro e _
    simp [hq]
  refine ⟨by rw [m1]; exact h1, by rw [m2]; exact h2, ?_, h4, ?_, h6⟩
  · intro e he
    obtain ⟨e', he', rfl⟩ := List.mem_map.1 he
    rw [hq]
    exact h3 e' he'
  · intro e he
    obtain ⟨e', he', rfl⟩ := List.mem_map.1 he
    rw [hq]
    exact h5 e' he'

theorem findEntry_none (s : RetrieveManager) (k : Kind) (key : Nat)
    (h : findEntry s k key = none) : (k, key) ∉ s.entries.map (fun e => (e.kind, e.key)) := by
  intro hm
  obtain ⟨e, he, heq⟩ := List.mem_map.1 hm
  unfold findEntry at h
  rw [List.find?_eq_none] at h
  have := h e he
  simp only [Prod.mk.injEq] at heq
  simp [heq.1, heq.2] at this

theorem rmInv_retrieve_fresh (s : RetrieveManager) (d : Distributor) (q : OdrQuery) (c : Nat)
    (h : RMInv s) (hn : d.nextId = s.dist.nextId + 1)
    (hf : findEntry s q.kind q.key = none) :
    RMInv { dist := d,
            entries := s.entries ++ [{ kind := q.kind, key := q.key, req := s.dist.nextId,
                                       verify := q.verify, waiters := [c] }],
            delivered := s.delivered } := by
  obtain ⟨h1, h2, h3, h4, h5, h6⟩ := h
  refine ⟨?_, ?_, ?_, ?_, ?_, h6⟩
  · simp only [List.map_append, List.map_cons, List.map_nil]
    refine List.Nodup.append h1 (List.nodup_singleton _) ?_
    intro x hx hx'
    simp only [List.mem_singleton] at hx'
    subst hx'
    exact findEntry_none s _ _ hf hx
  · simp only [List.map_append, List.map_cons, List.map_nil]
    refine List.Nodup.append h2 (List.nodup_singleton _) ?_
    intro x hx hx'
    simp only [List.mem_singleton] at hx'
    subst hx'
    obtain ⟨e, he, heq⟩ := List.mem_map.1 hx
    have := h3 e he
    omega
  · intro e he
    show e.req < d.nextId
    rw [hn]
    rcases List.mem_append.1 he with he | he
    · exact Nat.lt_succ_of_lt (h3 e he)
    · simp only [List.mem_singleton] at he
      subst he
      exact Nat.lt_succ_self _
  · intro x hx
    show x.req < d.nextId
    rw [hn]
    exact Nat.lt_succ_of_lt (h4 x hx)
  · intro e he x hx
    rcases List.mem_append.1 he with he | he
    · exact h5 e he x hx
    · simp only [List.mem_singleton] at he
      subst he
      have := h4 x hx
      show x.req ≠ s.dist.nextId
      omega

theorem rmInv_success (s : RetrieveManager) (d : Distributor) (e : PendingEntry) (req v : Nat)
    (h : RMInv s) (hn : s.dist.nextId ≤ d.nextId)
    (hfind : s.entries.find? (fun e => e.req == req) = some e) :
    RMInv { dist := d, entries := s.entries.filter (fun x => x.req != req),
            delivered := s.delivered ++ deliverAll e (Except.ok v) } := by
  obtain ⟨h1, h2, h3, h4, h5, h6⟩ := h
  have hmem : e ∈ s.entries := List.mem_of_find?_eq_some hfind
  have hreq : e.req = req := by
    have := List.find?_some hfind
    simpa using this
  have hnew : ∀ x, x ∈ s.delivered ++ deliverAll e (Except.ok v) → x ∈ s.delivered ∨
      (x.req = req ∧ x.outcome = Except.ok v) := by
    intro x hx
    rcases List.mem_append.1 hx with hx | hx
    · exact Or.inl hx
    · obtain ⟨c, -, rfl⟩ := (mem_deliverAll _ _ _).1 hx
      exact Or.inr ⟨hreq, rfl⟩
  refine ⟨List.Nodup.sublist ((List.filter_sublist _).map _) h1,
    List.Nodup.sublist ((List.filter_sublist _).map _) h2, ?_, ?_, ?_, ?_⟩
  · intro x hx
    exact Nat.lt_of_lt_of_le (h3 x (List.mem_of_mem_filter hx)) hn
  · intro x hx
    rcases hnew x hx with hx | ⟨hx, -⟩
    · exact Nat.lt_of_lt_of_le (h4 x hx) hn
    · show x.req < d.nextId
      rw [hx, ← hreq]
      exact Nat.lt_of_lt_of_le (h3 e hmem) hn
  · intro x hx y hy
    have hx' := List.mem_filter.1 hx
    rcases hnew y hy with hy | ⟨hy, -⟩
    · exact h5 x hx'.1 y hy
    · rw [hy]
      intro hc
      simp [← hc] at hx'
  · intro d1 hd1 d2 hd2 hr
    rcases hnew d1 hd1 with hd1 | ⟨hr1, ho1⟩
    · rcases hnew d2 hd2 with hd2 | ⟨hr2, ho2⟩
      · exact h6 d1 hd1 d2 hd2 hr
      · exact absurd (hr.trans (hr2.trans hreq.symm)) (h5 e hmem d1 hd1)
    · rcases hnew d2 hd2 with hd2 | ⟨hr2, ho2⟩
      · exact absurd (hr.symm.trans (hr1.trans hreq.symm)) (h5 e hmem d2 hd2)
      · rw [ho1, ho2]

theorem rmInv_step (score : List RankEvent → Nat → ℚ) (s : RetrieveManager) (e : Event)
    (h : RMInv s) : RMInv (s.step score e) := by
  cases e with
  | register p => exact rmInv_settle _ (rmInv_dist s _ h (step_nextId_le score _ _))
  | unregister id => exact rmInv_settle _ (rmInv_dist s _ h (step_nextId_le score _ _))
  | retrieve q c =>
    simp only [RetrieveManager.step]
    split
    · exact rmInv_map s _ h (fun e => by split <;> rfl) (fun e => by split <;> rfl)
        (fun e => by split <;> rfl)
    · rename_i hf
      exact rmInv_settle _ (rmInv_retrieve_fresh s _ q c h (step_queue_nextId score _ _ _ _) hf)
  | response req payload latency =>
    simp only [RetrieveManager.step]
    split
    · exact h
    · split
      · exact rmInv_settle _ (rmInv_dist s _ h (step_nextId_le score _ _))
      · rename_i e hfind
        split
        · exact rmInv_settle _ (rmInv_success s _ e req _ h (step_nextId_le score _ _) hfind)
        · exact rmInv_settle _ (rmInv_dist s _ h (step_nextId_le score _ _))
  | timeout req => exact rmInv_settle _ (rmInv_dist s _ h (step_nextId_le score _ _))
  | deadline req => exact rmInv_settle _ (rmInv_dist s _ h (step_nextId_le score _ _))
  | cancel c k key =>
    simp only [RetrieveManager.step]
    split
    · exact h
    · split
      · exact rmInv_settle _ (rmInv_sub s _ _ h (step_nextId_le score _ _) (List.filter_sublist _))
      · exact rmInv_map s _ h (fun e => by split <;> rfl) (fun e => by split <;> rfl)
          (fun e => by split <;> rfl)

theorem rmInv_foldl (score : List RankEvent → Nat → ℚ) :
    ∀ (evs : List Event) (s : RetrieveManager), RMInv s →
      RMInv (evs.foldl (RetrieveManager.step score) s) := by
  intro evs
  induction evs with
  | nil => intro s h; exact h
  | cons e es ih => intro s h; exact ih _ (rmInv_step score s e h)

theorem idInv_rm_foldl (score : List RankEvent → Nat → ℚ) :
    ∀ (evs : List Event) (s : RetrieveManager), IdInv s.dist →
      IdInv (evs.foldl (RetrieveManager.step score) s).dist := by
  intro evs
  induction evs with
  | nil => intro s h; exact h
  | cons e es ih => intro s h; exact ih _ (idInv_rm_step score s e h)


/-! ## Deduplication -/

theorem entryCount_le_one (s : RetrieveManager) (h : RMInv s) (k : Kind) (key : Nat) :
    entryCount s k key ≤ 1 := by
  unfold entryCount
  have hnd := h.1
  have hall : ∀ e ∈ s.entries.filter (fun e => e.kind == k && e.key == key),
      (e.kind, e.key) = (k, key) := by
    intro e he
    have := (List.mem_filter.1 he).2
    simp only [Bool.and_eq_true, beq_iff_eq] at this
    rw [this.1, this.2]
  have hsub : ((s.entries.filter (fun e => e.kind == k && e.key == key)).map
      (fun e => (e.kind, e.key))).Nodup :=
    List.Nodup.sublist ((List.filter_sublist _).map _) hnd
  generalize s.entries.filter (fun e => e.kind == k && e.key == key) = l at hall hsub
  match l, hall, hsub with
  | [], _, _ => simp
  | [_], _, _ => simp
  | a :: b :: rest, hall, hsub =>
    exfalso
    have ha := hall a (by simp)
    have hb := hall b (by simp)
    simp only [List.map_cons, List.nodup_cons, List.mem_cons, not_or] at hsub
    exact hsub.1.1 (ha.trans hb.symm)

theorem find?_map_same {α : Type} (p : α → Bool) (f : α → α) (hp : ∀ a, p (f a) = p a) :
    ∀ l : List α, (l.map f).find? p = (l.find? p).map f := by
  intro l
  induction l with
  | nil => rfl
  | cons x xs ih =>
    simp only [List.map_cons, List.find?, hp]
    cases p x with
    | true => rfl
    | false => exact ih

/-- A call of `retrieve` for an identity that has a pending entry does not reach
the distributor; the caller joins the waiters of that entry. -/
theorem retrieve_existing (score : List RankEvent → Nat → ℚ) (s : RetrieveManager)
    (q : OdrQuery) (c : Nat) (e : PendingEntry) (h : findEntry s q.kind q.key = some e) :
    (s.step score (Event.retrieve q c)).dist = s.dist ∧
    (s.step score (Event.retrieve q c)).delivered = s.delivered ∧
    findEntry (s.step score (Event.retrieve q c)) q.kind q.key =
      some { e with waiters := e.waiters ++ [c] } := by
  have hid : e.kind = q.kind ∧ e.key = q.key := by
    have := List.find?_some h
    simpa using this
  simp only [RetrieveManager.step, h, true_and]
  unfold findEntry
  simp only
  rw [find?_map_same]
  · unfold findEntry at h
    rw [h]
    simp [hid.1, hid.2]
  · intro a
    split <;> rfl

theorem retrieve_many (score : List RankEvent → Nat → ℚ) (q : OdrQuery) :
    ∀ (cs : List Nat) (s : RetrieveManager) (e : PendingEntry),
      findEntry s q.kind q.key = some e →
      (cs.foldl (fun st c => st.step score (Event.retrieve q c)) s).dist = s.dist ∧
      (cs.foldl (fun st c => st.step score (Event.retrieve q c)) s).delivered = s.delivered ∧
      findEntry (cs.foldl (fun st c => st.step score (Event.retrieve q c)) s) q.kind q.key =
        some { e with waiters := e.waiters ++ cs } := by
  intro cs
  induction cs with
  | nil =>
    intro s e h
    exact ⟨rfl, rfl, by simpa using h⟩
  | cons c cs ih =>
    intro s e h
    obtain ⟨h1, h2, h3⟩ := retrieve_existing score s q c e h
    obtain ⟨k1, k2, k3⟩ := ih _ _ h3
    refine ⟨k1.trans h1, k2.trans h2, ?_⟩
    rw [List.foldl_cons, k3]
    simp

theorem sendCount_trySchedule (score : List RankEvent → Nat → ℚ) (s : Distributor)
    (r : DistRequest) (req : Nat) :
    sendCount (trySchedule score s r) req ≤ sendCount s req + (if r.id = req then 1 else 0) := by
  unfold trySchedule
  split
  · exact Nat.le_add_right _ _
  · split
    · exact Nat.le_add_right _ _
    · split
      · exact Nat.le_add_right _ _
      · unfold sendCount
        simp only [List.filter_append, List.length_append]
        apply Nat.add_le_add_left
        by_cases hr : r.id = req
        · simp [hr]
        · have hb : (r.id == req) = false := by simpa using hr
          simp [List.filter, hb]

theorem sendCount_foldl (score : List RankEvent → Nat → ℚ) (req : Nat) :
    ∀ (l : List DistRequest) (s : Distributor),
      sendCount (l.foldl (trySchedule score) s) req ≤
        sendCount s req + (l.filter (fun r => r.id == req)).length := by
  intro l
  induction l with
  | nil => intro s; simp
  | cons r rs ih =>
    intro s
    refine (ih _).trans ?_
    have := sendCount_trySchedule score s r req
    by_cases hr : r.id = req
    · simp only [hr, if_true] at this
      simp only [List.filter, hr, beq_self_eq_true, List.length_cons]
      omega
    · simp only [hr, if_false] at this
      have hb : (r.id == req) = false := by simpa using hr
      simp only [List.filter, hb]
      omega


theorem findAssigned_mem (s : Distributor) (req : Nat) (a : DistRequest × Nat)
    (h : findAssigned s req = some a) : a ∈ s.assigned ∧ a.1.id = req := by
  unfold findAssigned at h
  refine ⟨List.mem_of_find?_eq_some h, ?_⟩
  have := List.find?_some h
  simpa using this

theorem filter_id_nil_of_lt {α : Type} (l : List α) (f : α → Nat) (n : Nat)
    (h : ∀ x ∈ l, f x < n) : l.filter (fun x => f x == n) = [] := by
  rw [List.filter_eq_nil_iff]
  intro x hx
  have := h x hx
  simp only [beq_iff_eq]
  omega

theorem find?_filter_append_fresh (p f : PendingEntry → Bool) (l : List PendingEntry)
    (e : PendingEntry) (hl : l.find? p = none) (hp : p e = true) :
    ((l ++ [e]).filter f).find? p = if f e = true then some e else none := by
  induction l with
  | nil =>
    cases hf : f e with
    | true => simp [List.filter, hf, List.find?, hp]
    | false => simp [List.filter, hf]
  | cons x xs ih =>
    have hx : p x = false := by
      cases hpx : p x with
      | false => rfl
      | true => simp [List.find?, hpx] at hl
    have hxs : xs.find? p = none := by
      simpa [List.find?, hx] using hl
    simp only [List.cons_append, List.filter]
    cases f x with
    | true => simp only [List.find?, hx]; exact ih hxs
    | false => exact ih hxs

/-- The first call for a fresh identity: at most one send is made for its request,
exactly one once the request is handed to a peer; and if the entry is still
pending after the call, it is the entry of this request with the caller as its
only waiter. -/
theorem retrieve_fresh (score : List RankEvent → Nat → ℚ) (s : RetrieveManager)
    (q : OdrQuery) (c : Nat) (hi : IdInv s.dist)
    (hf : findEntry s q.kind q.key = none) :
    sendCount (s.step score (Event.retrieve q c)).dist s.dist.nextId ≤ 1 ∧
    ((findAssigned (s.step score (Event.retrieve q c)).dist s.dist.nextId).isSome = true →
      sendCount (s.step score (Event.retrieve q c)).dist s.dist.nextId = 1) ∧
    ((findEntry (s.step score (Event.retrieve q c)) q.kind q.key).isSome = true →
      findEntry (s.step score (Event.retrieve q c)) q.kind q.key =
        some { kind := q.kind, key := q.key, req := s.dist.nextId, verify := q.verify,
               waiters := [c] }) := by
  simp only [RetrieveManager.step, hf, settle_dist]
  obtain ⟨h1, h2, h3, h4, h5⟩ := hi
  have hd1 : IdInv (s.dist.step score (DistEvent.queue q.kind q.canServe q.cost)) :=
    idInv_step score _ _ ⟨h1, h2, h3, h4, h5⟩
  generalize hd : s.dist.step score (DistEvent.queue q.kind q.canServe q.cost) = d1 at hd1 ⊢
  have hdef : d1 = (s.dist.pending ++
      [(⟨s.dist.nextId, q.kind, q.canServe, q.cost, []⟩ : DistRequest)]).foldl
      (trySchedule score) { s.dist with pending := [], nextId := s.dist.nextId + 1 } := by
    rw [← hd]
    rfl
  have hcount : ((s.dist.pending ++
      [(⟨s.dist.nextId, q.kind, q.canServe, q.cost, []⟩ : DistRequest)]).filter
      (fun r => r.id == s.dist.nextId)).length = 1 := by
    rw [List.filter_append, filter_id_nil_of_lt s.dist.pending (fun r => r.id) _ h1]
    simp
  have hsend : sendCount d1 s.dist.nextId ≤ 1 := by
    rw [hdef]
    refine (sendCount_foldl score _ _ _).trans ?_
    rw [hcount]
    unfold sendCount
    simp only
    rw [filter_id_nil_of_lt s.dist.sends (fun x => x.1) _ h3]
    simp
  refine ⟨hsend, ?_, ?_⟩
  · intro hfl
    obtain ⟨a, ha⟩ := Option.isSome_iff_exists.1 hfl
    obtain ⟨ham, haid⟩ := findAssigned_mem d1 _ a ha
    have hsendpos : 0 < sendCount d1 s.dist.nextId := by
      unfold sendCount
      apply List.length_pos_of_mem (a := (a.1.id, a.2))
      exact List.mem_filter.2 ⟨hd1.2.2.2.2 a ham, by simp [haid]⟩
    omega
  · intro hsome
    unfold findEntry settle at hsome ⊢
    simp only at hsome ⊢
    rw [find?_filter_append_fresh _ _ _ _ hf (by simp)] at hsome ⊢
    split
    · rfl
    · rename_i hfe
      rw [if_neg hfe] at hsome
      cases hsome

theorem settle_resolves (u : RetrieveManager) (x : PendingEntry) (hx : x ∈ u.entries)
    (hgone : ∀ y ∈ (settle u).entries, y.req ≠ x.req) :
    ∃ o, ∀ w ∈ x.waiters,
      ({ caller := w, kind := x.kind, key := x.key, req := x.req, outcome := o } : Delivery) ∈
        (settle u).delivered := by
  cases hf : failureOf u.dist x.req with
  | none =>
    exfalso
    exact hgone x (List.mem_filter.2 ⟨hx, by simp [hf]⟩) rfl
  | some err =>
    refine ⟨Except.error err, fun w hw => ?_⟩
    apply List.mem_append_right
    rw [List.mem_flatMap]
    refine ⟨x, hx, ?_⟩
    rw [hf]
    exact (mem_deliverAll _ _ _).2 ⟨w, hw, rfl⟩

/-- An event other than a cancellation that ends the pending entry `x` hands one
and the same outcome to every waiter of `x`. -/
theorem step_resolves (score : List RankEvent → Nat → ℚ) (s : RetrieveManager) (ev : Event)
    (x : PendingEntry) (h : RMInv s) (hx : x ∈ s.entries) (hc : ev.isCancel = false)
    (hgone : ∀ y ∈ (s.step score ev).entries, y.req ≠ x.req) :
    ∃ o, ∀ w ∈ x.waiters,
      ({ caller := w, kind := x.kind, key := x.key, req := x.req, outcome := o } : Delivery) ∈
        (s.step score ev).delivered := by
  cases ev with
  | register p => exact settle_resolves _ x hx hgone
  | unregister id => exact settle_resolves _ x hx hgone
  | retrieve q c =>
    simp only [RetrieveManager.step] at hgone ⊢
    split at hgone
    · exfalso
      refine hgone _ (List.mem_map.2 ⟨x, hx, rfl⟩) ?_
      split <;> rfl
    · rename_i hf
      try simp only [hf]
      exact settle_resolves _ x (List.mem_append_left _ hx) hgone
  | response req payload latency =>
    simp only [RetrieveManager.step] at hgone ⊢
    split at hgone
    · exact absurd rfl (hgone x hx)
    · rename_i a hfa
      try simp only [hfa]
      split at hgone
      · rename_i hnone
        try simp only [hnone]
        exact settle_resolves _ x hx hgone
      · rename_i e hfind
        try simp only [hfind]
        split at hgone
        · rename_i v hv
          try simp only [hv]
          by_cases hreq : x.req = req
          · have hmem : e ∈ s.entries := List.mem_of_find?_eq_some hfind
            have hereq : e.req = req := by
              have := List.find?_some hfind
              simpa using this
            have hxe : x = e :=
              List.inj_on_of_nodup_map h.2.1 hx hmem (hreq.trans hereq.symm)
            subst hxe
            refine ⟨Except.ok v, fun w hw => ?_⟩
            apply List.mem_append_left
            apply List.mem_append_right
            exact (mem_deliverAll _ _ _).2 ⟨w, hw, rfl⟩
          · refine settle_resolves _ x ?_ hgone
            exact List.mem_filter.2 ⟨hx, by simpa using hreq⟩
        · rename_i hv
          try simp only [hv]
          exact settle_resolves _ x hx hgone
  | timeout req => exact settle_resolves _ x hx hgone
  | deadline req => exact settle_resolves _ x hx hgone
  | cancel c k key => cases hc


theorem run_append (score : List RankEvent → Nat → ℚ) (evs tail : List Event) :
    RetrieveManager.run score (evs ++ tail) =
      tail.foldl (RetrieveManager.step score) (RetrieveManager.run score evs) := by
  unfold RetrieveManager.run
  rw [List.foldl_append]

theorem run_inv (score : List RankEvent → Nat → ℚ) (evs : List Event) :
    RMInv (RetrieveManager.run score evs) ∧ IdInv (RetrieveManager.run score evs).dist :=
  ⟨rmInv_foldl score evs _ rmInv_init, idInv_rm_foldl score evs _ idInv_init⟩

/-! ## Verified delivery -/

theorem settle_entries_sub (u : RetrieveManager) : (settle u).entries.Sublist u.entries :=
  List.filter_sublist _

theorem settle_delivered_origin (u : RetrieveManager) (d : Delivery)
    (hd : d ∈ (settle u).delivered) :
    d ∈ u.delivered ∨ ∃ err, d.outcome = Except.error err := by
  rcases List.mem_append.1 hd with hd | hd
  · exact Or.inl hd
  · obtain ⟨e, -, err, -, hm⟩ := mem_settle_new u d hd
    obtain ⟨c, -, rfl⟩ := (mem_deliverAll _ _ _).1 hm
    exact Or.inr ⟨_, rfl⟩

/-- Where the pending entries after an event come from: an entry that was
pending before (same identity, request and verification function) or the query
of the `retrieve` call being processed. -/
theorem step_entries_origin (score : List RankEvent → Nat → ℚ) (s : RetrieveManager)
    (ev : Event) (y : PendingEntry) (hy : y ∈ (s.step score ev).entries) :
    (∃ x ∈ s.entries, y.kind = x.kind ∧ y.key = x.key ∧ y.verify = x.verify ∧ y.req = x.req) ∨
    (∃ q c, ev = Event.retrieve q c ∧ y.kind = q.kind ∧ y.key = q.key ∧ y.verify = q.verify) := by
  have hold : ∀ u : RetrieveManager, y ∈ (settle u).entries → u.entries.Sublist s.entries →
      ∃ x ∈ s.entries, y.kind = x.kind ∧ y.key = x.key ∧ y.verify = x.verify ∧ y.req = x.req :=
    fun u hm hl => ⟨y, hl.subset ((settle_entries_sub u).subset hm), rfl, rfl, rfl, rfl⟩
  cases ev with
  | register p => exact Or.inl (hold _ hy (List.Sublist.refl _))
  | unregister id => exact Or.inl (hold _ hy (List.Sublist.refl _))
  | retrieve q c =>
    simp only [RetrieveManager.step] at hy
    split at hy
    · obtain ⟨x, hx, rfl⟩ := List.mem_map.1 hy
      refine Or.inl ⟨x, hx, ?_⟩
      split <;> exact ⟨rfl, rfl, rfl, rfl⟩
    · have hy' := (settle_entries_sub _).subset hy
      rcases List.mem_append.1 hy' with hy' | hy'
      · exact Or.inl ⟨y, hy', rfl, rfl, rfl, rfl⟩
      · simp only [List.mem_singleton] at hy'
        subst hy'
        exact Or.inr ⟨q, c, rfl, rfl, rfl, rfl⟩
  | response req payload latency =>
    simp only [RetrieveManager.step] at hy
    split at hy
    · exact Or.inl ⟨y, hy, rfl, rfl, rfl, rfl⟩
    · split at hy
      · exact Or.inl (hold _ hy (List.Sublist.refl _))
      · split at hy
        · exact Or.inl (hold _ hy (List.filter_sublist _))
        · exact Or.inl (hold _ hy (List.Sublist.refl _))
  | timeout req => exact Or.inl (hold _ hy (List.Sublist.refl _))
  | deadline req => exact Or.inl (hold _ hy (List.Sublist.refl _))
  | cancel c k key =>
    simp only [RetrieveManager.step] at hy
    split at hy
    · exact Or.inl ⟨y, hy, rfl, rfl, rfl, rfl⟩
    · split at hy
      · exact Or.inl (hold _ hy (List.filter_sublist _))
      · obtain ⟨x, hx, rfl⟩ := List.mem_map.1 hy
        refine Or.inl ⟨x, hx, ?_⟩
        split <;> exact ⟨rfl, rfl, rfl, rfl⟩

/-- Where the deliveries after an event come from: an earlier delivery, an error,
or a value that the verification function of a pending entry accepted for the
response being processed. -/
theorem step_delivered_origin (score : List RankEvent → Nat → ℚ) (s : RetrieveManager)
    (ev : Event) (d : Delivery) (hd : d ∈ (s.step score ev).delivered) :
    d ∈ s.delivered ∨ (∃ err, d.outcome = Except.error err) ∨
    (∃ e ∈ s.entries, ∃ x lat v, ev = Event.response e.req x lat ∧ e.verify x = some v ∧
      d.outcome = Except.ok v ∧ d.kind = e.kind ∧ d.key = e.key ∧ d.req = e.req) := by
  have hs : ∀ u : RetrieveManager, d ∈ (settle u).delivered → u.delivered = s.delivered →
      d ∈ s.delivered ∨ (∃ err, d.outcome = Except.error err) := by
    intro u hm hu
    rcases settle_delivered_origin u d hm with h | h
    · exact Or.inl (hu ▸ h)
    · exact Or.inr h
  cases ev with
  | register p => exact (hs _ hd rfl).elim Or.inl (fun h => Or.inr (Or.inl h))
  | unregister id => exact (hs _ hd rfl).elim Or.inl (fun h => Or.inr (Or.inl h))
  | retrieve q c =>
    simp only [RetrieveManager.step] at hd
    split at hd
    · exact Or.inl hd
    · exact (hs _ hd rfl).elim Or.inl (fun h => Or.inr (Or.inl h))
  | response req payload latency =>
    simp only [RetrieveManager.step] at hd
    split at hd
    · exact Or.inl hd
    · split at hd
      · exact (hs _ hd rfl).elim Or.inl (fun h => Or.inr (Or.inl h))
      · rename_i e hfind
        have hmem : e ∈ s.entries := List.mem_of_find?_eq_some hfind
        have hereq : e.req = req := by
          have := List.find?_some hfind
          simpa using this
        split at hd
        · rename_i v hv
          rcases settle_delivered_origin _ d hd with h | h
          · rcases List.mem_append.1 h with h | h
            · exact Or.inl h
            · obtain ⟨w, -, rfl⟩ := (mem_deliverAll _ _ _).1 h
              exact Or.inr (Or.inr ⟨e, hmem, payload, latency, v, by rw [hereq], hv,
                rfl, rfl, rfl, rfl⟩)
          · exact Or.inr (Or.inl h)
        · exact (hs _ hd rfl).elim Or.inl (fun h => Or.inr (Or.inl h))
  | timeout req => exact (hs _ hd rfl).elim Or.inl (fun h => Or.inr (Or.inl h))
  | deadline req => exact (hs _ hd rfl).elim Or.inl (fun h => Or.inr (Or.inl h))
  | cancel c k key =>
    simp only [RetrieveManager.step] at hd
    split at hd
    · exact Or.inl hd
    · split at hd
      · exact (hs _ hd rfl).elim Or.inl (fun h => Or.inr (Or.inl h))
      · exact Or.inl hd

/-- Every pending entry stems from a `retrieve` call of the history, and every
delivered value was accepted by the verification function of such a call for a
response of the history. -/
theorem run_verified (score : List RankEvent → Nat → ℚ) (evs : List Event) :
    (∀ e ∈ (RetrieveManager.run score evs).entries, ∃ q c, Event.retrieve q c ∈ evs ∧
      q.kind = e.kind ∧ q.key = e.key ∧ q.verify = e.verify) ∧
    (∀ d ∈ (RetrieveManager.run score evs).delivered, ∀ v, d.outcome = Except.ok v →
      ∃ q c x lat, Event.retrieve q c ∈ evs ∧ q.kind = d.kind ∧ q.key = d.key ∧
        Event.response d.req x lat ∈ evs ∧ q.verify x = some v) := by
  induction evs using List.reverseRecOn with
  | nil =>
    constructor
    · intro e he; cases he
    · intro d hd; cases hd
  | append_singleton evs ev ih =>
    obtain ⟨ih1, ih2⟩ := ih
    have hrun : RetrieveManager.run score (evs ++ [ev]) =
        (RetrieveManager.run score evs).step score ev := by
      rw [run_append]; rfl
    rw [hrun]
    constructor
    · intro y hy
      rcases step_entries_origin score _ ev y hy with ⟨x, hx, h1, h2, h3, -⟩ | ⟨q, c, rfl, h1, h2, h3⟩
      · obtain ⟨q, c, hq, k1, k2, k3⟩ := ih1 x hx
        exact ⟨q, c, List.mem_append_left _ hq, k1.trans h1.symm, k2.trans h2.symm,
          k3.trans h3.symm⟩
      · exact ⟨q, c, List.mem_append_right _ (List.mem_singleton_self _), h1.symm, h2.symm,
          h3.symm⟩
    · intro d hd v hv
      rcases step_delivered_origin score _ ev d hd with h | ⟨err, h⟩ | ⟨e, he, x, lat, v', rfl, h2, h3, h4, h5, h6⟩
      · obtain ⟨q, c, x, lat, k1, k2, k3, k4, k5⟩ := ih2 d h v hv
        exact ⟨q, c, x, lat, List.mem_append_left _ k1, k2, k3, List.mem_append_left _ k4, k5⟩
      · rw [h] at hv; cases hv
      · obtain ⟨q, c, hq, k1, k2, k3⟩ := ih1 e he
        rw [h3] at hv
        simp only [Except.ok.injEq] at hv
        subst hv
        refine ⟨q, c, x, lat, List.mem_append_left _ hq, k1.trans h4.symm, k2.trans h5.symm, ?_,
          by rw [k3]; exact h2⟩
        rw [h6]
        exact List.mem_append_right _ (List.mem_singleton_self _)


/-! ## Rejected responses -/

theorem trySchedule_frame (score : List RankEvent → Nat → ℚ) (s : Distributor)
    (r : DistRequest) :
    (trySchedule score s r).rankLog = s.rankLog ∧
      (trySchedule score s r).cancelled = s.cancelled := by
  unfold trySchedule
  split
  · exact ⟨rfl, rfl⟩
  · split
    · exact ⟨rfl, rfl⟩
    · split <;> exact ⟨rfl, rfl⟩

theorem foldl_trySchedule_frame (score : List RankEvent → Nat → ℚ) :
    ∀ (l : List DistRequest) (s : Distributor),
      (l.foldl (trySchedule score) s).rankLog = s.rankLog ∧
        (l.foldl (trySchedule score) s).cancelled = s.cancelled := by
  intro l
  induction l with
  | nil => intro s; exact ⟨rfl, rfl⟩
  | cons r rs ih =>
    intro s
    obtain ⟨h1, h2⟩ := ih (trySchedule score s r)
    obtain ⟨k1, k2⟩ := trySchedule_frame score s r
    exact ⟨h1.trans k1, h2.trans k2⟩

theorem schedule_frame (score : List RankEvent → Nat → ℚ) (s : Distributor) :
    (schedule score s).rankLog = s.rankLog ∧ (schedule score s).cancelled = s.cancelled :=
  foldl_trySchedule_frame score _ _

theorem handle_cancelled (s : Distributor) (e : DistEvent) (c : Nat)
    (hc : c ∈ (s.handle e).cancelled) : c ∈ s.cancelled ∨ e = DistEvent.cancel c := by
  cases e with
  | register p => exact Or.inl hc
  | unregister id => exact Or.inl (List.mem_of_mem_filter hc)
  | queue k canServe cost => exact Or.inl hc
  | success req latency value =>
    simp only [Distributor.handle, onSuccess] at hc
    split at hc
    · exact Or.inl hc
    · exact Or.inl (List.mem_of_mem_filter hc)
  | failure req =>
    simp only [Distributor.handle, onFailure] at hc
    split at hc
    · exact Or.inl hc
    · exact Or.inl (List.mem_of_mem_filter hc)
  | deadline req =>
    simp only [Distributor.handle, onDeadline] at hc
    split at hc
    · exact Or.inl (List.mem_of_mem_filter hc)
    · split at hc
      · exact Or.inl hc
      · exact Or.inl hc
  | cancel req =>
    simp only [Distributor.handle, onCancel] at hc
    split at hc
    · exact Or.inl hc
    · split at hc
      · rcases List.mem_cons.1 hc with h | h
        · exact Or.inr (by rw [h])
        · exact Or.inl h
      · exact Or.inl hc

theorem step_cancelled (score : List RankEvent → Nat → ℚ) (s : Distributor) (e : DistEvent)
    (c : Nat) (hc : c ∈ (s.step score e).cancelled) :
    c ∈ s.cancelled ∨ e = DistEvent.cancel c := by
  unfold Distributor.step at hc
  rw [(schedule_frame score _).2] at hc
  exact handle_cancelled s e c hc

theorem cancInv_init : CancInv RetrieveManager.init := by
  constructor
  · intro c hc; cases hc
  · intro e he; cases he

theorem cancInv_settle (u : RetrieveManager) (h : CancInv u) : CancInv (settle u) :=
  ⟨h.1, fun e he => h.2 e ((settle_entries_sub u).subset he)⟩

theorem cancInv_of (s u : RetrieveManager) (h : CancInv s)
    (hn : s.dist.nextId ≤ u.dist.nextId)
    (hc : ∀ c ∈ u.dist.cancelled, c ∈ s.dist.cancelled ∨
      (c < s.dist.nextId ∧ ∀ y ∈ u.entries, y.req ≠ c))
    (he : ∀ y ∈ u.entries, (∃ x ∈ s.entries, y.req = x.req) ∨ y.req = s.dist.nextId) :
    CancInv u := by
  constructor
  · intro c hcm
    rcases hc c hcm with h' | ⟨h', -⟩
    · exact Nat.lt_of_lt_of_le (h.1 c h') hn
    · exact Nat.lt_of_lt_of_le h' hn
  · intro y hy hm
    rcases hc _ hm with h' | ⟨-, h'⟩
    · rcases he y hy with ⟨x, hx, hxy⟩ | hfresh
      · exact h.2 x hx (hxy ▸ h')
      · have := h.1 _ h'
        omega
    · exact h' y hy rfl

theorem cancInv_step (score : List RankEvent → Nat → ℚ) (s : RetrieveManager) (ev : Event)
    (hrm : RMInv s) (h : CancInv s) : CancInv (s.step score ev) := by
  have plain : ∀ (de : DistEvent) (l : List PendingEntry), (∀ c, de ≠ DistEvent.cancel c) →
      (∀ y ∈ l, (∃ x ∈ s.entries, y.req = x.req) ∨ y.req = s.dist.nextId) →
      CancInv (settle { dist := s.dist.step score de, entries := l, delivered := s.delivered }) := by
    intro de l hde hl
    apply cancInv_settle
    refine cancInv_of s _ h (step_nextId_le score _ _) ?_ hl
    intro c hc
    rcases step_cancelled score _ _ c hc with h' | h'
    · exact Or.inl h'
    · exact absurd h' (hde c)
  have same : ∀ y ∈ s.entries, (∃ x ∈ s.entries, y.req = x.req) ∨ y.req = s.dist.nextId :=
    fun y hy => Or.inl ⟨y, hy, rfl⟩
  cases ev with
  | register p => exact plain _ _ (fun c hc => by cases hc) same
  | unregister id => exact plain _ _ (fun c hc => by cases hc) same
  | retrieve q c =>
    simp only [RetrieveManager.step]
    split
    · refine cancInv_of s _ h (Nat.le_refl _) (fun c hc => Or.inl hc) ?_
      intro y hy
      obtain ⟨x, hx, rfl⟩ := List.mem_map.1 hy
      refine Or.inl ⟨x, hx, ?_⟩
      split <;> rfl
    · refine plain _ _ (fun c hc => by cases hc) ?_
      intro y hy
      rcases List.mem_append.1 hy with hy | hy
      · exact Or.inl ⟨y, hy, rfl⟩
      · simp only [List.mem_singleton] at hy
        subst hy
        exact Or.inr rfl
  | response req payload latency =>
    simp only [RetrieveManager.step]
    split
    · exact h
    · split
      · exact plain _ _ (fun c hc => by cases hc) same
      · split
        · apply cancInv_settle
          refine cancInv_of s _ h (step_nextId_le score _ _) ?_ ?_
          · intro c hc
            rcases step_cancelled score _ _ c hc with h' | h'
            · exact Or.inl h'
            · cases h'
          · intro y hy
            exact Or.inl ⟨y, List.mem_of_mem_filter hy, rfl⟩
        · exact plain _ _ (fun c hc => by cases hc) same
  | timeout req => exact plain _ _ (fun c hc => by cases hc) same
  | deadline req => exact plain _ _ (fun c hc => by cases hc) same
  | cancel c k key =>
    simp only [RetrieveManager.step]
    split
    · exact h
    · rename_i e hfind
      have hmem : e ∈ s.entries := List.mem_of_find?_eq_some hfind
      have hid : e.kind = k ∧ e.key = key := by
        have := List.find?_some hfind
        simpa using this
      split
      · apply cancInv_settle
        refine cancInv_of s _ h (step_nextId_le score _ _) ?_ ?_
        · intro c' hc'
          rcases step_cancelled score _ _ c' hc' with h' | h'
          · exact Or.inl h'
          · simp only [DistEvent.cancel.injEq] at h'
            subst h'
            refine Or.inr ⟨hrm.2.2.1 e hmem, ?_⟩
            intro y hy hreq
            have hy' := List.mem_filter.1 hy
            have hye : y = e := List.inj_on_of_nodup_map hrm.2.1 hy'.1 hmem hreq
            subst hye
            simp [hid.1, hid.2] at hy'
        · intro y hy
          exact Or.inl ⟨y, List.mem_of_mem_filter hy, rfl⟩
      · refine cancInv_of s _ h (Nat.le_refl _) (fun c hc => Or.inl hc) ?_
        intro y hy
        obtain ⟨x, hx, rfl⟩ := List.mem_map.1 hy
        refine Or.inl ⟨x, hx, ?_⟩
        split <;> rfl

theorem run_cancInv (score : List RankEvent → Nat → ℚ) (evs : List Event) :
    CancInv (RetrieveManager.run score evs) := by
  induction evs using List.reverseRecOn with
  | nil => exact cancInv_init
  | append_singleton evs ev ih =>
    have hrun : RetrieveManager.run score (evs ++ [ev]) =
        (RetrieveManager.run score evs).step score ev := by
      rw [run_append]; rfl
    rw [hrun]
    exact cancInv_step score _ ev (run_inv score evs).1 ih


theorem exclusion_trySchedule (score : List RankEvent → Nat → ℚ) (s : Distributor)
    (r : DistRequest) (req p : Nat) (hr : r.id = req → p ∈ r.excluded)
    (h1 : ∀ a ∈ s.assigned, a.1.id = req → a.2 ≠ p ∧ p ∈ a.1.excluded)
    (h2 : ∀ x ∈ s.pending, x.id = req → p ∈ x.excluded) :
    (∀ a ∈ (trySchedule score s r).assigned, a.1.id = req → a.2 ≠ p ∧ p ∈ a.1.excluded) ∧
    (∀ x ∈ (trySchedule score s r).pending, x.id = req → p ∈ x.excluded) := by
  have hpend : ∀ x ∈ s.pending ++ [r], x.id = req → p ∈ x.excluded := by
    intro x hx
    rcases List.mem_append.1 hx with hx | hx
    · exact h2 x hx
    · simp only [List.mem_singleton] at hx
      subst hx
      exact hr
  unfold trySchedule
  split
  · exact ⟨h1, h2⟩
  · split
    · exact ⟨h1, hpend⟩
    · rename_i q hq
      split
      · exact ⟨h1, hpend⟩
      · refine ⟨?_, h2⟩
        intro a ha hid
        rcases List.mem_append.1 ha with ha | ha
        · exact h1 a ha hid
        · simp only [List.mem_singleton] at ha
          subst ha
          have hqm := pickPeer_mem _ _ _ _ hq
          have hqx : q.id ∉ r.excluded := by
            have := (List.mem_filter.1 hqm).2
            simp only [Bool.and_eq_true, Bool.not_eq_true', List.contains_eq_any_beq,
              List.any_eq_false, beq_iff_eq] at this
            intro hc
            exact this.2 _ hc rfl
          have hpx := hr hid
          refine ⟨fun hc => hqx ?_, hpx⟩
          have hc' : q.id = p := hc
          rw [hc']
          exact hpx

theorem exclusion_foldl (score : List RankEvent → Nat → ℚ) (req p : Nat) :
    ∀ (l : List DistRequest) (s : Distributor),
      (∀ r ∈ l, r.id = req → p ∈ r.excluded) →
      (∀ a ∈ s.assigned, a.1.id = req → a.2 ≠ p ∧ p ∈ a.1.excluded) →
      (∀ x ∈ s.pending, x.id = req → p ∈ x.excluded) →
      (∀ a ∈ (l.foldl (trySchedule score) s).assigned,
        a.1.id = req → a.2 ≠ p ∧ p ∈ a.1.excluded) ∧
      (∀ x ∈ (l.foldl (trySchedule score) s).pending, x.id = req → p ∈ x.excluded) := by
  intro l
  induction l with
  | nil => intro s _ h1 h2; exact ⟨h1, h2⟩
  | cons r rs ih =>
    intro s hl h1 h2
    obtain ⟨k1, k2⟩ := exclusion_trySchedule score s r req p
      (hl r (List.mem_cons_self _ _)) h1 h2
    exact ih _ (fun x hx => hl x (List.mem_cons_of_mem _ hx)) k1 k2

theorem trySchedule_lands (score : List RankEvent → Nat → ℚ) (s : Distributor)
    (r : DistRequest) : Landed (trySchedule score s r) r := by
  unfold trySchedule Landed
  split
  · exact Or.inr (Or.inr (List.mem_append_right _ (List.mem_singleton_self _)))
  · split
    · exact Or.inr (Or.inl (List.mem_append_right _ (List.mem_singleton_self _)))
    · rename_i q hq
      split
      · exact Or.inr (Or.inl (List.mem_append_right _ (List.mem_singleton_self _)))
      · exact Or.inl ⟨q.id, List.mem_append_right _ (List.mem_singleton_self _)⟩

theorem trySchedule_keeps (score : List RankEvent → Nat → ℚ) (s : Distributor)
    (r x : DistRequest) (h : Landed s x) : Landed (trySchedule score s r) x := by
  unfold trySchedule
  split
  · rcases h with ⟨p, hp⟩ | hp | hp
    · exact Or.inl ⟨p, hp⟩
    · exact Or.inr (Or.inl hp)
    · exact Or.inr (Or.inr (List.mem_append_left _ hp))
  · split
    · rcases h with ⟨p, hp⟩ | hp | hp
      · exact Or.inl ⟨p, hp⟩
      · exact Or.inr (Or.inl (List.mem_append_left _ hp))
      · exact Or.inr (Or.inr hp)
    · split
      · rcases h with ⟨p, hp⟩ | hp | hp
        · exact Or.inl ⟨p, hp⟩
        · exact Or.inr (Or.inl (List.mem_append_left _ hp))
        · exact Or.inr (Or.inr hp)
      · rcases h with ⟨p, hp⟩ | hp | hp
        · exact Or.inl ⟨p, List.mem_append_left _ hp⟩
        · exact Or.inr (Or.inl hp)
        · exact Or.inr (Or.inr hp)

theorem foldl_keeps (score : List RankEvent → Nat → ℚ) (x : DistRequest) :
    ∀ (l : List DistRequest) (s : Distributor), Landed s x →
      Landed (l.foldl (trySchedule score) s) x := by
  intro l
  induction l with
  | nil => intro s h; exact h
  | cons r rs ih => intro s h; exact ih _ (trySchedule_keeps score s r x h)

theorem foldl_lands (score : List RankEvent → Nat → ℚ) (x : DistRequest) :
    ∀ (l : List DistRequest) (s : Distributor), x ∈ l →
      Landed (l.foldl (trySchedule score) s) x := by
  intro l
  induction l with
  | nil => intro s h; cases h
  | cons r rs ih =>
    intro s h
    rcases List.mem_cons.1 h with h | h
    · subst h
      exact foldl_keeps score x rs _ (trySchedule_lands score s x)
    · exact ih _ h


/-- Step 5 for one failed attempt: the failure of the peer is recorded, the peer
is excluded for the request, and the request is in flight on another peer,
pending, or failed with `ErrNoPeers`. -/
theorem failure_retries (score : List RankEvent → Nat → ℚ) (d : Distributor) (req : Nat)
    (r : DistRequest) (p : Nat) (hi : IdInv d) (hf : findAssigned d req = some (r, p))
    (hnc : req ∉ d.cancelled) :
    (d.step score (DistEvent.failure req)).rankLog = d.rankLog ++ [RankEvent.failure p] ∧
    (∀ a ∈ (d.step score (DistEvent.failure req)).assigned,
      a.1.id = req → a.2 ≠ p ∧ p ∈ a.1.excluded) ∧
    (∀ x ∈ (d.step score (DistEvent.failure req)).pending, x.id = req → p ∈ x.excluded) ∧
    ((∃ a ∈ (d.step score (DistEvent.failure req)).assigned, a.1.id = req) ∨
      (∃ x ∈ (d.step score (DistEvent.failure req)).pending, x.id = req) ∨
      (req, Except.error OdrError.ErrNoPeers) ∈
        (d.step score (DistEvent.failure req)).results) := by
  obtain ⟨l₁, l₂, e1, e2, -, -⟩ := find_eraseP_split _ _ _ hf
  obtain ⟨-, hrid⟩ := findAssigned_mem d req _ hf
  simp only at hrid
  subst hrid
  obtain ⟨-, -, -, h4, -⟩ := hi
  have hcc : d.cancelled.contains r.id = false := by
    simpa using hnc
  have hstep : d.step score (DistEvent.failure r.id) =
      (requeue { r with excluded := p :: r.excluded } d.pending).foldl (trySchedule score)
        { d with registry := markIdle d.registry p r.kind,
                 assigned := d.assigned.eraseP (fun a => a.1.id == r.id),
                 rankLog := d.rankLog ++ [RankEvent.failure p],
                 pending := [],
                 cancelled := d.cancelled.filter (fun c => c != r.id) } := by
    simp only [Distributor.step, Distributor.handle, onFailure, hf, hcc, schedule]
    rfl
  rw [hstep]
  have hpend : ∀ x ∈ d.pending, x.id ≠ r.id := by
    intro x hx hc
    rw [List.nodup_append] at h4
    refine h4.2.2 (List.mem_map.2 ⟨x, hx, rfl⟩) (List.mem_map.2 ⟨(r, p), ?_, ?_⟩)
    · rw [e1]; simp
    · exact hc.symm
  have hrest : ∀ a ∈ l₁ ++ l₂, a.1.id ≠ r.id := by
    intro a ha hc
    have hnd := (List.nodup_append.1 h4).2.1
    rw [e1, List.map_append, List.map_cons, List.nodup_middle, List.nodup_cons] at hnd
    apply hnd.1
    rw [← List.map_append]
    exact List.mem_map.2 ⟨a, ha, hc⟩
  have hl : ∀ x ∈ requeue { r with excluded := p :: r.excluded } d.pending,
      x.id = r.id → p ∈ x.excluded := by
    intro x hx hc
    rcases (mem_requeue _ _ _).1 hx with hx | hx
    · subst hx
      exact List.mem_cons_self _ _
    · exact absurd hc (hpend x hx)
  obtain ⟨q1, q2⟩ := exclusion_foldl score r.id p _
    { d with registry := markIdle d.registry p r.kind,
             assigned := d.assigned.eraseP (fun a => a.1.id == r.id),
             rankLog := d.rankLog ++ [RankEvent.failure p],
             pending := [],
             cancelled := d.cancelled.filter (fun c => c != r.id) } hl
    (by
      intro a ha hc
      have ha' : a ∈ d.assigned.eraseP (fun a => a.1.id == r.id) := ha
      rw [e2] at ha'
      exact absurd hc (hrest a ha'))
    (by intro x hx; cases hx)
  refine ⟨(foldl_trySchedule_frame score _ _).1, q1, q2, ?_⟩
  have hland := foldl_lands score { r with excluded := p :: r.excluded }
    (requeue { r with excluded := p :: r.excluded } d.pending)
    { d with registry := markIdle d.registry p r.kind,
             assigned := d.assigned.eraseP (fun a => a.1.id == r.id),
             rankLog := d.rankLog ++ [RankEvent.failure p],
             pending := [],
             cancelled := d.cancelled.filter (fun c => c != r.id) }
    ((mem_requeue _ _ _).2 (Or.inl rfl))
  rcases hland with ⟨p', hp'⟩ | hp' | hp'
  · exact Or.inl ⟨_, hp', rfl⟩
  · exact Or.inr (Or.inl ⟨_, hp', rfl⟩)
  · exact Or.inr (Or.inr hp')


/-- Where the pending entries after an event come from, with the request: an
entry that was pending before, or the entry made for the `retrieve` call being
processed, which found its identity fresh and was given the next request
identifier. -/
theorem step_entries_created (score : List RankEvent → Nat → ℚ) (s : RetrieveManager)
    (ev : Event) (y : PendingEntry) (hy : y ∈ (s.step score ev).entries) :
    (∃ x ∈ s.entries, y.kind = x.kind ∧ y.key = x.key ∧ y.verify = x.verify ∧ y.req = x.req) ∨
    (∃ q c, ev = Event.retrieve q c ∧ findEntry s q.kind q.key = none ∧ y.kind = q.kind ∧
      y.key = q.key ∧ y.verify = q.verify ∧ y.req = s.dist.nextId) := by
  rcases step_entries_origin score s ev y hy with h | ⟨q, c, rfl, -, -, -⟩
  · exact Or.inl h
  · simp only [RetrieveManager.step] at hy
    split at hy
    · obtain ⟨x, hx, rfl⟩ := List.mem_map.1 hy
      refine Or.inl ⟨x, hx, ?_⟩
      split <;> exact ⟨rfl, rfl, rfl, rfl⟩
    · rename_i hfresh
      have hy' := (settle_entries_sub _).subset hy
      rcases List.mem_append.1 hy' with hy' | hy'
      · exact Or.inl ⟨y, hy', rfl, rfl, rfl, rfl⟩
      · simp only [List.mem_singleton] at hy'
        subst hy'
        exact Or.inr ⟨q, c, rfl, hfresh, rfl, rfl, rfl, rfl⟩

theorem Creates_snoc (score : List RankEvent → Nat → ℚ) (evs : List Event) (ev : Event)
    (q : OdrQuery) (c req : Nat) (h : Creates score evs q c req) :
    Creates score (evs ++ [ev]) q c req := by
  obtain ⟨pre, post, h1, h2, h3⟩ := h
  refine ⟨pre, post ++ [ev], ?_, h2, h3⟩
  rw [h1]
  simp

theorem Creates_new (score : List RankEvent → Nat → ℚ) (evs : List Event) (q : OdrQuery)
    (c : Nat) (h : findEntry (RetrieveManager.run score evs) q.kind q.key = none) :
    Creates score (evs ++ [Event.retrieve q c]) q c (RetrieveManager.run score evs).dist.nextId :=
  ⟨evs, [], rfl, h, rfl⟩

theorem Creates_mem (score : List RankEvent → Nat → ℚ) (evs : List Event) (q : OdrQuery)
    (c req : Nat) (h : Creates score evs q c req) : Event.retrieve q c ∈ evs := by
  obtain ⟨pre, post, h1, -, -⟩ := h
  rw [h1]
  simp

theorem rm_step_nextId_le (score : List RankEvent → Nat → ℚ) (s : RetrieveManager) (ev : Event) :
    s.dist.nextId ≤ (s.step score ev).dist.nextId := by
  rcases rm_step_dist score s ev with h | ⟨d, h⟩
  · rw [h]
  · rw [h]
    exact step_nextId_le score _ d

theorem run_nextId_le (score : List RankEvent → Nat → ℚ) (pre : List Event) :
    ∀ tail : List Event, (RetrieveManager.run score pre).dist.nextId ≤
      (RetrieveManager.run score (pre ++ tail)).dist.nextId := by
  intro tail
  induction tail using List.reverseRecOn with
  | nil => simp
  | append_singleton l ev ih =>
    rw [← List.append_assoc, run_append score (pre ++ l) [ev]]
    exact ih.trans (rm_step_nextId_le score _ ev)

theorem retrieve_fresh_nextId (score : List RankEvent → Nat → ℚ) (s : RetrieveManager)
    (q : OdrQuery) (c : Nat) (h : findEntry s q.kind q.key = none) :
    (s.step score (Event.retrieve q c)).dist.nextId = s.dist.nextId + 1 := by
  simp only [RetrieveManager.step, h, settle_dist]
  exact step_queue_nextId score _ _ _ _

/-- A request has one creating call only. -/
theorem Creates_unique (score : List RankEvent → Nat → ℚ) (evs : List Event)
    (q q' : OdrQuery) (c c' req : Nat) (h : Creates score evs q c req)
    (h' : Creates score evs q' c' req) : Event.retrieve q c = Event.retrieve q' c' := by
  have key : ∀ (pre post pre' post' : List Event) (q q' : OdrQuery) (c c' : Nat),
      pre ++ Event.retrieve q c :: post = pre' ++ Event.retrieve q' c' :: post' →
      findEntry (RetrieveManager.run score pre) q.kind q.key = none →
      (RetrieveManager.run score pre).dist.nextId = (RetrieveManager.run score pre').dist.nextId →
      ∀ a, pre' = pre ++ a → Event.retrieve q c = Event.retrieve q' c' := by
    intro pre post pre' post' q q' c c' heq hf hn a ha
    subst ha
    cases a with
    | nil =>
      simp only [List.append_nil, List.append_cancel_left_eq, List.cons.injEq] at heq
      exact heq.1
    | cons x xs =>
      exfalso
      rw [List.append_assoc, List.append_cancel_left_eq] at heq
      simp only [List.cons_append, List.cons.injEq] at heq
      obtain ⟨hx, -⟩ := heq
      subst hx
      have h1 := run_nextId_le score (pre ++ [Event.retrieve q c]) xs
      have h2 : (RetrieveManager.run score (pre ++ [Event.retrieve q c])).dist.nextId =
          (RetrieveManager.run score pre).dist.nextId + 1 := by
        rw [run_append]
        exact retrieve_fresh_nextId score _ q c hf
      have h3 : pre ++ Event.retrieve q c :: xs = (pre ++ [Event.retrieve q c]) ++ xs := by
        simp
      rw [h3] at hn
      omega
  obtain ⟨pre, post, e1, f1, n1⟩ := h
  obtain ⟨pre', post', e2, f2, n2⟩ := h'
  have heq : pre ++ Event.retrieve q c :: post = pre' ++ Event.retrieve q' c' :: post' :=
    e1.symm.trans e2
  rcases List.append_eq_append_iff.1 heq with ⟨a, ha, -⟩ | ⟨a, ha, -⟩
  · exact key pre post pre' post' q q' c c' heq f1 (n1.trans n2.symm) a ha
  · exact (key pre' post' pre post q' q c' c heq.symm f2 (n2.trans n1.symm) a ha).symm

/-- Every pending entry was created by a `retrieve` call of the history whose
verification function it carries, and every delivered value was accepted by the
verification function of the call that created the request it is delivered
for, for a response of the history to that request. -/
theorem run_created (score : List RankEvent → Nat → ℚ) (evs : List Event) :
    (∀ e ∈ (RetrieveManager.run score evs).entries, ∃ q c, Creates score evs q c e.req ∧
      q.kind = e.kind ∧ q.key = e.key ∧ q.verify = e.verify) ∧
    (∀ d ∈ (RetrieveManager.run score evs).delivered, ∀ v, d.outcome = Except.ok v →
      ∃ q c x lat, Creates score evs q c d.req ∧ q.kind = d.kind ∧ q.key = d.key ∧
        Event.response d.req x lat ∈ evs ∧ q.verify x = some v) := by
  induction evs using List.reverseRecOn with
  | nil =>
    constructor
    · intro e he; cases he
    · intro d hd; cases hd
  | append_singleton evs ev ih =>
    obtain ⟨ih1, ih2⟩ := ih
    have hrun : RetrieveManager.run score (evs ++ [ev]) =
        (RetrieveManager.run score evs).step score ev := by
      rw [run_append]; rfl
    rw [hrun]
    constructor
    · intro y hy
      rcases step_entries_created score _ ev y hy with
        ⟨x, hx, h1, h2, h3, h4⟩ | ⟨q, c, rfl, hf, h1, h2, h3, h4⟩
      · obtain ⟨q, c, hq, k1, k2, k3⟩ := ih1 x hx
        refine ⟨q, c, ?_, k1.trans h1.symm, k2.trans h2.symm, k3.trans h3.symm⟩
        rw [h4]
        exact Creates_snoc score evs ev q c _ hq
      · refine ⟨q, c, ?_, h1.symm, h2.symm, h3.symm⟩
        rw [h4]
        exact Creates_new score evs q c hf
    · intro d hd v hv
      rcases step_delivered_origin score _ ev d hd with
        h | ⟨err, h⟩ | ⟨e, he, x, lat, v', rfl, h2, h3, h4, h5, h6⟩
      · obtain ⟨q, c, x, lat, k1, k2, k3, k4, k5⟩ := ih2 d h v hv
        exact ⟨q, c, x, lat, Creates_snoc score evs ev q c _ k1, k2, k3,
          List.mem_append_left _ k4, k5⟩
      · rw [h] at hv; cases hv
      · obtain ⟨q, c, hq, k1, k2, k3⟩ := ih1 e he
        rw [h3] at hv
        simp only [Except.ok.injEq] at hv
        subst hv
        refine ⟨q, c, x, lat, ?_, k1.trans h4.symm, k2.trans h5.symm, ?_,
          by rw [k3]; exact h2⟩
        · rw [h6]
          exact Creates_snoc score evs _ q c _ hq
        · rw [h6]
          exact List.mem_append_right _ (List.mem_singleton_self _)


/-- C3, the claim as stated fails: caller 100 asks for state proof 7 with a
verification function that accepts payload 5, caller 101 joins with a query of
the same identity whose verification function rejects every payload, and the
response 5 is delivered as the value 55 to both, although the verification
function of caller 101 does not accept it. -/
theorem verified_delivery_joiner_counterexample :
    (rejectingQuery.kind = sampleQuery.kind ∧ rejectingQuery.key = sampleQuery.key) ∧
    rejectingQuery.verify 5 = none ∧
    (RetrieveManager.run flatScore [Event.register (samplePeer 1),
      Event.retrieve sampleQuery 100, Event.retrieve rejectingQuery 101,
      Event.response 0 5 3]).delivered.map (fun d => (d.caller, d.outcome)) =
      [(100, Except.ok 55), (101, Except.ok 55)] :=
  ⟨⟨rfl, rfl⟩, rfl, by rfl⟩

/-- C3, amended (verified delivery).  A value that `retrieve` hands to a caller was
accepted, for a response received for the caller's request, by the verification
function of the one `retrieve` call that created that request, the call that
found the identity without a pending entry; it is the caller's own verification
function whenever all queries of the identity carry the same one.  A response
that fails this verification (`e.verify x = none` for the entry `e` of the
request in flight on peer `p`) is not delivered as a value: the step delivers at
most errors, records a failure of `p`, excludes `p` for the request, and leaves
the request in flight on another peer, pending with `p` excluded, or failed with
`ErrNoPeers`. -/
theorem verified_delivery (score : List RankEvent → Nat → ℚ) (evs : List Event)
    (req x lat : Nat) (r : DistRequest) (p : Nat) (e : PendingEntry)
    (hass : findAssigned (RetrieveManager.run score evs).dist req = some (r, p))
    (hent : (RetrieveManager.run score evs).entries.find? (fun e => e.req == req) = some e)
    (hver : e.verify x = none) :
    (∀ (hist : List Event) (d : Delivery) (v : Nat),
      d ∈ (RetrieveManager.run score hist).delivered → d.outcome = Except.ok v →
      ∃ q c y l, Creates score hist q c d.req ∧ q.kind = d.kind ∧ q.key = d.key ∧
        Event.response d.req y l ∈ hist ∧ q.verify y = some v) ∧
    (∀ (hist : List Event) (q q' : OdrQuery) (c c' r : Nat),
      Creates score hist q c r → Creates score hist q' c' r →
      Event.retrieve q c = Event.retrieve q' c') ∧
    (∀ (hist : List Event) (d : Delivery) (v : Nat) (f : Nat → Option Nat),
      d ∈ (RetrieveManager.run score hist).delivered → d.outcome = Except.ok v →
      (∀ q' c', Event.retrieve q' c' ∈ hist → q'.kind = d.kind → q'.key = d.key →
        q'.verify = f) →
      ∃ y l, Event.response d.req y l ∈ hist ∧ f y = some v) ∧
    (∃ new, (RetrieveManager.run score (evs ++ [Event.response req x lat])).delivered =
        (RetrieveManager.run score evs).delivered ++ new ∧
      ∀ d ∈ new, ∃ err, d.outcome = Except.error err) ∧
    (RetrieveManager.run score (evs ++ [Event.response req x lat])).dist.rankLog =
      (RetrieveManager.run score evs).dist.rankLog ++ [RankEvent.failure p] ∧
    (∀ a ∈ (RetrieveManager.run score (evs ++ [Event.response req x lat])).dist.assigned,
      a.1.id = req → a.2 ≠ p ∧ p ∈ a.1.excluded) ∧
    (∀ y ∈ (RetrieveManager.run score (evs ++ [Event.response req x lat])).dist.pending,
      y.id = req → p ∈ y.excluded) ∧
    ((∃ a ∈ (RetrieveManager.run score (evs ++ [Event.response req x lat])).dist.assigned,
        a.1.id = req) ∨
      (∃ y ∈ (RetrieveManager.run score (evs ++ [Event.response req x lat])).dist.pending,
        y.id = req) ∨
      (req, Except.error OdrError.ErrNoPeers) ∈
        (RetrieveManager.run score (evs ++ [Event.response req x lat])).dist.results) := by
  have hrun : RetrieveManager.run score (evs ++ [Event.response req x lat]) =
      settle { RetrieveManager.run score evs with
        dist := (RetrieveManager.run score evs).dist.step score (DistEvent.failure req) } := by
    rw [run_append]
    simp only [List.foldl_cons, List.foldl_nil, RetrieveManager.step, hass, hent, hver]
  have hmem : e ∈ (RetrieveManager.run score evs).entries := List.mem_of_find?_eq_some hent
  have hereq : e.req = req := by
    have := List.find?_some hent
    simpa using this
  have hnc : req ∉ (RetrieveManager.run score evs).dist.cancelled := by
    rw [← hereq]
    exact (run_cancInv score evs).2 e hmem
  obtain ⟨f1, f2, f3, f4⟩ := failure_retries score _ req r p (run_inv score evs).2 hass hnc
  refine ⟨fun hist d v hd hv => (run_created score hist).2 d hd v hv,
    fun hist q q' c c' r h h' => Creates_unique score hist q q' c c' r h h', ?_,
    ?_, ?_, ?_, ?_, ?_⟩
  · intro hist d v f hd hv hf
    obtain ⟨q, c, y, l, k1, k2, k3, k4, k5⟩ := (run_created score hist).2 d hd v hv
    refine ⟨y, l, k4, ?_⟩
    rw [← hf q c (Creates_mem score hist q c _ k1) k2 k3]
    exact k5
  · rw [hrun]
    refine ⟨_, rfl, ?_⟩
    intro d hd
    obtain ⟨e', -, err, -, hm⟩ := mem_settle_new _ d hd
    obtain ⟨c, -, rfl⟩ := (mem_deliverAll _ _ _).1 hm
    exact ⟨_, rfl⟩
  · rw [hrun]; exact f1
  · rw [hrun]; exact f2
  · rw [hrun]; exact f3
  · rw [hrun]; exact f4

/-- Witness for C3: two peers, the sample query in flight on peer 2, and a
response that its verification function rejects. -/
theorem verified_delivery_witness :
    findAssigned (RetrieveManager.run flatScore [Event.register (samplePeer 1),
      Event.register (samplePeer 2), Event.retrieve sampleQuery 100]).dist 0 =
      some (⟨0, Kind.stateProof, sampleQuery.canServe, sampleQuery.cost, []⟩, 2) ∧
    (RetrieveManager.run flatScore [Event.register (samplePeer 1),
      Event.register (samplePeer 2), Event.retrieve sampleQuery 100]).entries.find?
      (fun e => e.req == 0) = some ⟨Kind.stateProof, 7, 0, sampleQuery.verify, [100]⟩ ∧
    sampleQuery.verify 1 = none ∧
    (RetrieveManager.run flatScore ([Event.register (samplePeer 1),
      Event.register (samplePeer 2), Event.retrieve sampleQuery 100] ++
      [Event.response 0 1 3])).dist.rankLog =
      (RetrieveManager.run flatScore [Event.register (samplePeer 1),
        Event.register (samplePeer 2), Event.retrieve sampleQuery 100]).dist.rankLog ++
        [RankEvent.failure 2] :=
  ⟨by rfl, by rfl, by rfl,
    (verified_delivery flatScore [Event.register (samplePeer 1), Event.register (samplePeer 2),
      Event.retrieve sampleQuery 100] 0 1 3
      ⟨0, Kind.stateProof, sampleQuery.canServe, sampleQuery.cost, []⟩ 2
      ⟨Kind.stateProof, 7, 0, sampleQuery.verify, [100]⟩ (by rfl) (by rfl) (by rfl)).2.2.2.2.1⟩


/-! ## Exhaustion -/

theorem pickPeer_of_ne_nil (score : Nat → ℚ) (cost : Peer → Nat) (l : List Peer) (h : l ≠ []) :
    ∃ b ∈ l, pickPeer score cost l = some b := by
  cases l with
  | nil => exact absurd rfl h
  | cons x xs =>
    cases hp : pickPeer score cost (x :: xs) with
    | none =>
      exfalso
      unfold pickPeer at hp
      split at hp
      · cases hp
      · split at hp <;> cases hp
    | some b => exact ⟨b, pickPeer_mem _ _ _ _ hp, rfl⟩

theorem isBusy_idle (B : PeerRegistry) (hB : ∀ pr ∈ B, pr.busy = []) (id : Nat) (k : Kind) :
    isBusy B id k = false := by
  cases h : isBusy B id k with
  | false => rfl
  | true =>
    obtain ⟨q, hq, -, hk⟩ := (isBusy_iff B id k).1 h
    rw [hB q hq] at hk
    cases hk

theorem markIdle_markBusy (B : PeerRegistry) (hB : ∀ pr ∈ B, pr.busy = []) (a : Nat) (k : Kind) :
    markIdle (markBusy B a k).2 a k = B := by
  unfold markBusy markIdle
  rw [isBusy_idle B hB]
  simp only [Bool.false_eq_true, if_false, List.map_map]
  conv_rhs => rw [← List.map_id B]
  apply List.map_congr_left
  intro pr hpr
  simp only [Function.comp, id]
  by_cases h : pr.id = a
  · simp only [h, if_true]
    have := hB pr hpr
    cases pr
    simp only at this h
    subst this
    subst h
    simp
  · simp only [h, if_false]

/-- The scheduling loop on one request over a registry of idle peers: with an
empty candidate pool the request fails with `ErrNoPeers`, otherwise it is sent
to a member of the pool. -/
theorem trySchedule_idle (score : List RankEvent → Nat → ℚ) (s : Distributor)
    (r : DistRequest) (hB : ∀ pr ∈ s.registry, pr.busy = []) :
    (candidatePool s.registry r = [] →
      trySchedule score s r =
        { s with results := s.results ++ [(r.id, Except.error OdrError.ErrNoPeers)] }) ∧
    (candidatePool s.registry r ≠ [] → ∃ b ∈ candidatePool s.registry r,
      trySchedule score s r =
        { s with registry := (markBusy s.registry b.id r.kind).2,
                 assigned := s.assigned ++ [(r, b.id)],
                 sends := s.sends ++ [(r.id, b.id)] }) := by
  constructor
  · intro h
    unfold trySchedule
    simp [h]
  · intro h
    have hidle : candidatePool (peersServing s.registry r.kind) r =
        candidatePool s.registry r := by
      have : peersServing s.registry r.kind = s.registry := by
        unfold peersServing
        rw [List.filter_eq_self]
        intro pr hpr
        rw [hB pr hpr]
        rfl
      rw [this]
    obtain ⟨b, hb, hpick⟩ := pickPeer_of_ne_nil (score s.rankLog) r.cost _ h
    refine ⟨b, hb, ?_⟩
    unfold trySchedule
    have he : (candidatePool s.registry r).isEmpty = false := by
      cases hc : candidatePool s.registry r with
      | nil => exact absurd hc h
      | cons _ _ => rfl
    simp only [he, Bool.false_eq_true, if_false, hidle, hpick]
    have hm : markBusy s.registry b.id r.kind =
        (none, (markBusy s.registry b.id r.kind).2) := by
      unfold markBusy
      rw [isBusy_idle s.registry hB]
      simp
    rw [hm]


theorem round_unfold (score : List RankEvent → Nat → ℚ) (B : PeerRegistry) (q : OdrQuery)
    (c : Nat) (E : List Nat) (a : Nat) (S : List (Nat × Nat)) (L : List RankEvent) (x l : Nat)
    (hB : ∀ pr ∈ B, pr.busy = []) (hv : q.verify x = none) :
    (roundState B q c E a S L).step score (Event.response 0 x l) =
      settle { dist := trySchedule score
                 { registry := B, pending := [], assigned := [], results := [], sends := S,
                   rankLog := L ++ [RankEvent.failure a], cancelled := [], nextId := 1 }
                 ⟨0, q.kind, q.canServe, q.cost, a :: E⟩,
               entries := [⟨q.kind, q.key, 0, q.verify, [c]⟩],
               delivered := [] } := by
  have h1 : findAssigned (roundState B q c E a S L).dist 0 =
      some (⟨0, q.kind, q.canServe, q.cost, E⟩, a) := rfl
  have h2 : (roundState B q c E a S L).entries.find? (fun e => e.req == 0) =
      some ⟨q.kind, q.key, 0, q.verify, [c]⟩ := rfl
  simp only [RetrieveManager.step, h1, h2, hv]
  congr 1
  simp only [Distributor.step, Distributor.handle, onFailure, h1, schedule]
  simp only [roundState, markIdle_markBusy B hB, List.contains_nil, Bool.false_eq_true,
    if_false, requeue, List.foldl_cons, List.foldl_nil, List.filter_nil]
  rfl

theorem round_step (score : List RankEvent → Nat → ℚ) (B : PeerRegistry) (q : OdrQuery)
    (c : Nat) (E : List Nat) (a : Nat) (S : List (Nat × Nat)) (L : List RankEvent) (x l : Nat)
    (hB : ∀ pr ∈ B, pr.busy = []) (hv : q.verify x = none) :
    (candidatePool B ⟨0, q.kind, q.canServe, q.cost, a :: E⟩ = [] →
      (roundState B q c E a S L).step score (Event.response 0 x l) =
        doneState B q c S (L ++ [RankEvent.failure a])) ∧
    (candidatePool B ⟨0, q.kind, q.canServe, q.cost, a :: E⟩ ≠ [] →
      ∃ b ∈ candidatePool B ⟨0, q.kind, q.canServe, q.cost, a :: E⟩,
        (roundState B q c E a S L).step score (Event.response 0 x l) =
          roundState B q c (a :: E) b.id (S ++ [(0, b.id)]) (L ++ [RankEvent.failure a])) := by
  rw [round_unfold score B q c E a S L x l hB hv]
  obtain ⟨t1, t2⟩ := trySchedule_idle score
    { registry := B, pending := [], assigned := [], results := [], sends := S,
      rankLog := L ++ [RankEvent.failure a], cancelled := [], nextId := 1 }
    ⟨0, q.kind, q.canServe, q.cost, a :: E⟩ hB
  constructor
  · intro h
    rw [t1 h]
    simp [settle, failureOf, doneState, deliverAll]
  · intro h
    obtain ⟨b, hb, hb'⟩ := t2 h
    refine ⟨b, hb, ?_⟩
    rw [hb']
    simp [settle, failureOf, roundState]


theorem mem_candidatePool (B : PeerRegistry) (r : DistRequest) (b : Peer) :
    b ∈ candidatePool B r ↔ b ∈ B ∧ r.canServe b = true ∧ b.id ∉ r.excluded := by
  unfold candidatePool
  rw [List.mem_filter]
  simp

theorem three_registered (score : List RankEvent → Nat → ℚ) (p1 p2 p3 : Peer)
    (h12 : p1.id ≠ p2.id) (h13 : p1.id ≠ p3.id) (h23 : p2.id ≠ p3.id) :
    RetrieveManager.run score
        [Event.register p1, Event.register p2, Event.register p3] =
      { dist := { Distributor.init with
                  registry := [{ p1 with busy := [] }, { p2 with busy := [] },
                               { p3 with busy := [] }] },
        entries := [], delivered := [] } := by
  have e12 : (p1.id == p2.id) = false := by simpa using h12
  have e13 : (p1.id == p3.id) = false := by simpa using h13
  have e23 : (p2.id == p3.id) = false := by simpa using h23
  simp [RetrieveManager.run, RetrieveManager.step, RetrieveManager.init, Distributor.step,
    Distributor.handle, Distributor.init, register, schedule, settle, e12, e13, e23]

theorem first_send (score : List RankEvent → Nat → ℚ) (B : PeerRegistry) (q : OdrQuery) (c : Nat)
    (hB : ∀ pr ∈ B, pr.busy = [])
    (hne : candidatePool B ⟨0, q.kind, q.canServe, q.cost, []⟩ ≠ []) :
    ∃ b ∈ candidatePool B ⟨0, q.kind, q.canServe, q.cost, []⟩,
      RetrieveManager.step score
        { dist := { Distributor.init with registry := B }, entries := [], delivered := [] }
        (Event.retrieve q c) = roundState B q c [] b.id [(0, b.id)] [] := by
  obtain ⟨-, t2⟩ := trySchedule_idle score
    { registry := B, pending := [], assigned := [], results := [], sends := [],
      rankLog := [], cancelled := [], nextId := 1 }
    ⟨0, q.kind, q.canServe, q.cost, []⟩ hB
  obtain ⟨b, hb, hb'⟩ := t2 hne
  refine ⟨b, hb, ?_⟩
  have hstep : RetrieveManager.step score
      { dist := { Distributor.init with registry := B }, entries := [], delivered := [] }
      (Event.retrieve q c) =
      settle { dist := trySchedule score
                 { registry := B, pending := [], assigned := [], results := [], sends := [],
                   rankLog := [], cancelled := [], nextId := 1 }
                 ⟨0, q.kind, q.canServe, q.cost, []⟩,
               entries := [⟨q.kind, q.key, 0, q.verify, [c]⟩],
               delivered := [] } := by
    simp only [RetrieveManager.step, findEntry, List.find?_nil]
    rfl
  rw [hstep, hb']
  simp [settle, failureOf, roundState]


theorem pool_nil (B : PeerRegistry) (r : DistRequest) (h : candidatePool B r = [])
    (pr : Peer) (hpr : pr ∈ B) (hc : r.canServe pr = true) : pr.id ∈ r.excluded := by
  by_contra hx
  have : pr ∈ candidatePool B r := (mem_candidatePool B r pr).2 ⟨hpr, hc, hx⟩
  rw [h] at this
  cases this

/-- C4 (exhaustion).  Three peers with pairwise distinct identities register, all
of them eligible for query `q`, and each response received for the query fails
its verification.  Two failed attempts do not end the query; with the third
failed attempt the query terminates with `ErrNoPeers`: its request fails with
`ErrNoPeers` in the distributor and the caller of `retrieve` is handed
`ErrNoPeers`, after exactly three sends, one to each of the three peers. -/
theorem exhaustion_three_peers (score : List RankEvent → Nat → ℚ) (p1 p2 p3 : Peer)
    (q : OdrQuery) (c x1 l1 x2 l2 x3 l3 : Nat)
    (h12 : p1.id ≠ p2.id) (h13 : p1.id ≠ p3.id) (h23 : p2.id ≠ p3.id)
    (helig : ∀ pr ∈ [p1, p2, p3], q.canServe { pr with busy := [] } = true)
    (hv1 : q.verify x1 = none) (hv2 : q.verify x2 = none) (hv3 : q.verify x3 = none) :
    (RetrieveManager.run score [Event.register p1, Event.register p2, Event.register p3,
      Event.retrieve q c, Event.response 0 x1 l1, Event.response 0 x2 l2]).dist.results = [] ∧
    (RetrieveManager.run score [Event.register p1, Event.register p2, Event.register p3,
      Event.retrieve q c, Event.response 0 x1 l1, Event.response 0 x2 l2]).delivered = [] ∧
    (RetrieveManager.run score [Event.register p1, Event.register p2, Event.register p3,
      Event.retrieve q c, Event.response 0 x1 l1, Event.response 0 x2 l2,
      Event.response 0 x3 l3]).dist.results = [(0, Except.error OdrError.ErrNoPeers)] ∧
    ((RetrieveManager.run score [Event.register p1, Event.register p2, Event.register p3,
      Event.retrieve q c, Event.response 0 x1 l1, Event.response 0 x2 l2,
      Event.response 0 x3 l3]).dist.sends.map Prod.fst) = [0, 0, 0] ∧
    ((RetrieveManager.run score [Event.register p1, Event.register p2, Event.register p3,
      Event.retrieve q c, Event.response 0 x1 l1, Event.response 0 x2 l2,
      Event.response 0 x3 l3]).dist.sends.map Prod.snd).Perm [p1.id, p2.id, p3.id] ∧
    (RetrieveManager.run score [Event.register p1, Event.register p2, Event.register p3,
      Event.retrieve q c, Event.response 0 x1 l1, Event.response 0 x2 l2,
      Event.response 0 x3 l3]).delivered =
      [⟨c, q.kind, q.key, 0, Except.error OdrError.ErrNoPeers⟩] := by
  have hB : ∀ pr ∈ [({ p1 with busy := [] } : Peer), { p2 with busy := [] },
      { p3 with busy := [] }], pr.busy = [] := by
    intro pr hpr
    simp only [List.mem_cons, List.mem_singleton, List.not_mem_nil, or_false] at hpr
    rcases hpr with rfl | rfl | rfl <;> rfl
  have hcan : ∀ pr ∈ [({ p1 with busy := [] } : Peer), { p2 with busy := [] },
      { p3 with busy := [] }], q.canServe pr = true := by
    intro pr hpr
    simp only [List.mem_cons, List.mem_singleton, List.not_mem_nil, or_false] at hpr
    rcases hpr with rfl | rfl | rfl
    · exact helig p1 (by simp)
    · exact helig p2 (by simp)
    · exact helig p3 (by simp)
  have hids : ∀ pr ∈ [({ p1 with busy := [] } : Peer), { p2 with busy := [] },
      { p3 with busy := [] }], pr.id = p1.id ∨ pr.id = p2.id ∨ pr.id = p3.id := by
    intro pr hpr
    simp only [List.mem_cons, List.mem_singleton, List.not_mem_nil, or_false] at hpr
    rcases hpr with rfl | rfl | rfl
    · exact Or.inl rfl
    · exact Or.inr (Or.inl rfl)
    · exact Or.inr (Or.inr rfl)
  generalize hBdef : [({ p1 with busy := [] } : Peer), { p2 with busy := [] },
      { p3 with busy := [] }] = B at hB hcan hids
  have m1 : ({ p1 with busy := [] } : Peer) ∈ B := by rw [← hBdef]; simp
  have m2 : ({ p2 with busy := [] } : Peer) ∈ B := by rw [← hBdef]; simp
  have m3 : ({ p3 with busy := [] } : Peer) ∈ B := by rw [← hBdef]; simp
  have cover : ∀ E : List Nat, candidatePool B ⟨0, q.kind, q.canServe, q.cost, E⟩ = [] →
      p1.id ∈ E ∧ p2.id ∈ E ∧ p3.id ∈ E := by
    intro E hE
    exact ⟨pool_nil B _ hE { p1 with busy := [] } m1 (hcan { p1 with busy := [] } m1),
      pool_nil B _ hE { p2 with busy := [] } m2 (hcan { p2 with busy := [] } m2),
      pool_nil B _ hE { p3 with busy := [] } m3 (hcan { p3 with busy := [] } m3)⟩
  have hreg := three_registered score p1 p2 p3 h12 h13 h23
  rw [hBdef] at hreg
  -- the first send
  have hne0 : candidatePool B ⟨0, q.kind, q.canServe, q.cost, []⟩ ≠ [] := by
    intro hE
    have := (cover [] hE).1
    cases this
  obtain ⟨a0, ha0, hs0⟩ := first_send score B q c hB hne0
  obtain ⟨a0B, -, -⟩ := (mem_candidatePool B _ a0).1 ha0
  have i0 := hids a0 a0B
  -- first failed attempt
  have hne1 : candidatePool B ⟨0, q.kind, q.canServe, q.cost, [a0.id]⟩ ≠ [] := by
    intro hE
    obtain ⟨c1, c2, c3⟩ := cover _ hE
    simp only [List.mem_singleton] at c1 c2 c3
    omega
  obtain ⟨a1, ha1, hs1⟩ := (round_step score B q c [] a0.id [(0, a0.id)] [] x1 l1 hB hv1).2 hne1
  obtain ⟨a1B, -, a1x⟩ := (mem_candidatePool B _ a1).1 ha1
  have i1 := hids a1 a1B
  simp only [List.mem_singleton] at a1x
  -- second failed attempt
  have hne2 : candidatePool B ⟨0, q.kind, q.canServe, q.cost, [a1.id, a0.id]⟩ ≠ [] := by
    intro hE
    obtain ⟨c1, c2, c3⟩ := cover _ hE
    simp only [List.mem_cons, List.mem_singleton, List.not_mem_nil, or_false] at c1 c2 c3
    omega
  obtain ⟨a2, ha2, hs2⟩ := (round_step score B q c [a0.id] a1.id ([(0, a0.id)] ++ [(0, a1.id)])
    ([] ++ [RankEvent.failure a0.id]) x2 l2 hB hv2).2 hne2
  obtain ⟨a2B, -, a2x⟩ := (mem_candidatePool B _ a2).1 ha2
  have i2 := hids a2 a2B
  simp only [List.mem_cons, List.mem_singleton, List.not_mem_nil, or_false, not_or] at a2x
  -- third failed attempt
  have he3 : candidatePool B ⟨0, q.kind, q.canServe, q.cost, [a2.id, a1.id, a0.id]⟩ = [] := by
    rw [List.eq_nil_iff_forall_not_mem]
    intro b hb
    obtain ⟨bB, -, bx⟩ := (mem_candidatePool B _ b).1 hb
    have ib := hids b bB
    simp only [List.mem_cons, List.mem_singleton, List.not_mem_nil, or_false, not_or] at bx
    omega
  have hs3 := (round_step score B q c [a1.id, a0.id] a2.id
    ([(0, a0.id)] ++ [(0, a1.id)] ++ [(0, a2.id)])
    ([] ++ [RankEvent.failure a0.id] ++ [RankEvent.failure a1.id]) x3 l3 hB hv3).1 he3
  have hrun6 : RetrieveManager.run score [Event.register p1, Event.register p2, Event.register p3,
      Event.retrieve q c, Event.response 0 x1 l1, Event.response 0 x2 l2] =
      roundState B q c [a1.id, a0.id] a2.id ([(0, a0.id)] ++ [(0, a1.id)] ++ [(0, a2.id)])
        ([] ++ [RankEvent.failure a0.id] ++ [RankEvent.failure a1.id]) := by
    have : [Event.register p1, Event.register p2, Event.register p3,
      Event.retrieve q c, Event.response 0 x1 l1, Event.response 0 x2 l2] =
      [Event.register p1, Event.register p2, Event.register p3] ++
      [Event.retrieve q c, Event.response 0 x1 l1, Event.response 0 x2 l2] := rfl
    rw [this, run_append, hreg]
    simp only [List.foldl_cons, List.foldl_nil]
    rw [hs0, hs1, hs2]
  have hrun7 : RetrieveManager.run score [Event.register p1, Event.register p2, Event.register p3,
      Event.retrieve q c, Event.response 0 x1 l1, Event.response 0 x2 l2,
      Event.response 0 x3 l3] =
      doneState B q c ([(0, a0.id)] ++ [(0, a1.id)] ++ [(0, a2.id)])
        ([] ++ [RankEvent.failure a0.id] ++ [RankEvent.failure a1.id] ++
          [RankEvent.failure a2.id]) := by
    have : [Event.register p1, Event.register p2, Event.register p3,
      Event.retrieve q c, Event.response 0 x1 l1, Event.response 0 x2 l2,
      Event.response 0 x3 l3] =
      [Event.register p1, Event.register p2, Event.register p3,
      Event.retrieve q c, Event.response 0 x1 l1, Event.response 0 x2 l2] ++
      [Event.response 0 x3 l3] := rfl
    rw [this, run_append, hrun6]
    simp only [List.foldl_cons, List.foldl_nil]
    rw [hs3]
  rw [hrun6, hrun7]
  refine ⟨rfl, rfl, rfl, rfl, ?_, rfl⟩
  show [a0.id, a1.id, a2.id].Perm [p1.id, p2.id, p3.id]
  have hnd : [a0.id, a1.id, a2.id].Nodup := by
    simp only [List.nodup_cons, List.mem_cons, List.mem_singleton, List.not_mem_nil,
      or_false, not_or, List.nodup_nil, and_true, not_false_eq_true]
    omega
  have hsub : [a0.id, a1.id, a2.id] ⊆ [p1.id, p2.id, p3.id] := by
    intro z hz
    simp only [List.mem_cons, List.mem_singleton, List.not_mem_nil, or_false] at hz ⊢
    omega
  exact (List.subperm_of_subset hnd hsub).perm_of_length_le (by simp)


/-- Witness for C4: peers 1, 2 and 3 and the query that rejects every response;
after the third rejected response caller 100 is handed `ErrNoPeers`. -/
theorem exhaustion_three_peers_witness :
    (samplePeer 1).id ≠ (samplePeer 2).id ∧ (samplePeer 1).id ≠ (samplePeer 3).id ∧
    (samplePeer 2).id ≠ (samplePeer 3).id ∧
    (∀ pr ∈ [samplePeer 1, samplePeer 2, samplePeer 3],
      rejectingQuery.canServe { pr with busy := [] } = true) ∧
    rejectingQuery.verify 4 = none ∧
    (RetrieveManager.run flatScore [Event.register (samplePeer 1), Event.register (samplePeer 2),
      Event.register (samplePeer 3), Event.retrieve rejectingQuery 100, Event.response 0 4 1,
      Event.response 0 4 1, Event.response 0 4 1]).delivered =
      [⟨100, Kind.stateProof, 7, 0, Except.error OdrError.ErrNoPeers⟩] :=
  ⟨by decide, by decide, by decide, fun _ _ => rfl, rfl,
    (exhaustion_three_peers flatScore (samplePeer 1) (samplePeer 2) (samplePeer 3)
      rejectingQuery 100 4 1 4 1 4 1 (by decide) (by decide) (by decide)
      (fun _ _ => rfl) rfl rfl rfl).2.2.2.2.2⟩

/-! ## Registry identities -/

theorem regInv_register (reg : PeerRegistry) (p : Peer) (h : RegInv reg) :
    RegInv (register reg p) := by
  unfold register
  split
  · exact h
  · rename_i hany
    unfold RegInv at h ⊢
    rw [List.map_append, List.nodup_append]
    refine ⟨h, List.nodup_singleton _, ?_⟩
    intro a ha hb
    simp only [List.map_cons, List.map_nil, List.mem_singleton] at hb
    subst hb
    obtain ⟨x, hx, hxa⟩ := List.mem_map.1 ha
    apply hany
    rw [List.any_eq_true]
    exact ⟨x, hx, by simpa using hxa⟩

theorem regInv_unregister (reg : PeerRegistry) (id : Nat) (h : RegInv reg) :
    RegInv (unregister reg id) := by
  unfold RegInv unregister at *
  exact h.sublist ((List.filter_sublist _).map _)

theorem markBusy_ids (reg : PeerRegistry) (id : Nat) (k : Kind) :
    (markBusy reg id k).2.map (fun p => p.id) = reg.map (fun p => p.id) := by
  unfold markBusy
  split
  · rfl
  · simp only [List.map_map]
    apply List.map_congr_left
    intro a _
    simp only [Function.comp]
    split <;> rfl

theorem markIdle_ids (reg : PeerRegistry) (id : Nat) (k : Kind) :
    (markIdle reg id k).map (fun p => p.id) = reg.map (fun p => p.id) := by
  unfold markIdle
  simp only [List.map_map]
  apply List.map_congr_left
  intro a _
  simp only [Function.comp]
  split <;> rfl

theorem regInv_trySchedule (score : List RankEvent → Nat → ℚ) (s : Distributor)
    (r : DistRequest) (h : RegInv s.registry) : RegInv (trySchedule score s r).registry := by
  unfold trySchedule
  split
  · exact h
  · split
    · exact h
    · split
      · exact h
      · rename_i reg hm
        unfold RegInv at h ⊢
        have := markBusy_ids s.registry (by assumption : Peer).id r.kind
        rw [hm] at this
        simp only at this ⊢
        rw [this]
        exact h

theorem regInv_foldl_trySchedule (score : List RankEvent → Nat → ℚ) :
    ∀ (l : List DistRequest) (s : Distributor), RegInv s.registry →
      RegInv (l.foldl (trySchedule score) s).registry := by
  intro l
  induction l with
  | nil => intro s h; exact h
  | cons r rs ih => intro s h; exact ih _ (regInv_trySchedule score s r h)

theorem regInv_step (score : List RankEvent → Nat → ℚ) (s : Distributor) (e : DistEvent)
    (h : RegInv s.registry) : RegInv (s.step score e).registry := by
  unfold Distributor.step schedule
  apply regInv_foldl_trySchedule
  show RegInv (s.handle e).registry
  cases e with
  | register p => exact regInv_register _ p h
  | unregister id => exact regInv_unregister _ id h
  | queue k canServe cost => exact h
  | success req latency value =>
    simp only [Distributor.handle, onSuccess]
    split
    · exact h
    · unfold RegInv
      simp only
      rw [markIdle_ids]
      exact h
  | failure req =>
    simp only [Distributor.handle, onFailure]
    split
    · exact h
    · unfold RegInv
      simp only
      rw [markIdle_ids]
      exact h
  | deadline req =>
    simp only [Distributor.handle, onDeadline]
    split
    · unfold RegInv
      simp only
      rw [markIdle_ids]
      exact h
    · split
      · exact h
      · exact h
  | cancel req =>
    simp only [Distributor.handle, onCancel]
    split
    · exact h
    · split
      · exact h
      · exact h

theorem regInv_run (score : List RankEvent → Nat → ℚ) (evs : List Event) :
    RegInv (RetrieveManager.run score evs).dist.registry := by
  induction evs using List.reverseRecOn with
  | nil => exact List.nodup_nil
  | append_singleton evs ev ih =>
    rw [run_append]
    simp only [List.foldl_cons, List.foldl_nil]
    rcases rm_step_dist score (RetrieveManager.run score evs) ev with h | ⟨d, h⟩
    · rw [h]; exact ih
    · rw [h]; exact regInv_step score _ d ih

/-- A peer that is idle for a kind can be marked busy for it, identities being
unique. -/
theorem isBusy_of_idle (reg : PeerRegistry) (h : RegInv reg) (b : Peer) (k : Kind)
    (hb : b ∈ peersServing reg k) : isBusy reg b.id k = false := by
  cases hbusy : isBusy reg b.id k with
  | false => rfl
  | true =>
    exfalso
    obtain ⟨q, hq, hid, hk⟩ := (isBusy_iff reg b.id k).1 hbusy
    unfold peersServing at hb
    obtain ⟨hbm, hbk⟩ := List.mem_filter.1 hb
    have hqb : q = b := List.inj_on_of_nodup_map h hq hbm hid
    subst hqb
    simp only [Bool.not_eq_true', List.contains_eq_any_beq, List.any_eq_false, beq_iff_eq] at hbk
    exact hbk k hk rfl

/-- The scheduling loop hands a request to a peer when some registered peer is
idle for its kind, can serve it and is not excluded for it. -/
theorem trySchedule_assigns (score : List RankEvent → Nat → ℚ) (s : Distributor)
    (r : DistRequest) (h : RegInv s.registry)
    (hpeer : ∃ b ∈ peersServing s.registry r.kind, r.canServe b = true ∧ b.id ∉ r.excluded) :
    ∃ p, trySchedule score s r =
      { s with registry := (markBusy s.registry p r.kind).2,
               assigned := s.assigned ++ [(r, p)],
               sends := s.sends ++ [(r.id, p)] } := by
  obtain ⟨b, hb, hc, hx⟩ := hpeer
  have hbreg : b ∈ s.registry := (List.mem_filter.1 hb).1
  have hne1 : (candidatePool s.registry r).isEmpty = false := by
    have : b ∈ candidatePool s.registry r := (mem_candidatePool _ r b).2 ⟨hbreg, hc, hx⟩
    cases hcp : candidatePool s.registry r with
    | nil => rw [hcp] at this; cases this
    | cons _ _ => rfl
  have hne2 : candidatePool (peersServing s.registry r.kind) r ≠ [] := by
    have : b ∈ candidatePool (peersServing s.registry r.kind) r :=
      (mem_candidatePool _ r b).2 ⟨hb, hc, hx⟩
    intro hnil
    rw [hnil] at this
    cases this
  obtain ⟨p, hp, hpick⟩ := pickPeer_of_ne_nil (score s.rankLog) r.cost _ hne2
  have hps : p ∈ peersServing s.registry r.kind := ((mem_candidatePool _ r p).1 hp).1
  have hm : markBusy s.registry p.id r.kind = (none, (markBusy s.registry p.id r.kind).2) := by
    unfold markBusy
    rw [isBusy_of_idle s.registry h p r.kind hps]
    simp
  refine ⟨p.id, ?_⟩
  unfold trySchedule
  simp only [hne1, Bool.false_eq_true, if_false, hpick]
  rw [hm]

/-! ## Concurrent calls for one identity -/

theorem sendCount_trySchedule_ge (score : List RankEvent → Nat → ℚ) (s : Distributor)
    (r : DistRequest) (req : Nat) :
    sendCount s req ≤ sendCount (trySchedule score s r) req := by
  unfold trySchedule
  split
  · exact Nat.le_refl _
  · split
    · exact Nat.le_refl _
    · split
      · exact Nat.le_refl _
      · unfold sendCount
        simp only [List.filter_append, List.length_append]
        exact Nat.le_add_right _ _

theorem sendCount_foldl_ge (score : List RankEvent → Nat → ℚ) (req : Nat) :
    ∀ (l : List DistRequest) (s : Distributor),
      sendCount s req ≤ sendCount (l.foldl (trySchedule score) s) req := by
  intro l
  induction l with
  | nil => intro s; exact Nat.le_refl _
  | cons r rs ih =>
    intro s
    exact (sendCount_trySchedule_ge score s r req).trans (ih _)

/-- The first call for a fresh identity, made while no request is waiting and
some registered peer is idle for the kind and can serve the query: the request
is handed to a peer at once. -/
theorem retrieve_fresh_sent (score : List RankEvent → Nat → ℚ) (s : RetrieveManager)
    (q : OdrQuery) (c : Nat) (hreg : RegInv s.dist.registry)
    (hf : findEntry s q.kind q.key = none) (hpend : s.dist.pending = [])
    (hpeer : ∃ b ∈ peersServing s.dist.registry q.kind, q.canServe b = true) :
    (findAssigned (s.step score (Event.retrieve q c)).dist s.dist.nextId).isSome = true := by
  simp only [RetrieveManager.step, hf, settle_dist]
  have hdef : s.dist.step score (DistEvent.queue q.kind q.canServe q.cost) =
      trySchedule score { s.dist with pending := [], nextId := s.dist.nextId + 1 }
        ⟨s.dist.nextId, q.kind, q.canServe, q.cost, []⟩ := by
    show (s.dist.pending ++
      [(⟨s.dist.nextId, q.kind, q.canServe, q.cost, []⟩ : DistRequest)]).foldl
      (trySchedule score) { s.dist with pending := [], nextId := s.dist.nextId + 1 } = _
    rw [hpend]
    rfl
  rw [hdef]
  obtain ⟨b, hb, hc⟩ := hpeer
  obtain ⟨p, hp⟩ := trySchedule_assigns score
    { s.dist with pending := [], nextId := s.dist.nextId + 1 }
    ⟨s.dist.nextId, q.kind, q.canServe, q.cost, []⟩ hreg
    ⟨b, hb, hc, by simp⟩
  rw [hp]
  unfold findAssigned
  rw [List.find?_isSome]
  exact ⟨(⟨s.dist.nextId, q.kind, q.canServe, q.cost, []⟩, p), by simp, by simp⟩

/-- An accepted response for the request of a pending entry in flight is
delivered as the value to every waiter of the entry, and adds no send for the
request. -/
theorem response_accepted (score : List RankEvent → Nat → ℚ) (s : RetrieveManager)
    (hrm : RMInv s) (hid : IdInv s.dist) (e : PendingEntry) (he : e ∈ s.entries)
    (hass : (findAssigned s.dist e.req).isSome = true) (x lat v : Nat)
    (hv : e.verify x = some v) :
    (∀ w ∈ e.waiters,
      ({ caller := w, kind := e.kind, key := e.key, req := e.req,
         outcome := Except.ok v } : Delivery) ∈
        (s.step score (Event.response e.req x lat)).delivered) ∧
    (∀ y ∈ (s.step score (Event.response e.req x lat)).entries, y.req ≠ e.req) ∧
    sendCount (s.step score (Event.response e.req x lat)).dist e.req =
      sendCount s.dist e.req := by
  obtain ⟨a, ha⟩ := Option.isSome_iff_exists.1 hass
  have hfind : s.entries.find? (fun y => y.req == e.req) = some e := by
    cases hfe : s.entries.find? (fun y => y.req == e.req) with
    | none =>
      exfalso
      have := List.find?_eq_none.1 hfe e he
      simp at this
    | some e' =>
      have hm : e' ∈ s.entries := List.mem_of_find?_eq_some hfe
      have hr : e'.req = e.req := by
        have := List.find?_some hfe
        simpa using this
      rw [List.inj_on_of_nodup_map hrm.2.1 hm he hr]
  have hstep : s.step score (Event.response e.req x lat) =
      settle { dist := s.dist.step score (DistEvent.success e.req lat v),
               entries := s.entries.filter (fun y => y.req != e.req),
               delivered := s.delivered ++ deliverAll e (Except.ok v) } := by
    simp only [RetrieveManager.step, ha, hfind, hv]
  rw [hstep]
  refine ⟨?_, ?_, ?_⟩
  · intro w hw
    apply List.mem_append_left
    apply List.mem_append_right
    exact (mem_deliverAll _ _ _).2 ⟨w, hw, rfl⟩
  · intro y hy
    have := (settle_entries_sub _).subset hy
    simp only [List.mem_filter, bne_iff_ne, ne_eq] at this
    exact this.2
  · rw [settle_dist]
    obtain ⟨ham, haid⟩ := findAssigned_mem s.dist e.req a ha
    have hnp : ∀ r ∈ s.dist.pending, r.id ≠ e.req := by
      intro r hr heq
      have hnd := hid.2.2.2.1
      rw [List.nodup_append] at hnd
      exact hnd.2.2 (List.mem_map.2 ⟨r, hr, rfl⟩)
        (List.mem_map.2 ⟨a, ham, haid.trans heq.symm⟩)
    have hdist : s.dist.step score (DistEvent.success e.req lat v) =
        s.dist.pending.foldl (trySchedule score)
          { (onSuccess s.dist e.req lat v) with pending := [] } := by
      have hp : (onSuccess s.dist e.req lat v).pending = s.dist.pending := by
        unfold onSuccess
        rw [ha]
      show (onSuccess s.dist e.req lat v).pending.foldl (trySchedule score)
        { (onSuccess s.dist e.req lat v) with pending := [] } = _
      rw [hp]
    have hbase : sendCount { (onSuccess s.dist e.req lat v) with pending := [] } e.req =
        sendCount s.dist e.req := by
      unfold sendCount onSuccess
      rw [ha]
    rw [hdist]
    apply Nat.le_antisymm
    · refine (sendCount_foldl score e.req _ _).trans ?_
      rw [hbase]
      have : s.dist.pending.filter (fun r => r.id == e.req) = [] := by
        rw [List.filter_eq_nil_iff]
        intro r hr
        simpa using hnp r hr
      rw [this]
      simp
    · rw [← hbase]
      exact sendCount_foldl_ge score e.req _ _

/-- C2, the claim as stated fails.  Three concurrent callers ask for one identity
with two peers registered; the first attempt times out and the request is sent
again to the other peer, whose response is accepted: two sends were made for the
one request, not exactly one, and all three callers receive the value.  With no
peer registered, two calls for one identity cause no send at all and each caller
receives an error. -/
theorem dedup_send_count_counterexample :
    sendCount (RetrieveManager.run flatScore [Event.register (samplePeer 1),
      Event.register (samplePeer 2), Event.retrieve sampleQuery 100,
      Event.retrieve sampleQuery 101, Event.retrieve sampleQuery 102, Event.timeout 0,
      Event.response 0 5 3]).dist 0 = 2 ∧
    (RetrieveManager.run flatScore [Event.register (samplePeer 1),
      Event.register (samplePeer 2), Event.retrieve sampleQuery 100,
      Event.retrieve sampleQuery 101, Event.retrieve sampleQuery 102, Event.timeout 0,
      Event.response 0 5 3]).delivered.map (fun d => (d.caller, d.req, d.outcome)) =
      [(100, 0, Except.ok 55), (101, 0, Except.ok 55), (102, 0, Except.ok 55)] ∧
    (RetrieveManager.run flatScore [Event.retrieve sampleQuery 100,
      Event.retrieve sampleQuery 101]).dist.sends = [] ∧
    (RetrieveManager.run flatScore [Event.retrieve sampleQuery 100,
      Event.retrieve sampleQuery 101]).delivered.map (fun d => (d.caller, d.req, d.outcome)) =
      [(100, 0, Except.error OdrError.ErrNoPeers), (101, 1, Except.error OdrError.ErrNoPeers)] :=
  ⟨by rfl, by rfl, by rfl, by rfl⟩

/-- C2, amended (dedup invariant).  In every reachable state at most one pending
entry exists per query identity.  When `N` callers `c :: cs` call `retrieve` for
one identity that had no pending entry, and the first call is still waiting when
the others arrive (its entry is pending), then:

* only the first call reaches the distributor, the others leave it untouched and
  join the one entry, which holds all `N` callers as waiters of one request;
* after the calls at most one send has been made for the request, exactly one
  if it is in flight, and it is in flight with exactly one send whenever, at the
  first call, no request was waiting and some registered peer was idle for the
  kind and able to serve the query;
* a response to the request in flight that the query's verification accepts is
  delivered as the value to every one of the `N` callers, ends the entry and
  adds no send;
* whenever an event other than a caller's own cancellation ends a pending
  entry, every waiter of the entry receives one and the same outcome, and two
  deliveries made for one request never differ. -/
theorem dedup_invariant (score : List RankEvent → Nat → ℚ) (evs : List Event) (q : OdrQuery)
    (c : Nat) (cs : List Nat)
    (hfresh : findEntry (RetrieveManager.run score evs) q.kind q.key = none)
    (hpending : (findEntry ((RetrieveManager.run score evs).step score (Event.retrieve q c))
      q.kind q.key).isSome = true) :
    (∀ (hist : List Event) (k : Kind) (key : Nat),
      entryCount (RetrieveManager.run score hist) k key ≤ 1) ∧
    (RetrieveManager.run score (evs ++ Event.retrieve q c :: cs.map (Event.retrieve q))).dist =
      ((RetrieveManager.run score evs).step score (Event.retrieve q c)).dist ∧
    findEntry (RetrieveManager.run score
        (evs ++ Event.retrieve q c :: cs.map (Event.retrieve q))) q.kind q.key =
      some { kind := q.kind, key := q.key, req := (RetrieveManager.run score evs).dist.nextId,
             verify := q.verify, waiters := c :: cs } ∧
    sendCount (RetrieveManager.run score
      (evs ++ Event.retrieve q c :: cs.map (Event.retrieve q))).dist
      (RetrieveManager.run score evs).dist.nextId ≤ 1 ∧
    ((findAssigned (RetrieveManager.run score
        (evs ++ Event.retrieve q c :: cs.map (Event.retrieve q))).dist
        (RetrieveManager.run score evs).dist.nextId).isSome = true →
      sendCount (RetrieveManager.run score
        (evs ++ Event.retrieve q c :: cs.map (Event.retrieve q))).dist
        (RetrieveManager.run score evs).dist.nextId = 1) ∧
    ((RetrieveManager.run score evs).dist.pending = [] →
      (∃ b ∈ peersServing (RetrieveManager.run score evs).dist.registry q.kind,
        q.canServe b = true) →
      (findAssigned (RetrieveManager.run score
        (evs ++ Event.retrieve q c :: cs.map (Event.retrieve q))).dist
        (RetrieveManager.run score evs).dist.nextId).isSome = true ∧
      sendCount (RetrieveManager.run score
        (evs ++ Event.retrieve q c :: cs.map (Event.retrieve q))).dist
        (RetrieveManager.run score evs).dist.nextId = 1) ∧
    (∀ x lat v : Nat,
      (findAssigned (RetrieveManager.run score
        (evs ++ Event.retrieve q c :: cs.map (Event.retrieve q))).dist
        (RetrieveManager.run score evs).dist.nextId).isSome = true →
      q.verify x = some v →
      (∀ w ∈ c :: cs,
        ({ caller := w, kind := q.kind, key := q.key,
           req := (RetrieveManager.run score evs).dist.nextId,
           outcome := Except.ok v } : Delivery) ∈
          (RetrieveManager.run score
            ((evs ++ Event.retrieve q c :: cs.map (Event.retrieve q)) ++
              [Event.response (RetrieveManager.run score evs).dist.nextId x lat])).delivered) ∧
      (∀ y ∈ (RetrieveManager.run score
            ((evs ++ Event.retrieve q c :: cs.map (Event.retrieve q)) ++
              [Event.response (RetrieveManager.run score evs).dist.nextId x lat])).entries,
        y.req ≠ (RetrieveManager.run score evs).dist.nextId) ∧
      sendCount (RetrieveManager.run score
          ((evs ++ Event.retrieve q c :: cs.map (Event.retrieve q)) ++
            [Event.response (RetrieveManager.run score evs).dist.nextId x lat])).dist
          (RetrieveManager.run score evs).dist.nextId =
        sendCount (RetrieveManager.run score
          (evs ++ Event.retrieve q c :: cs.map (Event.retrieve q))).dist
          (RetrieveManager.run score evs).dist.nextId) ∧
    (∀ (hist : List Event) (ev : Event) (x : PendingEntry),
      x ∈ (RetrieveManager.run score hist).entries → ev.isCancel = false →
      (∀ y ∈ (RetrieveManager.run score (hist ++ [ev])).entries, y.req ≠ x.req) →
      ∃ o, ∀ w ∈ x.waiters,
        ({ caller := w, kind := x.kind, key := x.key, req := x.req, outcome := o } : Delivery) ∈
          (RetrieveManager.run score (hist ++ [ev])).delivered) ∧
    (∀ (hist : List Event) (d1 d2 : Delivery),
      d1 ∈ (RetrieveManager.run score hist).delivered →
      d2 ∈ (RetrieveManager.run score hist).delivered →
      d1.req = d2.req → d1.outcome = d2.outcome) := by
  obtain ⟨hrm, hid⟩ := run_inv score evs
  obtain ⟨hsend, hsend1, hentry⟩ := retrieve_fresh score _ q c hid hfresh
  obtain ⟨m1, -, m3⟩ := retrieve_many score q cs _ _ (hentry hpending)
  have hrun : RetrieveManager.run score (evs ++ Event.retrieve q c :: cs.map (Event.retrieve q)) =
      cs.foldl (fun st c => st.step score (Event.retrieve q c))
        ((RetrieveManager.run score evs).step score (Event.retrieve q c)) := by
    rw [run_append, List.foldl_cons, List.foldl_map]
  have hfind : findEntry (RetrieveManager.run score
      (evs ++ Event.retrieve q c :: cs.map (Event.retrieve q))) q.kind q.key =
      some { kind := q.kind, key := q.key, req := (RetrieveManager.run score evs).dist.nextId,
             verify := q.verify, waiters := c :: cs } := by
    rw [hrun, m3]
    rfl
  refine ⟨?_, ?_, hfind, ?_, ?_, ?_, ?_, ?_, ?_⟩
  · intro hist k key
    exact entryCount_le_one _ (run_inv score hist).1 k key
  · rw [hrun, m1]
  · rw [hrun, m1]
    exact hsend
  · rw [hrun, m1]
    exact hsend1
  · intro hpend hpeer
    have hflight := retrieve_fresh_sent score _ q c (regInv_run score evs) hfresh hpend hpeer
    rw [hrun, m1]
    exact ⟨hflight, hsend1 hflight⟩
  · intro x lat v hass hv
    obtain ⟨hrm', hid'⟩ := run_inv score
      (evs ++ Event.retrieve q c :: cs.map (Event.retrieve q))
    have hmem := List.mem_of_find?_eq_some hfind
    have := response_accepted score _ hrm' hid'
      { kind := q.kind, key := q.key, req := (RetrieveManager.run score evs).dist.nextId,
        verify := q.verify, waiters := c :: cs } hmem hass x lat v hv
    rw [run_append]
    exact this
  · intro hist ev x hx hc hgone
    rw [run_append] at hgone ⊢
    exact step_resolves score _ ev x (run_inv score hist).1 hx hc hgone
  · intro hist d1 d2 h1 h2 hr
    exact (run_inv score hist).1.2.2.2.2.2 d1 h1 d2 h2 hr

/-- Witness for C2: one registered peer, three callers of the sample query; the
request is handed to the peer, exactly one send is made, and after the accepted
response 5 the send count is still one and caller 102 holds the value 55. -/
theorem dedup_invariant_witness :
    findEntry (RetrieveManager.run flatScore [Event.register (samplePeer 1)])
      sampleQuery.kind sampleQuery.key = none ∧
    (findEntry ((RetrieveManager.run flatScore [Event.register (samplePeer 1)]).step
      flatScore (Event.retrieve sampleQuery 100)) sampleQuery.kind sampleQuery.key).isSome =
      true ∧
    sendCount (RetrieveManager.run flatScore ([Event.register (samplePeer 1)] ++
      Event.retrieve sampleQuery 100 :: [101, 102].map (Event.retrieve sampleQuery))).dist
      (RetrieveManager.run flatScore [Event.register (samplePeer 1)]).dist.nextId = 1 ∧
    sendCount (RetrieveManager.run flatScore (([Event.register (samplePeer 1)] ++
      Event.retrieve sampleQuery 100 :: [101, 102].map (Event.retrieve sampleQuery)) ++
      [Event.response (RetrieveManager.run flatScore
        [Event.register (samplePeer 1)]).dist.nextId 5 3])).dist
      (RetrieveManager.run flatScore [Event.register (samplePeer 1)]).dist.nextId =
      sendCount (RetrieveManager.run flatScore ([Event.register (samplePeer 1)] ++
        Event.retrieve sampleQuery 100 :: [101, 102].map (Event.retrieve sampleQuery))).dist
        (RetrieveManager.run flatScore [Event.register (samplePeer 1)]).dist.nextId ∧
    ({ caller := 102, kind := sampleQuery.kind, key := sampleQuery.key,
       req := (RetrieveManager.run flatScore [Event.register (samplePeer 1)]).dist.nextId,
       outcome := Except.ok 55 } : Delivery) ∈
      (RetrieveManager.run flatScore (([Event.register (samplePeer 1)] ++
        Event.retrieve sampleQuery 100 :: [101, 102].map (Event.retrieve sampleQuery)) ++
        [Event.response (RetrieveManager.run flatScore
          [Event.register (samplePeer 1)]).dist.nextId 5 3])).delivered :=
  ⟨by rfl, by rfl,
    ((dedup_invariant flatScore [Event.register (samplePeer 1)] sampleQuery 100 [101, 102]
      (by rfl) (by rfl)).2.2.2.2.2.1 (by rfl) ⟨samplePeer 1, by decide, rfl⟩).2,
    ((dedup_invariant flatScore [Event.register (samplePeer 1)] sampleQuery 100 [101, 102]
      (by rfl) (by rfl)).2.2.2.2.2.2.1 5 3 55 (by rfl) (by rfl)).2.2,
    ((dedup_invariant flatScore [Event.register (samplePeer 1)] sampleQuery 100 [101, 102]
      (by rfl) (by rfl)).2.2.2.2.2.2.1 5 3 55 (by rfl) (by rfl)).1 102 (by decide)⟩

/-- C5 (`markBusy` and `AlreadyBusy`).  For a registered peer, `markBusy(id, kind)`
fails with `AlreadyBusy` if and only if the peer is already marked busy for that
kind; in that case the busy/idle table is unchanged, and otherwise the call
succeeds and marks the peer busy for the kind. -/
theorem markBusy_alreadyBusy_iff (reg : PeerRegistry) (id : Nat) (k : Kind)
    (hreg : isRegistered reg id = true) :
    ((markBusy reg id k).1 = some OdrError.AlreadyBusy ↔ isBusy reg id k = true) ∧
    (isBusy reg id k = true → (markBusy reg id k).2 = reg) ∧
    (isBusy reg id k = false →
      (markBusy reg id k).1 = none ∧ isBusy (markBusy reg id k).2 id k = true) := by
  refine ⟨?_, ?_, ?_⟩
  · unfold markBusy
    by_cases hb : isBusy reg id k = true
    · simp [hb]
    · simp [hb]
  · intro hb
    unfold markBusy
    simp [hb]
  · intro hb
    refine ⟨?_, isBusy_markBusy_self reg id k hreg⟩
    unfold markBusy
    simp [hb]

/-- Witness for C5: peer 1 is registered and already busy with a headers request. -/
theorem markBusy_alreadyBusy_iff_witness :
    isRegistered [{ samplePeer 1 with busy := [Kind.headers] }] 1 = true ∧
    (markBusy [{ samplePeer 1 with busy := [Kind.headers] }] 1 Kind.headers).1 =
      some OdrError.AlreadyBusy :=
  ⟨by decide,
    (markBusy_alreadyBusy_iff [{ samplePeer 1 with busy := [Kind.headers] }] 1 Kind.headers
      (by decide)).1.2 (by decide)⟩

end Les

namespace Eth


/-! ## The guards of the full-node constructor -/

/-- C7 (sync-mode guards of `New`).  For every configuration whose `SyncMode` is
`LightSync` or is not a valid mode, the full-node constructor returns an error,
and so no service, without requesting any database.  The light constructor has
no such guard: whatever the sync mode, it requests its database and, when that
opens, continues with the rest of its construction. -/
theorem New_rejects_light_and_invalid {Db Service : Type} (lightSync : Int)
    (isValid : Int → Bool) (ctx : ServiceContext Db) (config : Config)
    (rest : Db → Except String Service)
    (h : config.SyncMode = lightSync ∨ isValid config.SyncMode = false) :
    (∃ msg, (New lightSync isValid ctx config rest).1 = Except.error msg) ∧
    (New lightSync isValid ctx config rest).2 = [] ∧
    (config.SyncMode = lightSync → (New lightSync isValid ctx config rest).1 = Except.error
      "can't run lbchain-dev.lbchain-devchain in light sync mode, use les.Lightlbchain-devchain") ∧
    (Les.New ctx config rest).2 = ["lightchaindata"] ∧
    (∀ db, ctx.OpenDatabase "lightchaindata" config.DatabaseCache config.DatabaseHandles =
        Except.ok db → (Les.New ctx config rest).1 = rest db) := by
  refine ⟨?_, ?_, ?_, ?_, ?_⟩
  · unfold New
    by_cases h1 : config.SyncMode = lightSync
    · rw [if_pos h1]
      exact ⟨_, rfl⟩
    · rcases h with h | h
      · exact absurd h h1
      · rw [if_neg h1, h]
        exact ⟨_, rfl⟩
  · unfold New
    by_cases h1 : config.SyncMode = lightSync
    · simp [h1]
    · rcases h with h | h
      · exact absurd h h1
      · simp [h1, h]
  · intro h1
    unfold New
    simp [h1]
  · unfold Les.New CreateDB
    cases ctx.OpenDatabase "lightchaindata" config.DatabaseCache config.DatabaseHandles <;> rfl
  · intro db hdb
    unfold Les.New CreateDB
    rw [hdb]

/-- Witness for C7: sync modes 0 to 2 are valid, 2 is the light mode, and the
configuration asks for the light mode. -/
theorem New_rejects_light_and_invalid_witness :
    (({ SyncMode := 2, DatabaseCache := 16, DatabaseHandles := 16 } : Config).SyncMode = 2 ∨
      (fun m : Int => decide (0 ≤ m ∧ m ≤ 2))
        ({ SyncMode := 2, DatabaseCache := 16, DatabaseHandles := 16 } : Config).SyncMode =
        false) ∧
    (@New Unit Unit 2 (fun m => decide (0 ≤ m ∧ m ≤ 2))
      ⟨fun _ _ _ => Except.ok ()⟩ { SyncMode := 2, DatabaseCache := 16, DatabaseHandles := 16 }
      (fun _ => Except.ok ())).2 = [] :=
  ⟨Or.inl rfl,
    (@New_rejects_light_and_invalid Unit Unit 2
      (fun m => decide (0 ≤ m ∧ m ≤ 2)) ⟨fun _ _ _ => Except.ok ()⟩
      { SyncMode := 2, DatabaseCache := 16, DatabaseHandles := 16 } (fun _ => Except.ok ())
      (Or.inl rfl)).2.1⟩

end Eth

namespace Mobile


/-! ## Memory lemmas -/

theorem load_store_ne (m : Memory) (p q : Nat) (f : NodeConfig → NodeConfig) (h : p ≠ q) :
    (m.store p f).load q = m.load q := by
  simp [Memory.load, Memory.store, List.getD_eq_getElem?_getD, List.getElem?_set_ne h]

theorem load_store_self (m : Memory) (p : Nat) (f : NodeConfig → NodeConfig)
    (h : p < m.configs.length) : (m.store p f).load p = f (m.load p) := by
  simp [Memory.load, Memory.store, List.getD_eq_getElem?_getD, List.getElem?_set_self h]

theorem store_enodes (m : Memory) (p : Nat) (f : NodeConfig → NodeConfig) :
    (m.store p f).enodes = m.enodes := rfl

theorem store_length (m : Memory) (p : Nat) (f : NodeConfig → NodeConfig) :
    (m.store p f).configs.length = m.configs.length := by
  simp [Memory.store]

theorem load_newNodeConfig_old (m : Memory) (q : Nat) (h : q < m.configs.length) :
    (NewNodeConfig m).2.load q = m.load q := by
  simp [Memory.load, NewNodeConfig, List.getD_eq_getElem?_getD, List.getElem?_append_left h]

theorem load_newNodeConfig_new (m : Memory) :
    (NewNodeConfig m).2.load (NewNodeConfig m).1 = m.load defaultNodeConfig := by
  simp [Memory.load, NewNodeConfig, List.getD_eq_getElem?_getD]

theorem inv_init (foundation : Enodes) :
    Client.Inv foundation { mem := Memory.init foundation, returned := [] } := by
  refine ⟨rfl, rfl, by simp [Memory.init], ?_⟩
  intro p hp
  cases hp

theorem inv_exec (foundation : Enodes) (c : Client) (op : ClientOp)
    (h : Client.Inv foundation c) : Client.Inv foundation (c.exec op) := by
  obtain ⟨h1, h2, h3, h4⟩ := h
  cases op with
  | call =>
    refine ⟨?_, h2, ?_, ?_⟩
    · exact (load_newNodeConfig_old c.mem defaultNodeConfig h3).trans h1
    · simp [Client.exec, NewNodeConfig]
    · intro p hp
      simp only [Client.exec, NewNodeConfig, List.mem_append, List.mem_singleton,
        List.length_append, List.length_singleton] at hp ⊢
      rcases hp with hp | hp
      · have := h4 p hp
        omega
      · omega
  | assign i f =>
    simp only [Client.exec]
    split
    · exact ⟨h1, h2, h3, h4⟩
    · rename_i p hp
      have hmem : p ∈ c.returned := List.get?_mem hp
      have hpos := h4 p hmem
      refine ⟨?_, h2, ?_, ?_⟩
      · show (c.mem.store p f).load defaultNodeConfig = _
        rw [load_store_ne]
        · exact h1
        · unfold defaultNodeConfig
          omega
      · show 0 < (c.mem.store p f).configs.length
        rw [store_length]
        exact h3
      · intro q hq
        show 0 < q ∧ q < (c.mem.store p f).configs.length
        rw [store_length]
        exact h4 q hq
  | newEnodes e =>
    refine ⟨h1, ?_, h3, h4⟩
    show (c.mem.enodes ++ [e]).head? = some foundation
    rw [← h2]
    cases hE : c.mem.enodes with
    | nil => rw [hE] at h2; cases h2
    | cons x xs => rfl

theorem inv_foldl (foundation : Enodes) :
    ∀ (ops : List ClientOp) (c : Client), Client.Inv foundation c →
      Client.Inv foundation (ops.foldl Client.exec c) := by
  intro ops
  induction ops with
  | nil => intro c h; exact h
  | cons op ops ih => intro c h; exact ih _ (inv_exec foundation c op h)

theorem inv_run (foundation : Enodes) (ops : List ClientOp) :
    Client.Inv foundation (Client.run foundation ops) :=
  inv_foldl foundation ops _ (inv_init foundation)


/-! ## `NewNodeConfig` and `NewNode` -/

/-- C9 (`NewNodeConfig` returns a copy of the defaults).  After any sequence of
client operations (calls of `NewNodeConfig`, assignments to fields of the
configurations those calls returned, creation of `Enodes` objects), a call of
`NewNodeConfig` returns a configuration with MaxPeers 25, the chain protocol
enabled, network ID 1, database cache 16, Whisper disabled, empty genesis and
stats strings, and the default bootstrap nodes; it lives at a fresh address,
and no assignment through it changes `defaultNodeConfig`. -/
theorem NewNodeConfig_returns_defaults (foundation : Enodes) (ops : List ClientOp) :
    (NewNodeConfig (Client.run foundation ops).mem).2.load
        (NewNodeConfig (Client.run foundation ops).mem).1 =
      { BoolbchainDevrapNodes := some 0, MaxPeers := 25, lbchainDevchainEnabled := true,
        lbchainDevchainNetworkID := 1, lbchainDevchainGenesis := "",
        lbchainDevchainDatabaseCache := 16, lbchainDevchainNelbchainDevats := "",
        WhisperEnabled := false } ∧
    (NewNodeConfig (Client.run foundation ops).mem).2.enodes.head? = some foundation ∧
    (NewNodeConfig (Client.run foundation ops).mem).1 ≠ defaultNodeConfig ∧
    (NewNodeConfig (Client.run foundation ops).mem).1 ∉ (Client.run foundation ops).returned ∧
    (∀ f : NodeConfig → NodeConfig,
      ((NewNodeConfig (Client.run foundation ops).mem).2.store
        (NewNodeConfig (Client.run foundation ops).mem).1 f).load defaultNodeConfig =
        defaultNodeConfigValue) := by
  obtain ⟨h1, h2, h3, h4⟩ := inv_run foundation ops
  refine ⟨?_, h2, ?_, ?_, ?_⟩
  · rw [load_newNodeConfig_new, h1]
    rfl
  · show (Client.run foundation ops).mem.configs.length ≠ 0
    omega
  · intro hm
    have := (h4 _ hm).2
    exact Nat.lt_irrefl _ this
  · intro f
    rw [load_store_ne]
    · exact (load_newNodeConfig_old _ defaultNodeConfig h3).trans h1
    · show (Client.run foundation ops).mem.configs.length ≠ 0
      omega

theorem registerService_conf {Genesis : Type} (env : Env Genesis) (label : String)
    (st st' : Stack Genesis) (svc : Service Genesis)
    (h : registerService env label st svc = Except.ok st') : st'.conf = st.conf := by
  unfold registerService at h
  split at h
  · cases h
  · simp only [Except.ok.injEq] at h
    rw [← h]

theorem registerServices_conf {Genesis : Type} (env : Env Genesis) (cfg : NodeConfig)
    (genesis : Option Genesis) (st st' : Stack Genesis)
    (h : registerServices env cfg genesis st = Except.ok st') : st'.conf = st.conf := by
  unfold registerServices at h
  simp only at h
  split at h
  · cases h
  · rename_i st1 h1
    have hst1 : st1.conf = st.conf := by
      split at h1
      · split at h1
        · cases h1
        · rename_i st2 h2
          have := registerService_conf env _ _ _ _ h2
          split at h1
          · exact (registerService_conf env _ _ _ _ h1).trans this
          · simp only [Except.ok.injEq] at h1
            rw [← h1]
            exact this
      · simp only [Except.ok.injEq] at h1
        rw [← h1]
    split at h
    · exact (registerService_conf env _ _ _ _ h).trans hst1
    · simp only [Except.ok.injEq] at h
      rw [← h]
      exact hst1

/-- A node that `NewNode` returns carries the `node.Config` built from the
configuration after defaulting. -/
theorem NewNode_ok_conf {Genesis : Type} (env : Env Genesis) (m : Memory) (datadir : String)
    (config : Option Nat) (st : Stack Genesis)
    (h : (NewNode env m datadir config).1 = Except.ok st) :
    nodeConfig env (applyDefaults m config).2 datadir (applyDefaults m config).1 =
      some st.conf := by
  unfold NewNode at h
  simp only at h
  split at h
  · cases h
  · rename_i nodeConf hnc
    rw [hnc]
    split at h
    · cases h
    · split at h
      · cases h
      · simp only at h
        have := registerServices_conf env _ _ _ _ h
        rw [this]


theorem bootEmpty_congr (m m' : Memory) (b : Option Nat) (h : m'.enodes = m.enodes) :
    bootEmpty m' b = bootEmpty m b := by
  unfold bootEmpty
  rw [h]

theorem defaultMaxPeers_spec (m : Memory) (p : Nat) (hne : p ≠ defaultNodeConfig)
    (hp : p < m.configs.length) :
    (defaultMaxPeers m p).enodes = m.enodes ∧
    (defaultMaxPeers m p).configs.length = m.configs.length ∧
    (defaultMaxPeers m p).load defaultNodeConfig = m.load defaultNodeConfig ∧
    ((defaultMaxPeers m p).load p).BoolbchainDevrapNodes = (m.load p).BoolbchainDevrapNodes ∧
    ((defaultMaxPeers m p).load p).MaxPeers =
      (if (m.load p).MaxPeers = 0 then (m.load defaultNodeConfig).MaxPeers
       else (m.load p).MaxPeers) := by
  unfold defaultMaxPeers
  by_cases hmp : (m.load p).MaxPeers = 0
  · rw [if_pos hmp, if_pos hmp]
    refine ⟨rfl, store_length _ _ _, load_store_ne m p _ _ hne, ?_, ?_⟩
    · rw [load_store_self m p _ hp]
    · rw [load_store_self m p _ hp]
  · rw [if_neg hmp, if_neg hmp]
    exact ⟨rfl, rfl, rfl, rfl, rfl⟩

theorem defaultBootnodes_spec (m : Memory) (p : Nat) (hne : p ≠ defaultNodeConfig)
    (hp : p < m.configs.length) :
    (defaultBootnodes m p).enodes = m.enodes ∧
    (defaultBootnodes m p).load defaultNodeConfig = m.load defaultNodeConfig ∧
    ((defaultBootnodes m p).load p).MaxPeers = (m.load p).MaxPeers ∧
    ((defaultBootnodes m p).load p).BoolbchainDevrapNodes =
      (if bootEmpty m (m.load p).BoolbchainDevrapNodes then
         (m.load defaultNodeConfig).BoolbchainDevrapNodes
       else (m.load p).BoolbchainDevrapNodes) := by
  unfold defaultBootnodes
  by_cases hb : bootEmpty m (m.load p).BoolbchainDevrapNodes = true
  · rw [if_pos hb, if_pos hb]
    refine ⟨rfl, load_store_ne m p _ _ hne, ?_, ?_⟩
    · rw [load_store_self m p _ hp]
    · rw [load_store_self m p _ hp]
  · rw [if_neg hb, if_neg hb]
    exact ⟨rfl, rfl, rfl, rfl⟩

/-- The configuration after lines 100 to 109 of `NewNode`, for a configuration
of the caller's: a zero `MaxPeers` has become the default's, a nil or empty
bootstrap list the default's. -/
theorem applyDefaults_some (m : Memory) (p : Nat) (h0 : 0 < p) (hp : p < m.configs.length) :
    (applyDefaults m (some p)).1 = p ∧
    (applyDefaults m (some p)).2.enodes = m.enodes ∧
    ((applyDefaults m (some p)).2.load p).MaxPeers =
      (if (m.load p).MaxPeers = 0 then (m.load defaultNodeConfig).MaxPeers
       else (m.load p).MaxPeers) ∧
    ((applyDefaults m (some p)).2.load p).BoolbchainDevrapNodes =
      (if bootEmpty m (m.load p).BoolbchainDevrapNodes then
         (m.load defaultNodeConfig).BoolbchainDevrapNodes
       else (m.load p).BoolbchainDevrapNodes) := by
  have hne : p ≠ defaultNodeConfig := by
    unfold defaultNodeConfig
    omega
  obtain ⟨a1, a2, a3, a4, a5⟩ := defaultMaxPeers_spec m p hne hp
  obtain ⟨b1, b2, b3, b4⟩ := defaultBootnodes_spec (defaultMaxPeers m p) p hne (by rw [a2]; exact hp)
  show p = p ∧ (defaultBootnodes (defaultMaxPeers m p) p).enodes = m.enodes ∧
    ((defaultBootnodes (defaultMaxPeers m p) p).load p).MaxPeers = _ ∧
    ((defaultBootnodes (defaultMaxPeers m p) p).load p).BoolbchainDevrapNodes = _
  refine ⟨rfl, b1.trans a1, b3.trans a5, ?_⟩
  rw [b4, bootEmpty_congr m (defaultMaxPeers m p) _ a1, a4, a3]


/-- In every client state, a configuration of the caller's whose `MaxPeers` is
zero is handed to `node.New` with the default limit of 25. -/
theorem zero_MaxPeers_becomes_default {Genesis : Type} (env : Env Genesis)
    (foundation : Enodes) (ops : List ClientOp) (datadir : String) (p : Nat)
    (hp : p ∈ (Client.run foundation ops).returned)
    (h0 : ((Client.run foundation ops).mem.load p).MaxPeers = 0) :
    ∃ nc, nodeConfig env (applyDefaults (Client.run foundation ops).mem (some p)).2 datadir
        (applyDefaults (Client.run foundation ops).mem (some p)).1 = some nc ∧
      nc.P2P.MaxPeers = 25 := by
  obtain ⟨h1, h2, h3, h4⟩ := inv_run foundation ops
  obtain ⟨hpos, hlt⟩ := h4 p hp
  obtain ⟨a1, a2, a3, a4⟩ := applyDefaults_some _ p hpos hlt
  rw [a1]
  unfold nodeConfig
  rw [a4, h1]
  have hboot : (if bootEmpty (Client.run foundation ops).mem
      ((Client.run foundation ops).mem.load p).BoolbchainDevrapNodes = true then
      defaultNodeConfigValue.BoolbchainDevrapNodes
      else ((Client.run foundation ops).mem.load p).BoolbchainDevrapNodes) ≠ none := by
    split
    · intro hc; cases hc
    · rename_i hb
      intro hc
      rw [hc] at hb
      exact hb rfl
  cases hcase : (if bootEmpty (Client.run foundation ops).mem
      ((Client.run foundation ops).mem.load p).BoolbchainDevrapNodes = true then
      defaultNodeConfigValue.BoolbchainDevrapNodes
      else ((Client.run foundation ops).mem.load p).BoolbchainDevrapNodes) with
  | none => exact absurd hcase hboot
  | some a =>
    refine ⟨_, rfl, ?_⟩
    show ((applyDefaults (Client.run foundation ops).mem (some p)).2.load p).MaxPeers = 25
    rw [a3, h0, if_pos rfl, h1]
    rfl

theorem load_store_boot (m : Memory) (p q : Nat) (f : NodeConfig → NodeConfig)
    (hf : ∀ c, (f c).BoolbchainDevrapNodes = c.BoolbchainDevrapNodes) :
    ((m.store p f).load q).BoolbchainDevrapNodes = (m.load q).BoolbchainDevrapNodes := by
  by_cases hq : p = q
  · subst hq
    by_cases hp : p < m.configs.length
    · rw [load_store_self m p f hp, hf]
    · have : m.store p f = m := by
        unfold Memory.store
        rw [List.set_eq_of_length_le (by omega)]
      rw [this]
  · rw [load_store_ne m p q f hq]

theorem parseGenesis_boot {Genesis : Type} (env : Env Genesis) (m : Memory) (cp q : Nat) :
    ((parseGenesis env m cp).2.load q).BoolbchainDevrapNodes =
      (m.load q).BoolbchainDevrapNodes := by
  unfold parseGenesis
  split
  · rfl
  · split
    · rfl
    · split
      · split
        · exact load_store_boot m cp q _ (fun _ => rfl)
        · rfl
      · rfl

theorem parseGenesis_ok {Genesis : Type} (env : Env Genesis) (m : Memory) (cp : Nat)
    (hUn : ∀ s, ∃ g, env.Unmarshal s = Except.ok g) :
    ∃ g, (parseGenesis env m cp).1 = Except.ok g := by
  unfold parseGenesis
  split
  · exact ⟨_, rfl⟩
  · obtain ⟨g, hg⟩ := hUn (m.load cp).lbchainDevchainGenesis
    rw [hg]
    simp only
    split
    · exact ⟨_, rfl⟩
    · exact ⟨_, rfl⟩

theorem registerService_ok {Genesis : Type} (env : Env Genesis) (label : String)
    (st : Stack Genesis) (svc : Service Genesis)
    (hReg : ∀ st svc, env.Register st svc = none) :
    registerService env label st svc
      = Except.ok { st with services := st.services ++ [svc] } := by
  unfold registerService
  rw [hReg]

theorem registerServices_ok {Genesis : Type} (env : Env Genesis) (cfg : NodeConfig)
    (genesis : Option Genesis) (st : Stack Genesis)
    (hReg : ∀ st svc, env.Register st svc = none) :
    ∃ st', registerServices env cfg genesis st = Except.ok st' := by
  unfold registerServices
  simp only [registerService_ok env _ _ _ hReg]
  split_ifs <;> exact ⟨_, rfl⟩

/-- How `NewNode` goes on once the `node.Config` is built: an error of `node.New`
is returned as it is; when `node.New`, the genesis decoding and every service
registration succeed, a node carrying that `node.Config` is returned. -/
theorem NewNode_of_conf {Genesis : Type} (env : Env Genesis) (m : Memory) (datadir : String)
    (config : Option Nat) (nc : NodeConf)
    (hnc : nodeConfig env (applyDefaults m config).2 datadir (applyDefaults m config).1
      = some nc) :
    (∀ err, env.nodeNew nc = some err →
      (NewNode env m datadir config).1 = Except.error err) ∧
    (env.nodeNew nc = none → (∀ s, ∃ g, env.Unmarshal s = Except.ok g) →
      (∀ st svc, env.Register st svc = none) →
      ∃ st, (NewNode env m datadir config).1 = Except.ok st ∧ st.conf = nc) := by
  constructor
  · intro err herr
    unfold NewNode
    simp only [hnc, herr]
  · intro hnew hUn hReg
    obtain ⟨g, hg⟩ := parseGenesis_ok env (applyDefaults m config).2 (applyDefaults m config).1 hUn
    obtain ⟨st, hst⟩ := registerServices_ok env
      ((parseGenesis env (applyDefaults m config).2 (applyDefaults m config).1).2.load
        (applyDefaults m config).1) g { conf := nc, services := [] } hReg
    have hN : (NewNode env m datadir config).1 = Except.ok st := by
      unfold NewNode
      simp only [hnc, hnew]
      cases hpg : parseGenesis env (applyDefaults m config).2 (applyDefaults m config).1 with
      | mk r m2 =>
        rw [hpg] at hg hst
        simp only at hg hst
        subst hg
        exact hst
    refine ⟨st, hN, ?_⟩
    have := NewNode_ok_conf env m datadir config st hN
    rw [hnc] at this
    simp only [Option.some.injEq] at this
    exact this.symm

/-- The memory `NewNode` leaves behind holds, for every configuration, the
bootstrap list that lines 100 to 109 gave it. -/
theorem NewNode_mem_boot {Genesis : Type} (env : Env Genesis) (m : Memory) (datadir : String)
    (config : Option Nat) (q : Nat) :
    ((NewNode env m datadir config).2.load q).BoolbchainDevrapNodes =
      ((applyDefaults m config).2.load q).BoolbchainDevrapNodes := by
  unfold NewNode
  simp only
  split
  · rfl
  · split
    · rfl
    · have hb := parseGenesis_boot env (applyDefaults m config).2 (applyDefaults m config).1 q
      split
      · rename_i heq
        rw [heq] at hb
        exact hb
      · rename_i heq
        rw [heq] at hb
        exact hb

/-- C8 (zero `MaxPeers`), the code at the failing input: a configuration from
`NewNodeConfig()` whose `MaxPeers` was set to zero yields a node whose p2p peer
limit is 25, not zero. -/
theorem NewNode_zero_MaxPeers_gets_default :
    ((Client.run sampleFoundation
        [ClientOp.call, ClientOp.assign 0 (fun c => { c with MaxPeers := 0 })]).mem.load
        1).MaxPeers = 0 ∧
    ∃ st, (NewNode sampleEnv (Client.run sampleFoundation
        [ClientOp.call, ClientOp.assign 0 (fun c => { c with MaxPeers := 0 })]).mem
        "/data" (some 1)).1 = Except.ok st ∧ st.conf.P2P.MaxPeers = 25 :=
  ⟨rfl, _, rfl, rfl⟩

/-- C10 (nil configuration and empty bootstrap list).  `NewNode` called with a nil
configuration is `NewNode` called with the result of `NewNodeConfig()`.  In every
client state, `NewNode` called with a configuration of the caller's whose
bootstrap list is nil or empty gives that configuration the default's bootstrap
list (it is there in the memory `NewNode` leaves behind) and builds a
`node.Config` carrying the default bootstrap nodes: an error of `node.New` on
that `node.Config` is what `NewNode` returns, and when `node.New`, the genesis
decoding and the service registrations succeed, `NewNode` returns a node with
that `node.Config`; every node `NewNode` returns carries the default bootstrap
nodes. -/
theorem NewNode_nil_and_empty_bootnodes {Genesis : Type} (env : Env Genesis)
    (foundation : Enodes) (ops : List ClientOp) (datadir : String) (p : Nat)
    (hp : p ∈ (Client.run foundation ops).returned)
    (hb : bootEmpty (Client.run foundation ops).mem
      ((Client.run foundation ops).mem.load p).BoolbchainDevrapNodes = true) :
    (∀ m : Memory, NewNode env m datadir none =
      NewNode env (NewNodeConfig m).2 datadir (some (NewNodeConfig m).1)) ∧
    ((NewNode env (Client.run foundation ops).mem datadir (some p)).2.load
        p).BoolbchainDevrapNodes =
      ((Client.run foundation ops).mem.load defaultNodeConfig).BoolbchainDevrapNodes ∧
    (∃ nc, nc.P2P.BoolbchainDevrapNodesV5 = foundation.nodes ∧
      (∀ err, env.nodeNew nc = some err →
        (NewNode env (Client.run foundation ops).mem datadir (some p)).1 = Except.error err) ∧
      (env.nodeNew nc = none → (∀ s, ∃ g, env.Unmarshal s = Except.ok g) →
        (∀ st svc, env.Register st svc = none) →
        ∃ st, (NewNode env (Client.run foundation ops).mem datadir (some p)).1 = Except.ok st ∧
          st.conf = nc)) ∧
    ((applyDefaults (Client.run foundation ops).mem (some p)).2.load p).BoolbchainDevrapNodes =
      ((Client.run foundation ops).mem.load defaultNodeConfig).BoolbchainDevrapNodes ∧
    (∃ nc, nodeConfig env (applyDefaults (Client.run foundation ops).mem (some p)).2 datadir
        (applyDefaults (Client.run foundation ops).mem (some p)).1 = some nc ∧
      nc.P2P.BoolbchainDevrapNodesV5 = foundation.nodes) ∧
    (∀ st, (NewNode env (Client.run foundation ops).mem datadir (some p)).1 = Except.ok st →
      st.conf.P2P.BoolbchainDevrapNodesV5 = foundation.nodes) := by
  obtain ⟨h1, h2, h3, h4⟩ := inv_run foundation ops
  obtain ⟨hpos, hlt⟩ := h4 p hp
  obtain ⟨a1, a2, a3, a4⟩ := applyDefaults_some _ p hpos hlt
  have hboot : ((applyDefaults (Client.run foundation ops).mem (some p)).2.load
      p).BoolbchainDevrapNodes = some 0 := by
    rw [a4, if_pos hb, h1]
    rfl
  have hnodes : ((applyDefaults (Client.run foundation ops).mem (some p)).2.enodes.getD 0
      ⟨[]⟩).nodes = foundation.nodes := by
    rw [a2]
    cases hE : (Client.run foundation ops).mem.enodes with
    | nil => rw [hE] at h2; cases h2
    | cons x xs =>
      rw [hE] at h2
      simp only [List.head?_cons, Option.some.injEq] at h2
      rw [← h2]
      rfl
  have hconf : ∃ nc, nodeConfig env (applyDefaults (Client.run foundation ops).mem (some p)).2
      datadir (applyDefaults (Client.run foundation ops).mem (some p)).1 = some nc ∧
      nc.P2P.BoolbchainDevrapNodesV5 = foundation.nodes := by
    rw [a1]
    unfold nodeConfig
    rw [hboot]
    exact ⟨_, rfl, hnodes⟩
  have hdef : ((applyDefaults (Client.run foundation ops).mem (some p)).2.load
      p).BoolbchainDevrapNodes =
      ((Client.run foundation ops).mem.load defaultNodeConfig).BoolbchainDevrapNodes := by
    rw [a4, if_pos hb]
  refine ⟨fun m => rfl, ?_, ?_, hdef, hconf, ?_⟩
  · rw [NewNode_mem_boot]
    exact hdef
  · obtain ⟨nc, hnc, hv⟩ := hconf
    obtain ⟨k1, k2⟩ := NewNode_of_conf env _ datadir (some p) nc hnc
    exact ⟨nc, hv, k1, k2⟩
  · intro st hst
    obtain ⟨nc, hnc, hv⟩ := hconf
    have := NewNode_ok_conf env _ datadir (some p) st hst
    rw [hnc] at this
    simp only [Option.some.injEq] at this
    rw [← this]
    exact hv

/-- Witness for C10: a configuration from `NewNodeConfig()` whose bootstrap list
was set to nil; in surroundings where every outside call succeeds `NewNode`
returns a node, and the node carries the sample default bootstrap nodes. -/
theorem NewNode_nil_and_empty_bootnodes_witness :
    (1 ∈ (Client.run sampleFoundation [ClientOp.call,
      ClientOp.assign 0 (fun c => { c with BoolbchainDevrapNodes := none })]).returned) ∧
    bootEmpty (Client.run sampleFoundation [ClientOp.call,
      ClientOp.assign 0 (fun c => { c with BoolbchainDevrapNodes := none })]).mem
      ((Client.run sampleFoundation [ClientOp.call,
        ClientOp.assign 0 (fun c => { c with BoolbchainDevrapNodes := none })]).mem.load
        1).BoolbchainDevrapNodes = true ∧
    (((NewNode sampleEnv (Client.run sampleFoundation [ClientOp.call,
      ClientOp.assign 0 (fun c => { c with BoolbchainDevrapNodes := none })]).mem "/data"
      (some 1)).1.toOption.map (fun st => st.conf.P2P.BoolbchainDevrapNodesV5))
        = some [11, 12, 13]) ∧
    ((NewNode sampleEnv (Client.run sampleFoundation [ClientOp.call,
      ClientOp.assign 0 (fun c => { c with BoolbchainDevrapNodes := none })]).mem "/data"
      (some 1)).2.load 1).BoolbchainDevrapNodes = some 0 :=
  ⟨by decide, by rfl,
    (by
      rw [show (NewNode sampleEnv (Client.run sampleFoundation [ClientOp.call,
        ClientOp.assign 0 (fun c => { c with BoolbchainDevrapNodes := none })]).mem "/data"
        (some 1)).1 = Except.ok _ from rfl]
      exact congrArg some
        ((NewNode_nil_and_empty_bootnodes sampleEnv sampleFoundation [ClientOp.call,
          ClientOp.assign 0 (fun c => { c with BoolbchainDevrapNodes := none })] "/data" 1
          (by decide) (by rfl)).2.2.2.2.2 _ rfl)),
    (NewNode_nil_and_empty_bootnodes sampleEnv sampleFoundation [ClientOp.call,
      ClientOp.assign 0 (fun c => { c with BoolbchainDevrapNodes := none })] "/data" 1
      (by decide) (by rfl)).2.1⟩

end Mobile

namespace Eth

/-! ## Metered message streams -/

theorem Mark_apply (ms : Meters) (p t : Meter) (a b : Int) (m : Meter) :
    Mark (Mark ms p a) t b m
      = ms m + (if m = p then a else 0) + (if m = t then b else 0) := by
  unfold Mark
  split_ifs <;> omega

theorem inMeters_specGroup (P : Protocol)
    (hcodes : [P.BlockHeadersMsg, P.BlockBodiesMsg, P.NewBlockHashesMsg, P.NewBlockMsg,
      P.TxMsg, P.NodeDataMsg, P.ReceiptsMsg].Nodup)
    (h63 : P.lbchainDev63 = 63) (version : Int) (code : Nat) :
    inMeters P version code
      = (⟨specGroup P version code, .inbound, .packets⟩,
         ⟨specGroup P version code, .inbound, .traffic⟩) := by
  simp only [List.nodup_cons, List.mem_cons, List.mem_singleton, not_or, List.not_mem_nil,
    not_false_eq_true, List.nodup_nil, and_true] at hcodes
  unfold inMeters specGroup
  rw [h63]
  split_ifs <;> simp_all [reqHeaderInPacketsMeter, reqHeaderInTrafficMeter,
    reqBodyInPacketsMeter, reqBodyInTrafficMeter, reqStateInPacketsMeter,
    reqStateInTrafficMeter, reqReceiptInPacketsMeter, reqReceiptInTrafficMeter,
    propHashInPacketsMeter, propHashInTrafficMeter, propBlockInPacketsMeter,
    propBlockInTrafficMeter, propTxnInPacketsMeter, propTxnInTrafficMeter,
    miscInPacketsMeter, miscInTrafficMeter]

theorem outMeters_specGroup (P : Protocol)
    (hcodes : [P.BlockHeadersMsg, P.BlockBodiesMsg, P.NewBlockHashesMsg, P.NewBlockMsg,
      P.TxMsg, P.NodeDataMsg, P.ReceiptsMsg].Nodup)
    (h63 : P.lbchainDev63 = 63) (version : Int) (code : Nat) :
    outMeters P version code
      = (⟨specGroup P version code, .outbound, .packets⟩,
         ⟨specGroup P version code, .outbound, .traffic⟩) := by
  simp only [List.nodup_cons, List.mem_cons, List.mem_singleton, not_or, List.not_mem_nil,
    not_false_eq_true, List.nodup_nil, and_true] at hcodes
  unfold outMeters specGroup
  rw [h63]
  split_ifs <;> simp_all [reqHeaderOutPacketsMeter, reqHeaderOutTrafficMeter,
    reqBodyOutPacketsMeter, reqBodyOutTrafficMeter, reqStateOutPacketsMeter,
    reqStateOutTrafficMeter, reqReceiptOutPacketsMeter, reqReceiptOutTrafficMeter,
    propHashOutPacketsMeter, propHashOutTrafficMeter, propBlockOutPacketsMeter,
    propBlockOutTrafficMeter, propTxnOutPacketsMeter, propTxnOutTrafficMeter,
    miscOutPacketsMeter, miscOutTrafficMeter]

theorem ReadMsg_ok {S : Type} (io : P2P.MsgReadWriter S) (P : Protocol)
    (rw : meteredMsgReadWriter S) (ms : Meters) (msg : P2P.Msg) (s : S)
    (h : io.ReadMsg rw.MsgReadWriter = ((msg, none), s)) :
    rw.ReadMsg io P ms
      = ((msg, none), { rw with MsgReadWriter := s },
          Mark (Mark ms (inMeters P rw.version msg.Code).1 1)
            (inMeters P rw.version msg.Code).2 (msg.Size : Int)) := by
  simp only [meteredMsgReadWriter.ReadMsg, h]

theorem WriteMsg_eq {S : Type} (io : P2P.MsgReadWriter S) (P : Protocol)
    (rw : meteredMsgReadWriter S) (ms : Meters) (msg : P2P.Msg) :
    rw.WriteMsg io P msg ms
      = ((io.WriteMsg rw.MsgReadWriter msg).1,
          { rw with MsgReadWriter := (io.WriteMsg rw.MsgReadWriter msg).2 },
          Mark (Mark ms (outMeters P rw.version msg.Code).1 1)
            (outMeters P rw.version msg.Code).2 (msg.Size : Int)) := by
  simp only [meteredMsgReadWriter.WriteMsg]

/-- C11: `newMeteredMsgWriter` returns the very stream it was given when metrics
are disabled, and otherwise a metering wrapper around that stream whose protocol
version is 0; this holds for the full node (`tst/metrics.go`) and for the light
node (`les/metrics.go`) alike. -/
theorem newMeteredMsgWriter_given_or_wrapper {S : Type} (enabled : Bool) (rw : S) :
    Eth.newMeteredMsgWriter enabled rw
        = (if enabled then Eth.Stream.metered { MsgReadWriter := rw, version := 0 }
           else Eth.Stream.given rw) ∧
      Les.newMeteredMsgWriter enabled rw
        = (if enabled then Les.Stream.metered { MsgReadWriter := rw, version := 0 }
           else Les.Stream.given rw) := by
  cases enabled <;> exact ⟨rfl, rfl⟩

/-- C12: with pairwise distinct message codes and version constant 63, the
full-node metered stream whose version was set by `Init` selects, for a message
code, the incoming (`ReadMsg`) and outgoing (`WriteMsg`) meters of one and the
same group, the group being the one the specification names for that code and
version; a successful read returns the message and increases exactly the
selected incoming packets meter by 1 and the selected incoming traffic meter by
the message size; a write returns the error of the wrapped stream and increases
exactly the selected outgoing packets meter by 1 and the selected outgoing
traffic meter by the message size. -/
theorem metered_marks_by_code_and_version {S : Type} (io : P2P.MsgReadWriter S)
    (P : Protocol)
    (hcodes : [P.BlockHeadersMsg, P.BlockBodiesMsg, P.NewBlockHashesMsg, P.NewBlockMsg,
      P.TxMsg, P.NodeDataMsg, P.ReceiptsMsg].Nodup)
    (h63 : P.lbchainDev63 = 63)
    (rw : meteredMsgReadWriter S) (version : Int) (msg : P2P.Msg) (ms : Meters) :
    (inMeters P version msg.Code
        = (⟨specGroup P version msg.Code, .inbound, .packets⟩,
           ⟨specGroup P version msg.Code, .inbound, .traffic⟩) ∧
      outMeters P version msg.Code
        = (⟨specGroup P version msg.Code, .outbound, .packets⟩,
           ⟨specGroup P version msg.Code, .outbound, .traffic⟩)) ∧
    (∀ s, io.ReadMsg rw.MsgReadWriter = ((msg, none), s) →
      ((rw.Init version).ReadMsg io P ms).1 = (msg, none) ∧
      ∀ m, ((rw.Init version).ReadMsg io P ms).2.2 m
        = ms m + (if m = ⟨specGroup P version msg.Code, .inbound, .packets⟩ then 1 else 0)
            + (if m = ⟨specGroup P version msg.Code, .inbound, .traffic⟩
                then (msg.Size : Int) else 0)) ∧
    (((rw.Init version).WriteMsg io P msg ms).1 = (io.WriteMsg rw.MsgReadWriter msg).1 ∧
      ∀ m, ((rw.Init version).WriteMsg io P msg ms).2.2 m
        = ms m + (if m = ⟨specGroup P version msg.Code, .outbound, .packets⟩ then 1 else 0)
            + (if m = ⟨specGroup P version msg.Code, .outbound, .traffic⟩
                then (msg.Size : Int) else 0)) := by
  have hin := inMeters_specGroup P hcodes h63 version msg.Code
  have hout := outMeters_specGroup P hcodes h63 version msg.Code
  refine ⟨⟨hin, hout⟩, ?_, ?_⟩
  · intro s hs
    have hs1 : io.ReadMsg (rw.Init version).MsgReadWriter = ((msg, none), s) := hs
    rw [ReadMsg_ok io P (rw.Init version) ms msg s hs1]
    refine ⟨rfl, fun m => ?_⟩
    show Mark (Mark ms (inMeters P version msg.Code).1 1)
      (inMeters P version msg.Code).2 (msg.Size : Int) m = _
    rw [Mark_apply, hin]
  · rw [WriteMsg_eq]
    refine ⟨rfl, fun m => ?_⟩
    show Mark (Mark ms (outMeters P version msg.Code).1 1)
      (outMeters P version msg.Code).2 (msg.Size : Int) m = _
    rw [Mark_apply, hout]

/-- Witness for C12: with the sample constants, a node-data message (code 14) of
size 100 read at version 63 goes to the state request meters. -/
theorem metered_marks_by_code_and_version_witness :
    [sampleProtocol.BlockHeadersMsg, sampleProtocol.BlockBodiesMsg,
      sampleProtocol.NewBlockHashesMsg, sampleProtocol.NewBlockMsg, sampleProtocol.TxMsg,
      sampleProtocol.NodeDataMsg, sampleProtocol.ReceiptsMsg].Nodup ∧
    sampleProtocol.lbchainDev63 = 63 ∧
    inMeters sampleProtocol 63 14 = (reqStateInPacketsMeter, reqStateInTrafficMeter) ∧
    outMeters sampleProtocol 63 14 = (reqStateOutPacketsMeter, reqStateOutTrafficMeter) :=
  ⟨by decide, rfl,
    (metered_marks_by_code_and_version sampleIO sampleProtocol (by decide) rfl
      { MsgReadWriter := [{ Code := 14, Size := 100 }], version := 0 } 63
      { Code := 14, Size := 100 } (fun _ => 0)).1⟩

/-- C13: when the wrapped stream's `ReadMsg` returns an error, the metered
`ReadMsg` returns that same message and error and leaves every meter unchanged,
in the full-node wrapper and in the light-node wrapper. -/
theorem ReadMsg_error_short_circuit {S : Type} (io : P2P.MsgReadWriter S) (P : Protocol)
    (rw : Eth.meteredMsgReadWriter S) (lrw : Les.meteredMsgReadWriter S)
    (ms : Eth.Meters) (lms : Les.Meters) (msg lmsg : P2P.Msg) (err lerr : String) (s ls : S)
    (h : io.ReadMsg rw.MsgReadWriter = ((msg, some err), s))
    (hl : io.ReadMsg lrw.MsgReadWriter = ((lmsg, some lerr), ls)) :
    ((rw.ReadMsg io P ms).1 = (msg, some err) ∧ (rw.ReadMsg io P ms).2.2 = ms) ∧
    ((lrw.ReadMsg io lms).1 = (lmsg, some lerr) ∧ (lrw.ReadMsg io lms).2.2 = lms) := by
  refine ⟨?_, ?_⟩
  · simp only [Eth.meteredMsgReadWriter.ReadMsg, h, and_self]
  · simp only [Les.meteredMsgReadWriter.ReadMsg, hl, and_self]

/-- Witness for C13: reading from an exhausted sample stream fails with `EOF`;
both wrappers pass the error on and leave the meters as they were. -/
theorem ReadMsg_error_short_circuit_witness :
    sampleIO.ReadMsg [] = (({ Code := 0, Size := 0 }, some "EOF"), []) ∧
    ((Eth.meteredMsgReadWriter.ReadMsg sampleIO sampleProtocol
        { MsgReadWriter := [], version := 63 } (fun _ => 7)).1
          = ({ Code := 0, Size := 0 }, some "EOF") ∧
      (Eth.meteredMsgReadWriter.ReadMsg sampleIO sampleProtocol
        { MsgReadWriter := [], version := 63 } (fun _ => 7)).2.2 = (fun _ => 7)) ∧
    ((Les.meteredMsgReadWriter.ReadMsg sampleIO
        { MsgReadWriter := [], version := 2 } (fun _ => 7)).1
          = ({ Code := 0, Size := 0 }, some "EOF") ∧
      (Les.meteredMsgReadWriter.ReadMsg sampleIO
        { MsgReadWriter := [], version := 2 } (fun _ => 7)).2.2 = (fun _ => 7)) :=
  ⟨rfl,
    ReadMsg_error_short_circuit sampleIO sampleProtocol
      { MsgReadWriter := [], version := 63 } { MsgReadWriter := [], version := 2 }
      (fun _ => 7) (fun _ => 7) { Code := 0, Size := 0 } { Code := 0, Size := 0 }
      "EOF" "EOF" [] [] rfl rfl⟩

/-! ## Header lookup, consensus engine and start of the full node -/

/-- C14: provided the constants `LatestBlockNumber` and `PendingBlockNumber`
differ, the full-node `HeaderByNumber` returns a nil error in every case, the
header of the miner's pending block for `PendingBlockNumber`, the header of the
chain's current block for `LatestBlockNumber`, and for every other block number
the chain's `GetHeaderByNumber` of that number converted to `uint64`. -/
theorem HeaderByNumber_cases {Block Header : Type} (rpc : BlockNumbers)
    (hne : rpc.LatestBlockNumber ≠ rpc.PendingBlockNumber)
    (b : ApiBackend Block Header) (blockNr : Int) :
    (HeaderByNumber rpc b blockNr).2 = none ∧
    (blockNr = rpc.PendingBlockNumber →
      (HeaderByNumber rpc b blockNr).1 = some (b.Header b.PendingBlock)) ∧
    (blockNr = rpc.LatestBlockNumber →
      (HeaderByNumber rpc b blockNr).1 = some (b.Header b.CurrentBlock)) ∧
    (blockNr ≠ rpc.PendingBlockNumber → blockNr ≠ rpc.LatestBlockNumber →
      (HeaderByNumber rpc b blockNr).1 = b.GetHeaderByNumber (uint64 blockNr)) := by
  unfold HeaderByNumber
  refine ⟨?_, ?_, ?_, ?_⟩
  · split_ifs <;> rfl
  · intro h
    rw [if_pos h]
  · intro h
    have h1 : blockNr ≠ rpc.PendingBlockNumber := h ▸ hne
    rw [if_neg h1, if_pos h]
  · intro h1 h2
    rw [if_neg h1, if_neg h2]

/-- Witness for C14: with the sample constants, the number -1 is the latest
block number and gives the current header, and the number 5 is neither pending
nor latest and is looked up in the chain. -/
theorem HeaderByNumber_cases_witness :
    sampleBlockNumbers.LatestBlockNumber ≠ sampleBlockNumbers.PendingBlockNumber ∧
    (HeaderByNumber sampleBlockNumbers sampleBackend 5).2 = none ∧
    (HeaderByNumber sampleBlockNumbers sampleBackend (-1)).1
      = some (sampleBackend.Header sampleBackend.CurrentBlock) ∧
    (HeaderByNumber sampleBlockNumbers sampleBackend 5).1
      = sampleBackend.GetHeaderByNumber (uint64 5) :=
  ⟨by decide,
    (HeaderByNumber_cases sampleBlockNumbers (by decide) sampleBackend 5).1,
    (HeaderByNumber_cases sampleBlockNumbers (by decide) sampleBackend (-1)).2.2.1 rfl,
    (HeaderByNumber_cases sampleBlockNumbers (by decide) sampleBackend 5).2.2.2
      (by decide) (by decide)⟩

/-- C15: provided the three mode constants differ from one another,
`CreateConsensusEngine` returns the clique engine whenever the chain
configuration has a clique section, whatever the proof-of-work mode; only
without it does the mode decide: fake, test and shared give the faker, tester
and shared engines, and every other mode gives a regular proof-of-work engine
whose thread count was set to -1 (CPU mining disabled). -/
theorem CreateConsensusEngine_cases {Clique Db : Type} (modes : PowModes)
    (hmodes : [modes.ModeFake, modes.ModeTest, modes.ModeShared].Nodup)
    (ResolvePath : String → String) (config : EthashConfig) (db : Db) :
    (∀ c : Clique,
      CreateConsensusEngine modes ResolvePath config (some c) db = Engine.clique c db) ∧
    (config.PowMode = modes.ModeFake →
      CreateConsensusEngine modes ResolvePath config (none : Option Clique) db
        = Engine.faker) ∧
    (config.PowMode = modes.ModeTest →
      CreateConsensusEngine modes ResolvePath config (none : Option Clique) db
        = Engine.tester) ∧
    (config.PowMode = modes.ModeShared →
      CreateConsensusEngine modes ResolvePath config (none : Option Clique) db
        = Engine.shared) ∧
    (config.PowMode ≠ modes.ModeFake → config.PowMode ≠ modes.ModeTest →
      config.PowMode ≠ modes.ModeShared →
      CreateConsensusEngine modes ResolvePath config (none : Option Clique) db
        = Engine.ethash
            { CacheDir := ResolvePath config.CacheDir,
              CachesInMem := config.CachesInMem,
              CachesOnDisk := config.CachesOnDisk,
              DatasetDir := config.DatasetDir,
              DatasetsInMem := config.DatasetsInMem,
              DatasetsOnDisk := config.DatasetsOnDisk,
              PowMode := 0 } (-1)) := by
  simp only [List.nodup_cons, List.mem_cons, List.mem_singleton, not_or, List.not_mem_nil,
    not_false_eq_true, List.nodup_nil, and_true] at hmodes
  obtain ⟨⟨hft, hfs⟩, hts⟩ := hmodes
  refine ⟨fun c => rfl, ?_, ?_, ?_, ?_⟩
  · intro h
    simp only [CreateConsensusEngine, if_pos h]
  · intro h
    have h1 : config.PowMode ≠ modes.ModeFake := fun e => hft (e.symm.trans h)
    simp only [CreateConsensusEngine, if_neg h1, if_pos h]
  · intro h
    have h1 : config.PowMode ≠ modes.ModeFake := fun e => hfs (e.symm.trans h)
    have h2 : config.PowMode ≠ modes.ModeTest := fun e => hts (e.symm.trans h)
    simp only [CreateConsensusEngine, if_neg h1, if_neg h2, if_pos h]
  · intro h1 h2 h3
    simp only [CreateConsensusEngine, if_neg h1, if_neg h2, if_neg h3, Engine.SetThreads]

/-- Witness for C15: with the sample constants, a clique section wins over the
fake mode, and mode 4 (neither fake, test nor shared) gives a regular engine
with thread count -1. -/
theorem CreateConsensusEngine_cases_witness :
    [sampleModes.ModeFake, sampleModes.ModeTest, sampleModes.ModeShared].Nodup ∧
    (CreateConsensusEngine sampleModes (fun p => "/data/" ++ p) (sampleEthash 3)
        (some "poa") () = Engine.clique "poa" ()) ∧
    (CreateConsensusEngine sampleModes (fun p => "/data/" ++ p) (sampleEthash 4)
        (none : Option String) ()
      = Engine.ethash
          { CacheDir := "/data/ethash", CachesInMem := 2, CachesOnDisk := 3,
            DatasetDir := "/d", DatasetsInMem := 1, DatasetsOnDisk := 2, PowMode := 0 }
          (-1)) :=
  ⟨by decide,
    (CreateConsensusEngine_cases sampleModes (by decide) (fun p => "/data/" ++ p)
      (sampleEthash 3) ()).1 "poa",
    (@CreateConsensusEngine_cases String Unit sampleModes (by decide)
      (fun p => "/data/" ++ p) (sampleEthash 4) ()).2.2.2.2
      (by decide) (by decide) (by decide)⟩

theorem wrapInt_of_isInt (x : Int) (h : isInt x) : wrapInt x = x := by
  unfold isInt at h
  unfold wrapInt
  omega

theorem wrapInt_ge_one_iff (m l : Int) (hm : isInt m) (hl : isInt l) (hlt : l < m) :
    1 ≤ wrapInt (m - l) ↔ m - l < 2 ^ 63 := by
  unfold isInt at hm hl
  unfold wrapInt
  omega

theorem Start_error (config : LightConfig) (srvrMaxPeers : Int) (lesServer : Bool)
    (h1 : config.LightServ > 0) (h2 : config.LightPeers ≥ srvrMaxPeers) :
    Start config srvrMaxPeers lesServer
      = (some ("invalid peer config: light peer count (" ++ toString config.LightPeers
          ++ ") >= total peer count (" ++ toString srvrMaxPeers ++ ")"),
         [StartEffect.startBloomHandlers, StartEffect.netRPCService]) := by
  simp only [Start, if_pos h1, if_pos h2]

theorem Start_light (config : LightConfig) (srvrMaxPeers : Int) (lesServer : Bool)
    (h1 : config.LightServ > 0) (h2 : config.LightPeers < srvrMaxPeers) :
    Start config srvrMaxPeers lesServer
      = (none, [StartEffect.startBloomHandlers, StartEffect.netRPCService]
          ++ [StartEffect.protocolManagerStart (wrapInt (srvrMaxPeers - config.LightPeers))]
          ++ (if lesServer then [StartEffect.lesServerStart] else [])) := by
  have h3 : ¬ config.LightPeers ≥ srvrMaxPeers := not_le.mpr h2
  simp only [Start, if_pos h1, if_neg h3]

theorem Start_plain (config : LightConfig) (srvrMaxPeers : Int) (lesServer : Bool)
    (h1 : config.LightServ ≤ 0) :
    Start config srvrMaxPeers lesServer
      = (none, [StartEffect.startBloomHandlers, StartEffect.netRPCService]
          ++ [StartEffect.protocolManagerStart srvrMaxPeers]
          ++ (if lesServer then [StartEffect.lesServerStart] else [])) := by
  have h3 : ¬ config.LightServ > 0 := not_lt.mpr h1
  simp only [Start, if_neg h3]

/-- C16, the claim as stated fails: with `LightServ = 1`, `LightPeers = -1` and
`srvr.MaxPeers = 2^63 - 1` the light peer count is below the total, `Start`
returns no error, and the protocol manager is started with the wrapped
difference `-2^63`, which is not at least 1. -/
theorem Start_wrapped_limit_counterexample :
    ((1 : Int) > 0 ∧ ¬ ((-1 : Int) ≥ 9223372036854775807)) ∧
    isInt (-1) ∧ isInt 9223372036854775807 ∧
    Start { LightServ := 1, LightPeers := -1 } 9223372036854775807 false
      = (none, [StartEffect.startBloomHandlers, StartEffect.netRPCService,
          StartEffect.protocolManagerStart (-9223372036854775808)]) ∧
    ¬ ((1 : Int) ≤ -9223372036854775808) := by
  refine ⟨by decide, by decide, by decide, ?_, by decide⟩
  rw [Start_light _ _ _ (by decide) (by decide)]
  rfl

/-- C16, amended: for values of Go's 64-bit `int`, `Start` returns an error,
having started neither the protocol manager nor the light server, exactly when
`LightServ > 0` and `LightPeers >= srvr.MaxPeers`; otherwise it returns no error
and starts the protocol manager, followed by the light server if there is one,
with the wrapped difference `MaxPeers - LightPeers` when `LightServ > 0`, which
is at least 1 exactly when the difference is below `2^63` (then it is the exact
difference; a non-negative `LightPeers` suffices), and with `MaxPeers` when
`LightServ` is not positive. -/
theorem Start_error_iff_and_peer_limit (config : LightConfig) (srvrMaxPeers : Int)
    (lesServer : Bool) (hL : isInt config.LightPeers) (hM : isInt srvrMaxPeers) :
    ((Start config srvrMaxPeers lesServer).1 ≠ none ↔
      (config.LightServ > 0 ∧ config.LightPeers ≥ srvrMaxPeers)) ∧
    (config.LightServ > 0 → config.LightPeers ≥ srvrMaxPeers →
      (Start config srvrMaxPeers lesServer).2
        = [StartEffect.startBloomHandlers, StartEffect.netRPCService]) ∧
    (config.LightServ > 0 → config.LightPeers < srvrMaxPeers →
      Start config srvrMaxPeers lesServer
        = (none, [StartEffect.startBloomHandlers, StartEffect.netRPCService]
            ++ [StartEffect.protocolManagerStart
                  (wrapInt (srvrMaxPeers - config.LightPeers))]
            ++ (if lesServer then [StartEffect.lesServerStart] else [])) ∧
      (1 ≤ wrapInt (srvrMaxPeers - config.LightPeers) ↔
        srvrMaxPeers - config.LightPeers < 2 ^ 63) ∧
      (srvrMaxPeers - config.LightPeers < 2 ^ 63 →
        wrapInt (srvrMaxPeers - config.LightPeers) = srvrMaxPeers - config.LightPeers) ∧
      (0 ≤ config.LightPeers → srvrMaxPeers - config.LightPeers < 2 ^ 63)) ∧
    (config.LightServ ≤ 0 →
      Start config srvrMaxPeers lesServer
        = (none, [StartEffect.startBloomHandlers, StartEffect.netRPCService]
            ++ [StartEffect.protocolManagerStart srvrMaxPeers]
            ++ (if lesServer then [StartEffect.lesServerStart] else []))) := by
  refine ⟨?_, ?_, ?_, ?_⟩
  · by_cases h1 : config.LightServ > 0
    · by_cases h2 : config.LightPeers ≥ srvrMaxPeers
      · rw [Start_error _ _ _ h1 h2]
        simp [h1, h2]
      · rw [Start_light _ _ _ h1 (not_le.mp h2)]
        simp [h2]
    · rw [Start_plain _ _ _ (not_lt.mp h1)]
      simp [h1]
  · intro h1 h2
    rw [Start_error _ _ _ h1 h2]
  · intro h1 h2
    refine ⟨Start_light _ _ _ h1 h2, wrapInt_ge_one_iff _ _ hM hL h2, ?_, ?_⟩
    · intro h
      apply wrapInt_of_isInt
      unfold isInt at *
      omega
    · intro h
      unfold isInt at *
      omega
  · intro h1
    exact Start_plain _ _ _ h1

/-- Witness for C16: a light server with 10 light peers out of 25 starts the
protocol manager with 15 and then the light server. -/
theorem Start_error_iff_and_peer_limit_witness :
    isInt 10 ∧ isInt 25 ∧
    Start { LightServ := 50, LightPeers := 10 } 25 true
      = (none, [StartEffect.startBloomHandlers, StartEffect.netRPCService,
          StartEffect.protocolManagerStart 15, StartEffect.lesServerStart]) :=
  ⟨by decide, by decide,
    ((Start_error_iff_and_peer_limit { LightServ := 50, LightPeers := 10 } 25 true
      (by decide) (by decide)).2.2.1 (by decide) (by decide)).1⟩

end Eth

namespace Whisperv6

/-! ## Whisper topics -/

theorem BytesToTopic_eq (d : List Byte) :
    BytesToTopic d = ⟨d.getD 0 0, d.getD 1 0, d.getD 2 0, d.getD 3 0⟩ := by
  rcases d with _ | ⟨a0, _ | ⟨a1, _ | ⟨a2, _ | ⟨a3, rest⟩⟩⟩⟩
  · rfl
  · rfl
  · rfl
  · rfl
  · have h : ¬ (a0 :: a1 :: a2 :: a3 :: rest).length < TopicLength := by
      simp only [List.length_cons, TopicLength]
      omega
    unfold BytesToTopic
    simp only [if_neg h]
    rfl

/-- C17: for every byte slice `d` (the empty one included), byte `i` of
`BytesToTopic d` equals `d[i]` for every `i` below both the length of `d` and 4,
and is zero for every other `i` below 4; the rows of `bytesToTopicTests` all
pass. -/
theorem BytesToTopic_pads_and_truncates (d : List Byte) :
    (∀ i (h : i < d.length), i < TopicLength → (BytesToTopic d).get i = d[i]) ∧
    (∀ i, d.length ≤ i → i < TopicLength → (BytesToTopic d).get i = 0) ∧
    TestBytesToTopic = true := by
  rw [BytesToTopic_eq]
  refine ⟨?_, ?_, by rfl⟩
  · intro i h hi
    unfold TopicLength at hi
    have e : ∀ k, k = i → d.getD k 0 = d[i] := by
      intro k hk
      subst hk
      rw [List.getD_eq_getElem?_getD, List.getElem?_eq_getElem h]
      rfl
    interval_cases i
    · exact e 0 rfl
    · exact e 1 rfl
    · exact e 2 rfl
    · exact e 3 rfl
  · intro i h hi
    unfold TopicLength at hi
    have e : ∀ k, k = i → d.getD k 0 = 0 := by
      intro k hk
      subst hk
      rw [List.getD_eq_getElem?_getD, List.getElem?_eq_none h]
      rfl
    interval_cases i
    · exact e 0 rfl
    · exact e 1 rfl
    · exact e 2 rfl
    · exact e 3 rfl

/-- Witness for C17: of the seven bytes `6f 3c b0 dd 0f 00 90` the fourth is
byte 3 of the topic, and of the two bytes `00 fe` byte 2 of the topic is zero. -/
theorem BytesToTopic_pads_and_truncates_witness :
    (BytesToTopic [0x6f, 0x3c, 0xb0, 0xdd, 0x0f, 0x00, 0x90]).get 3 = 0xdd ∧
    (BytesToTopic [0x00, 0xfe]).get 2 = 0 :=
  ⟨(BytesToTopic_pads_and_truncates [0x6f, 0x3c, 0xb0, 0xdd, 0x0f, 0x00, 0x90]).1 3
      (by decide) (by decide),
    (BytesToTopic_pads_and_truncates [0x00, 0xfe]).2.1 2 (by decide) (by decide)⟩

theorem decodeNibble_hexChar (n : Nat) (h : n < 16) : decodeNibble (hexChar n) = some n := by
  interval_cases n <;> rfl

theorem plainChar_hexChar (n : Nat) (h : n < 16) : plainChar (hexChar n) = true := by
  interval_cases n <;> rfl

theorem isLowerHexDigit_hexChar (n : Nat) (h : n < 16) : isLowerHexDigit (hexChar n) = true := by
  interval_cases n <;> rfl

theorem decodeByte_encodeByte (b : Byte) :
    decodeByte (hexChar (b.val / 16)) (hexChar (b.val % 16)) = some b := by
  have hb := b.isLt
  have h1 : b.val / 16 < 16 := by omega
  have h2 : b.val % 16 < 16 := by omega
  unfold decodeByte
  rw [decodeNibble_hexChar _ h1, decodeNibble_hexChar _ h2]
  simp only [Option.some.injEq]
  apply Fin.ext
  simp only [Fin.ofNat, Fin.val_mk]
  omega

theorem String_data (t : TopicType) :
    t.String.data
      = ['0', 'x', hexChar (t.b0.val / 16), hexChar (t.b0.val % 16),
          hexChar (t.b1.val / 16), hexChar (t.b1.val % 16),
          hexChar (t.b2.val / 16), hexChar (t.b2.val % 16),
          hexChar (t.b3.val / 16), hexChar (t.b3.val % 16)] := rfl

theorem jsonStringValue_jsonQuote (value : String) (h : plainText value = true) :
    jsonStringValue (jsonQuote value) = some value := by
  unfold plainText at h
  unfold jsonStringValue jsonQuote
  simp only [List.reverse_append, List.reverse_cons, List.reverse_nil, List.nil_append,
    List.singleton_append, List.all_reverse, h, and_self, if_true, List.reverse_reverse]

theorem Unmarshal_jsonQuote (value : String) (h : plainText value = true) :
    Unmarshal (jsonQuote value) = UnmarshalText value := by
  unfold Unmarshal
  rw [jsonStringValue_jsonQuote value h]

theorem plainText_String (t : TopicType) : plainText t.String = true := by
  have h (b : Byte) : b.val / 16 < 16 ∧ b.val % 16 < 16 := by
    have := b.isLt
    omega
  unfold plainText
  rw [String_data]
  simp only [List.all_cons, List.all_nil, Bool.and_true, Bool.and_eq_true]
  refine ⟨by rfl, by rfl, ?_, ?_, ?_, ?_, ?_, ?_, ?_, ?_⟩ <;>
    first
    | exact plainChar_hexChar _ (h _).1
    | exact plainChar_hexChar _ (h _).2

theorem UnmarshalText_String (t : TopicType) : UnmarshalText t.String = Except.ok t := by
  unfold UnmarshalText
  rw [String_data]
  simp only [List.length_cons, List.length_nil, TopicLength, decodeByte_encodeByte]
  rfl

/-- C18: for every topic `t`, `t.String()` is `0x` followed by the two lower-case
hexadecimal digits of each byte in byte order, 10 characters in all, and
unmarshalling the JSON string of `t.String()` yields `t` again; the tests
`TestTopicString` and `TestUnmarshalTestsGood` pass. -/
theorem String_format_and_roundtrip (t : TopicType) :
    t.String.data = '0' :: 'x' :: (encodeByte t.b0 ++ encodeByte t.b1 ++ encodeByte t.b2
      ++ encodeByte t.b3) ∧
    t.String.length = 10 ∧
    (t.String.data.drop 2).length = 8 ∧
    (t.String.data.drop 2).all isLowerHexDigit = true ∧
    Unmarshal (jsonQuote t.String) = Except.ok t ∧
    TestTopicString = true ∧ TestUnmarshalTestsGood = true := by
  have h (b : Byte) : b.val / 16 < 16 ∧ b.val % 16 < 16 := by
    have := b.isLt
    omega
  refine ⟨rfl, rfl, rfl, ?_, ?_, by rfl, by rfl⟩
  · rw [String_data]
    simp only [List.drop_succ_cons, List.drop_zero, List.all_cons, List.all_nil,
      Bool.and_true, Bool.and_eq_true]
    refine ⟨?_, ?_, ?_, ?_, ?_, ?_, ?_, ?_⟩ <;>
      first
      | exact isLowerHexDigit_hexChar _ (h _).1
      | exact isLowerHexDigit_hexChar _ (h _).2
  · rw [Unmarshal_jsonQuote _ (plainText_String t), UnmarshalText_String]

theorem isHexDigit_of_range (c : Char) (n : Nat) (hn : c.toNat = n)
    (hr : (48 ≤ n ∧ n ≤ 57) ∨ (97 ≤ n ∧ n ≤ 102) ∨ (65 ≤ n ∧ n ≤ 70)) :
    isHexDigit c = true := by
  have hc : c = Char.ofNat n := by rw [← hn, Char.ofNat_toNat]
  subst hc
  clear hn
  rcases hr with ⟨h1, h2⟩ | ⟨h1, h2⟩ | ⟨h1, h2⟩ <;> interval_cases n <;> rfl

theorem isHexDigit_of_decode (c : Char) (h : (decodeNibble c).isSome = true) :
    isHexDigit c = true := by
  have e0 : '0'.toNat = 48 := rfl
  have e9 : '9'.toNat = 57 := rfl
  have ea : 'a'.toNat = 97 := rfl
  have ef : 'f'.toNat = 102 := rfl
  have eA : 'A'.toNat = 65 := rfl
  have eF : 'F'.toNat = 70 := rfl
  unfold decodeNibble at h
  rw [e0, e9, ea, ef, eA, eF] at h
  apply isHexDigit_of_range c c.toNat rfl
  by_cases h1 : 48 ≤ c.toNat ∧ c.toNat ≤ 57
  · exact Or.inl h1
  · by_cases h2 : 97 ≤ c.toNat ∧ c.toNat ≤ 102
    · exact Or.inr (Or.inl h2)
    · by_cases h3 : 65 ≤ c.toNat ∧ c.toNat ≤ 70
      · exact Or.inr (Or.inr h3)
      · rw [if_neg h1, if_neg h2, if_neg h3] at h
        exact absurd h (by decide)

theorem decode_of_isHexDigit (c : Char) (h : isHexDigit c = true) :
    (decodeNibble c).isSome = true := by
  unfold isHexDigit at h
  simp only [String.toList, List.contains_cons, List.contains_nil, Bool.or_false,
    Bool.or_eq_true, beq_iff_eq] at h
  rcases h with h | h | h | h | h | h | h | h | h | h | h | h | h | h | h | h | h | h | h
    | h | h | h <;>
    (subst h; rfl)

theorem decodeByte_isSome (hi lo : Char) :
    (decodeByte hi lo).isSome = true ↔ (isHexDigit hi = true ∧ isHexDigit lo = true) := by
  constructor
  · intro h
    unfold decodeByte at h
    refine ⟨isHexDigit_of_decode hi ?_, isHexDigit_of_decode lo ?_⟩
    · cases h1 : decodeNibble hi <;> simp_all
    · cases h1 : decodeNibble hi <;> cases h2 : decodeNibble lo <;> simp_all
  · rintro ⟨h1, h2⟩
    have d1 := decode_of_isHexDigit hi h1
    have d2 := decode_of_isHexDigit lo h2
    unfold decodeByte
    cases e1 : decodeNibble hi <;> cases e2 : decodeNibble lo <;> simp_all

theorem UnmarshalText_without0x (value : String)
    (h : ∀ raw, value.data ≠ '0' :: 'x' :: raw) :
    UnmarshalText value = Except.error "hex string without 0x prefix" := by
  unfold UnmarshalText
  split
  · rename_i raw heq
    exact absurd heq (h raw)
  · rfl

theorem wellFormed_without0x (value : String)
    (h : ∀ raw, value.data ≠ '0' :: 'x' :: raw) : wellFormed value = false := by
  unfold wellFormed
  split
  · rename_i raw heq
    exact absurd heq (h raw)
  · rfl

theorem UnmarshalText_with0x (value : String) (raw : List Char)
    (h : value.data = '0' :: 'x' :: raw) :
    UnmarshalText value
      = (if raw.length % 2 ≠ 0 then Except.error "hex string of odd length"
        else if raw.length / 2 ≠ TopicLength then
          Except.error ("hex string has length " ++ toString raw.length ++ ", want "
            ++ toString (2 * TopicLength) ++ " for Topic")
        else
          match raw with
          | [c0, c1, c2, c3, c4, c5, c6, c7] =>
            match decodeByte c0 c1, decodeByte c2 c3, decodeByte c4 c5, decodeByte c6 c7 with
            | some a, some b, some c, some d => Except.ok ⟨a, b, c, d⟩
            | _, _, _, _ => Except.error "invalid hex string"
          | _ => Except.error "invalid hex string") := by
  unfold UnmarshalText
  rw [h]
  rfl

theorem wellFormed_with0x (value : String) (raw : List Char)
    (h : value.data = '0' :: 'x' :: raw) :
    wellFormed value = (decide (raw.length = 8) && raw.all isHexDigit) := by
  unfold wellFormed
  rw [h]
  rfl

theorem length_eight (raw : List Char) (h : raw.length = 8) :
    ∃ c0 c1 c2 c3 c4 c5 c6 c7, raw = [c0, c1, c2, c3, c4, c5, c6, c7] := by
  rcases raw with _ | ⟨c0, _ | ⟨c1, _ | ⟨c2, _ | ⟨c3, _ | ⟨c4, _ | ⟨c5, _ | ⟨c6, _ |
    ⟨c7, _ | ⟨c8, rest⟩⟩⟩⟩⟩⟩⟩⟩⟩ <;> simp at h
  exact ⟨c0, c1, c2, c3, c4, c5, c6, c7, rfl⟩

theorem with0x_or_not (value : String) :
    (∃ raw, value.data = '0' :: 'x' :: raw) ∨ (∀ raw, value.data ≠ '0' :: 'x' :: raw) := by
  by_cases h : ∃ raw, value.data = '0' :: 'x' :: raw
  · exact Or.inl h
  · exact Or.inr (fun raw e => h ⟨raw, e⟩)

theorem UnmarshalText_eight (value : String) (c0 c1 c2 c3 c4 c5 c6 c7 : Char)
    (h : value.data = ['0', 'x', c0, c1, c2, c3, c4, c5, c6, c7]) :
    UnmarshalText value
      = (match decodeByte c0 c1, decodeByte c2 c3, decodeByte c4 c5, decodeByte c6 c7 with
          | some a, some b, some c, some d => Except.ok ⟨a, b, c, d⟩
          | _, _, _, _ => Except.error "invalid hex string") := by
  rw [UnmarshalText_with0x value _ h]
  have h1 : ¬ [c0, c1, c2, c3, c4, c5, c6, c7].length % 2 ≠ 0 := by
    simp only [List.length_cons, List.length_nil]
    omega
  have h2 : ¬ [c0, c1, c2, c3, c4, c5, c6, c7].length / 2 ≠ TopicLength := by
    simp only [List.length_cons, List.length_nil, TopicLength]
    omega
  rw [if_neg h1, if_neg h2]

theorem UnmarshalText_malformed (value : String) (h : wellFormed value = false) :
    ∃ err, UnmarshalText value = Except.error err := by
  rcases with0x_or_not value with ⟨raw, hraw⟩ | hno
  · rw [wellFormed_with0x value raw hraw] at h
    by_cases h8 : raw.length = 8
    · obtain ⟨c0, c1, c2, c3, c4, c5, c6, c7, rfl⟩ := length_eight raw h8
      rw [UnmarshalText_eight value _ _ _ _ _ _ _ _ hraw]
      cases e0 : decodeByte c0 c1 with
      | none => exact ⟨_, rfl⟩
      | some a =>
        cases e1 : decodeByte c2 c3 with
        | none => exact ⟨_, rfl⟩
        | some b =>
          cases e2 : decodeByte c4 c5 with
          | none => exact ⟨_, rfl⟩
          | some c =>
            cases e3 : decodeByte c6 c7 with
            | none => exact ⟨_, rfl⟩
            | some d =>
              exfalso
              have g0 := (decodeByte_isSome c0 c1).mp (by rw [e0]; rfl)
              have g1 := (decodeByte_isSome c2 c3).mp (by rw [e1]; rfl)
              have g2 := (decodeByte_isSome c4 c5).mp (by rw [e2]; rfl)
              have g3 := (decodeByte_isSome c6 c7).mp (by rw [e3]; rfl)
              simp [g0.1, g0.2, g1.1, g1.2, g2.1, g2.2, g3.1, g3.2] at h
    · rw [UnmarshalText_with0x value raw hraw]
      by_cases hodd : raw.length % 2 ≠ 0
      · rw [if_pos hodd]
        exact ⟨_, rfl⟩
      · rw [if_neg hodd]
        have hlen : raw.length / 2 ≠ TopicLength := by
          unfold TopicLength
          omega
        rw [if_pos hlen]
        exact ⟨_, rfl⟩
  · exact ⟨_, UnmarshalText_without0x value hno⟩

theorem UnmarshalText_wellFormed (value : String) (h : wellFormed value = true) :
    ∃ c0 c1 c2 c3 c4 c5 c6 c7 t,
      value.data = ['0', 'x', c0, c1, c2, c3, c4, c5, c6, c7] ∧
      UnmarshalText value = Except.ok t ∧
      decodeByte c0 c1 = some t.b0 ∧ decodeByte c2 c3 = some t.b1 ∧
      decodeByte c4 c5 = some t.b2 ∧ decodeByte c6 c7 = some t.b3 := by
  rcases with0x_or_not value with ⟨raw, hraw⟩ | hno
  · rw [wellFormed_with0x value raw hraw] at h
    simp only [Bool.and_eq_true, decide_eq_true_eq] at h
    obtain ⟨h8, hall⟩ := h
    obtain ⟨c0, c1, c2, c3, c4, c5, c6, c7, rfl⟩ := length_eight raw h8
    simp only [List.all_cons, List.all_nil, Bool.and_true, Bool.and_eq_true] at hall
    obtain ⟨x0, x1, x2, x3, x4, x5, x6, x7⟩ := hall
    have g0 := (decodeByte_isSome c0 c1).mpr ⟨x0, x1⟩
    have g1 := (decodeByte_isSome c2 c3).mpr ⟨x2, x3⟩
    have g2 := (decodeByte_isSome c4 c5).mpr ⟨x4, x5⟩
    have g3 := (decodeByte_isSome c6 c7).mpr ⟨x6, x7⟩
    obtain ⟨a, ea⟩ := Option.isSome_iff_exists.mp g0
    obtain ⟨b, eb⟩ := Option.isSome_iff_exists.mp g1
    obtain ⟨c, ec⟩ := Option.isSome_iff_exists.mp g2
    obtain ⟨d, ed⟩ := Option.isSome_iff_exists.mp g3
    refine ⟨c0, c1, c2, c3, c4, c5, c6, c7, ⟨a, b, c, d⟩, hraw, ?_, ea, eb, ec, ed⟩
    rw [UnmarshalText_eight value _ _ _ _ _ _ _ _ hraw, ea, eb, ec, ed]
  · rw [wellFormed_without0x value hno] at h
    exact absurd h (by decide)

/-- C19: for a JSON string literal (without escape sequences) whose text is not
`0x` followed by exactly 8 hexadecimal digits, unmarshalling into a `TopicType`
fails; for a well-formed text it succeeds and the bytes are the pairs of digits
in the order written, so `0x00000001` yields `{0, 0, 0, 1}`, which is not
`{1, 0, 0, 0}`; the tests `TestUnmarshalTestsBad` and `TestUnmarshalTestsUgly`
pass. -/
theorem Unmarshal_rejects_malformed_keeps_order (value : String)
    (hplain : plainText value = true) :
    (wellFormed value = false → (Unmarshal (jsonQuote value)).isOk = false) ∧
    (wellFormed value = true →
      ∃ c0 c1 c2 c3 c4 c5 c6 c7 t,
        value.data = ['0', 'x', c0, c1, c2, c3, c4, c5, c6, c7] ∧
        Unmarshal (jsonQuote value) = Except.ok t ∧
        decodeByte c0 c1 = some t.b0 ∧ decodeByte c2 c3 = some t.b1 ∧
        decodeByte c4 c5 = some t.b2 ∧ decodeByte c6 c7 = some t.b3) ∧
    Unmarshal (jsonQuote "0x00000001") = Except.ok ⟨0, 0, 0, 1⟩ ∧
    (⟨0, 0, 0, 1⟩ : TopicType) ≠ ⟨1, 0, 0, 0⟩ ∧
    TestUnmarshalTestsBad = true ∧ TestUnmarshalTestsUgly = true := by
  refine ⟨?_, ?_, by rfl, by decide, by rfl, by rfl⟩
  · intro h
    rw [Unmarshal_jsonQuote value hplain]
    obtain ⟨err, herr⟩ := UnmarshalText_malformed value h
    rw [herr]
    rfl
  · intro h
    rw [Unmarshal_jsonQuote value hplain]
    exact UnmarshalText_wellFormed value h

/-- Witness for C19: the text `abcdefg0` has no prefix and a character that is
not a hexadecimal digit, and unmarshalling its JSON string fails. -/
theorem Unmarshal_rejects_malformed_keeps_order_witness :
    plainText "abcdefg0" = true ∧ wellFormed "abcdefg0" = false ∧
    (Unmarshal (jsonQuote "abcdefg0")).isOk = false :=
  ⟨by rfl, by rfl,
    (Unmarshal_rejects_malformed_keeps_order "abcdefg0" (by rfl)).1 (by rfl)⟩

end Whisperv6
